import Mathlib

/-!
# PlayMate (DROMTK/Gameapp): local store and offline cache, verified

A shallow embedding of `src/app.js` (the `Analytics` and `StorageManager`
objects over `localStorage`, and the purchase entry point `unlockGame`) and of
`src/serviceWorker.js` (the install, activate and fetch listeners), followed by
theorems about them.

Modelling conventions

* JavaScript numbers are IEEE 754 doubles (`JsNumber`), with `NaN`, the two
  infinities and the two zeros; `Number::toString`, the reading of decimal
  literals and `x + 1` are computed exactly.
* JavaScript values are those built from `null`, booleans, numbers, strings,
  arrays and plain objects (`Json`); `undefined` is `Option.none` where a
  property may be missing. An object is its list of own properties in
  enumeration order (array indices ascending, then the other names in order of
  creation); `setProp` keeps that order. Strings are sequences of Unicode
  scalar values, so a lone surrogate code unit has no counterpart.
* `localStorage` is an insertion-ordered list of key/value texts with an
  optional quota; `setItem` throws `QuotaExceededError` when the quota would be
  exceeded and changes nothing in that case.
* `JSON.parse` and `JSON.stringify` are browser built-ins: every function takes
  them as a `JSONApi` value. `RefJSON.api` is an implementation after ECMA-262,
  used wherever a statement is evaluated at a concrete input.
* `new Date().toISOString()` is the argument `now` (`now2` for a second reading).
* The script runs as a classic script (no `'use strict'`): an assignment to a
  property of a boolean, number or string does nothing.
* A thrown exception is `Except.error`; `try { } catch { }` is `tryCatch`.
* `console.log` / `console.error` output is not part of the state.
-/

namespace Gameapp


/-! ## JavaScript numbers -/

/-- A JavaScript Number: an IEEE 754 binary64 value, with one `NaN`. The finite value
`fin neg bexp frac` is `(-1)^neg * frac * 2^(-1074)` when `bexp = 0` (the zeros and the
subnormal numbers) and `(-1)^neg * (2^52 + frac) * 2^(bexp - 1075)` otherwise. -/
inductive JsNumber where
  | nan
  | inf (neg : Bool)
  | fin (neg : Bool) (bexp : Fin 2047) (frac : Fin 4503599627370496)
  deriving DecidableEq, Repr

namespace JsNumber

/-- The magnitude of a finite value as a fraction `(p, q)`: the value is `p / q`. -/
def ratio (bexp frac : Nat) : Nat × Nat :=
  if bexp = 0 then (frac, 2 ^ 1074)
  else if 1075 ≤ bexp then ((4503599627370496 + frac) * 2 ^ (bexp - 1075), 1)
  else (4503599627370496 + frac, 2 ^ (1075 - bexp))

/-- Number of binary digits of `n` (`fuel` bounds it). -/
def bitLength : Nat → Nat → Nat
  | 0, _ => 0
  | fuel + 1, n => if n = 0 then 0 else bitLength fuel (n / 2) + 1

/-- The exponent of the highest power of two that is at most `n` (`0` for `n = 0`). -/
def log2 (n : Nat) : Nat := bitLength n n - 1

/-- The integer nearest to `p / q`, ties to the even one. -/
def roundHalfEven (p q : Nat) : Nat :=
  if 2 * (p % q) > q ∨ (2 * (p % q) = q ∧ (p / q) % 2 = 1) then p / q + 1 else p / q

/-- The finite value with biased exponent `b` and significand `m` (hidden bit included
when `b > 0`), or an infinity when `b` is out of range. -/
def pack (neg : Bool) (b m : Nat) : JsNumber :=
  if h : b < 2047 then
    .fin neg ⟨b, h⟩ ⟨m % 4503599627370496, Nat.mod_lt _ (by decide)⟩
  else .inf neg

/-- The Number value for the real number `(-1)^neg * p / q` (`q > 0`): the nearest
double, ties to even, an infinity on overflow. -/
def ofRatio (neg : Bool) (p q : Nat) : JsNumber :=
  if q = 0 then .nan
  else if p = 0 then pack neg 0 0
  else
    let l : Int := (log2 p : Int) - (log2 q : Int)
    let atLeast : Bool :=
      if 0 ≤ l then decide (q * 2 ^ l.toNat ≤ p) else decide (q ≤ p * 2 ^ (-l).toNat)
    let e : Int := if atLeast then l else l - 1
    let s : Int := max e (-1022) - 52
    let m : Nat :=
      if 0 ≤ s then roundHalfEven p (q * 2 ^ s.toNat) else roundHalfEven (p * 2 ^ (-s).toNat) q
    if m < 4503599627370496 then pack neg 0 m
    else if m = 9007199254740992 then pack neg (s + 1076).toNat 0
    else pack neg (s + 1075).toNat m

/-- The Number value for `(-1)^neg * digits * 10^e10`. -/
def ofDecimal (neg : Bool) (digits : Nat) (e10 : Int) : JsNumber :=
  if 0 ≤ e10 then ofRatio neg (digits * 10 ^ e10.toNat) 1
  else ofRatio neg digits (10 ^ (-e10).toNat)

/-- The Number value for an integer. -/
def ofInt (n : Int) : JsNumber :=
  ofRatio (decide (n < 0)) n.natAbs 1

/-- The value is neither `NaN` nor an infinity. -/
def isFinite : JsNumber → Bool
  | .fin _ _ _ => true
  | _ => false

/-- The value is `+0` or `-0`. -/
def isZero : JsNumber → Bool
  | .fin _ b f => decide (b.val = 0 ∧ f.val = 0)
  | _ => false

/-- The integer the value is, when it is one. -/
def toInt? : JsNumber → Option Int
  | .fin neg b f =>
      let r := ratio b.val f.val
      if r.1 % r.2 = 0 then some (if neg then -((r.1 / r.2 : Nat) : Int) else ((r.1 / r.2 : Nat) : Int))
      else none
  | _ => none

/-- The sum `x + 1` of JavaScript. -/
def addOne : JsNumber → JsNumber
  | .nan => .nan
  | .inf neg => .inf neg
  | .fin neg b f =>
      let r := ratio b.val f.val
      if neg then
        if r.1 ≤ r.2 then ofRatio false (r.2 - r.1) r.2 else ofRatio true (r.1 - r.2) r.2
      else ofRatio false (r.1 + r.2) r.2

/-- Whether `10^n ≤ p / q`. -/
def pow10Le (n : Int) (p q : Nat) : Bool :=
  if 0 ≤ n then decide (10 ^ n.toNat * q ≤ p) else decide (q ≤ p * 10 ^ (-n).toNat)

/-- Raise `n` while `10^n ≤ p / q`. -/
def raiseExp : Nat → Int → Nat → Nat → Int
  | 0, n, _, _ => n
  | fuel + 1, n, p, q => if pow10Le n p q then raiseExp fuel (n + 1) p q else n

/-- Lower `n` while `p / q < 10^(n-1)`. -/
def lowerExp : Nat → Int → Nat → Nat → Int
  | 0, n, _, _ => n
  | fuel + 1, n, p, q => if pow10Le (n - 1) p q then n else lowerExp fuel (n - 1) p q

/-- The `n` with `10^(n-1) ≤ p / q < 10^n`, for `p / q > 0`. -/
def decimalExp (p q : Nat) : Int :=
  let est : Int := (((log2 p : Int) - (log2 q : Int)) * 30103) / 100000
  lowerExp 700 (raiseExp 700 est p q) p q

/-- The two decimals of `k` digits next to `p / q` (`n` its decimal exponent): the
integers `lo` and `lo + 1` with `lo ≤ (p / q) * 10^(k-n) < lo + 1`, and whether `lo` is at
least as near as `lo + 1` (on a tie, whether `lo` is even). -/
def neighbours (p q : Nat) (n : Int) (k : Nat) : Nat × Bool :=
  let num : Nat := if n ≤ k then p * 10 ^ ((k : Int) - n).toNat else p
  let den : Nat := if n ≤ k then q else q * 10 ^ (n - (k : Int)).toNat
  (num / den,
   decide (2 * (num % den) < den) || (decide (2 * (num % den) = den) && decide ((num / den) % 2 = 0)))

/-- The shortest decimal `s * 10^(n-k)` of `k` digits whose Number value is `x`, when
there is one: of the two neighbours that one which reads back as `x`, the nearer one when
both do. The result is `(s, n)`. -/
def digitsOfLength (x : JsNumber) (p q : Nat) (n : Int) (k : Nat) : Option (Nat × Int) :=
  let nb := neighbours p q n k
  let okLo : Bool := decide (ofDecimal false nb.1 (n - k) = x) && decide (10 ^ (k - 1) ≤ nb.1)
  let okHi : Bool := decide (ofDecimal false (nb.1 + 1) (n - k) = x)
  let hi : Nat × Int := if nb.1 + 1 = 10 ^ k then (10 ^ (k - 1), n + 1) else (nb.1 + 1, n)
  if okLo && (nb.2 || !okHi) then some (nb.1, n)
  else if okHi then some hi
  else none

/-- Search the lengths `k, k+1, ...` for the shortest decimal. -/
def shortestFrom (x : JsNumber) (p q : Nat) (n : Int) : Nat → Nat → Option (Nat × Int)
  | 0, _ => none
  | fuel + 1, k =>
      match digitsOfLength x p q n k with
      | some r => some r
      | none => shortestFrom x p q n fuel (k + 1)

/-- Decimal digits of `n`, most significant first (`fuel` bounds their number). -/
def natDigits : Nat → Nat → List Char
  | 0, _ => []
  | fuel + 1, n =>
      if n < 10 then [Char.ofNat (48 + n)]
      else natDigits fuel (n / 10) ++ [Char.ofNat (48 + n % 10)]

/-- Decimal text of a natural number. -/
def natText (n : Nat) : List Char := natDigits (n + 1) n

/-- The text of `Number::toString` for the positive value with digits `ds` (the decimal
`0.ds * 10^n`). -/
def formatDigits (ds : List Char) (n : Int) : List Char :=
  let k : Int := ds.length
  if k ≤ n ∧ n ≤ 21 then ds ++ List.replicate (n - k).toNat '0'
  else if 0 < n ∧ n ≤ 21 then ds.take n.toNat ++ '.' :: ds.drop n.toNat
  else if -6 < n ∧ n ≤ 0 then '0' :: '.' :: (List.replicate (-n).toNat '0' ++ ds)
  else
    let e : List Char :=
      if 0 < n - 1 then '+' :: natText (n - 1).toNat else '-' :: natText (1 - n).toNat
    match ds with
    | [d] => d :: 'e' :: e
    | d :: more => d :: '.' :: (more ++ 'e' :: e)
    | [] => []

/-- The digits `s` and the decimal exponent `n` of `Number::toString` for a finite value
other than zero: the value is `0.s * 10^n`, with as few digits as possible. -/
def shortestDigits (b : Fin 2047) (f : Fin 4503599627370496) : Nat × Int :=
  let r := ratio b.val f.val
  let n := decimalExp r.1 r.2
  match shortestFrom (.fin false b f) r.1 r.2 n 17 1 with
  | some sn => sn
  | none => ((neighbours r.1 r.2 n 17).1, n)

/-- Characters of `Number::toString(x)` (radix 10). -/
def toChars : JsNumber → List Char
  | .nan => ['N', 'a', 'N']
  | .inf false => ['I', 'n', 'f', 'i', 'n', 'i', 't', 'y']
  | .inf true => ['-', 'I', 'n', 'f', 'i', 'n', 'i', 't', 'y']
  | .fin neg b f =>
      if b.val = 0 ∧ f.val = 0 then ['0']
      else
        (if neg then ['-'] else []) ++
          formatDigits (natText (shortestDigits b f).1) (shortestDigits b f).2

/-- Value of `Number::toString(x)`. -/
def toString (x : JsNumber) : String := String.mk (toChars x)


/-- The Number value `+0`. -/
def zero : JsNumber := .fin false ⟨0, by decide⟩ ⟨0, by decide⟩

/-- A character of a JSON number literal. -/
def isNumberChar (c : Char) : Bool :=
  c.isDigit || decide (c = '-') || decide (c = '+') || decide (c = '.') ||
    decide (c = 'e') || decide (c = 'E')

/-- Read a maximal run of decimal digits: the value (continuing `acc`), the number of
digits read (continuing `count`) and the rest of the input. -/
def readDigits : List Char → Nat → Nat → Nat × Nat × List Char
  | [], acc, count => (acc, count, [])
  | c :: cs, acc, count =>
      if c.isDigit then readDigits cs (acc * 10 + (c.toNat - 48)) (count + 1)
      else (acc, count, c :: cs)

/-- The exponent part of a decimal literal, `e` or `E` already read: an optional sign and
at least one digit, up to the end of the input. -/
def readExponent (cs : List Char) : Option Int :=
  let signed : Bool × List Char :=
    match cs with
    | '-' :: r => (true, r)
    | '+' :: r => (false, r)
    | r => (false, r)
  let d := readDigits signed.2 0 0
  if d.2.1 = 0 ∨ d.2.2 ≠ [] then none
  else some (if signed.1 then -(d.1 : Int) else (d.1 : Int))

/-- The Number value of a JSON number literal (ECMA-404: an optional minus, an integer
part without superfluous leading zero, an optional fraction, an optional exponent);
`none` when the characters are not such a literal. -/
def ofJsonLiteral (token : List Char) : Option JsNumber :=
  let signed : Bool × List Char :=
    match token with
    | '-' :: r => (true, r)
    | r => (false, r)
  match signed.2 with
  | [] => none
  | c :: _ =>
      if c.isDigit = false then none
      else
        let i := readDigits signed.2 0 0
        if c = '0' ∧ i.2.1 ≠ 1 then none
        else
          let f : Option (Nat × Nat × List Char) :=
            match i.2.2 with
            | '.' :: r =>
                if (readDigits r i.1 0).2.1 = 0 then none else some (readDigits r i.1 0)
            | r => some (i.1, 0, r)
          match f with
          | none => none
          | some (m, fcount, r) =>
              match r with
              | [] => some (ofDecimal signed.1 m (-(fcount : Int)))
              | e :: r1 =>
                  if e = 'e' ∨ e = 'E' then
                    match readExponent r1 with
                    | some ev => some (ofDecimal signed.1 m (ev - (fcount : Int)))
                    | none => none
                  else none

/-- The number survives `JSON.stringify` followed by `JSON.parse`: it is finite and its
text is a JSON number literal whose value it is. (`NaN` and the infinities are written as
`null`, and `-0` is written as `0`.) -/
def jsonStable (x : JsNumber) : Bool :=
  x.isFinite && x.toChars.all isNumberChar && decide (ofJsonLiteral x.toChars = some x)

/-- White space and line terminators that `ToNumber` strips from a string
(`StrWhiteSpaceChar`). -/
def isStrWhiteSpace (c : Char) : Bool :=
  decide (c.toNat = 9) || decide (c.toNat = 10) || decide (c.toNat = 11) ||
  decide (c.toNat = 12) || decide (c.toNat = 13) || decide (c.toNat = 32) ||
  decide (c.toNat = 160) || decide (c.toNat = 5760) ||
  decide (8192 ≤ c.toNat ∧ c.toNat ≤ 8202) || decide (c.toNat = 8232) ||
  decide (c.toNat = 8233) || decide (c.toNat = 8239) || decide (c.toNat = 8287) ||
  decide (c.toNat = 12288) || decide (c.toNat = 65279)

/-- Value of a digit in the given radix, if the character is one. -/
def radixDigit (radix : Nat) (c : Char) : Option Nat :=
  let v : Nat :=
    if 48 ≤ c.toNat ∧ c.toNat ≤ 57 then c.toNat - 48
    else if 97 ≤ c.toNat ∧ c.toNat ≤ 102 then c.toNat - 87
    else if 65 ≤ c.toNat ∧ c.toNat ≤ 70 then c.toNat - 55
    else radix
  if v < radix then some v else none

/-- Value of a non-empty run of digits in the given radix that makes up the whole input. -/
def radixValue (radix : Nat) : List Char → Nat → Option Nat
  | [], acc => some acc
  | c :: cs, acc =>
      match radixDigit radix c with
      | some d => radixValue radix cs (acc * radix + d)
      | none => none

/-- The Number value of an unsigned `StrDecimalLiteral` that is not `Infinity`: digits
with an optional fraction, or a fraction alone, and an optional exponent. -/
def ofUnsignedDecimal (neg : Bool) (cs : List Char) : JsNumber :=
  let i := readDigits cs 0 0
  let f : Nat × Nat × List Char :=
    match i.2.2 with
    | '.' :: r => readDigits r i.1 0
    | r => (i.1, 0, r)
  if i.2.1 + f.2.1 = 0 then .nan
  else
    match f.2.2 with
    | [] => ofDecimal neg f.1 (-(f.2.1 : Int))
    | e :: r1 =>
        if e = 'e' ∨ e = 'E' then
          match readExponent r1 with
          | some ev => ofDecimal neg f.1 (ev - (f.2.1 : Int))
          | none => .nan
        else .nan

/-- The Number value of a trimmed, non-empty `StringNumericLiteral`; `NaN` when the text
is none. -/
def ofTrimmed (cs : List Char) : JsNumber :=
  match cs with
  | '0' :: 'x' :: d :: r | '0' :: 'X' :: d :: r =>
      match radixValue 16 (d :: r) 0 with
      | some n => ofRatio false n 1
      | none => .nan
  | '0' :: 'o' :: d :: r | '0' :: 'O' :: d :: r =>
      match radixValue 8 (d :: r) 0 with
      | some n => ofRatio false n 1
      | none => .nan
  | '0' :: 'b' :: d :: r | '0' :: 'B' :: d :: r =>
      match radixValue 2 (d :: r) 0 with
      | some n => ofRatio false n 1
      | none => .nan
  | _ =>
      let signed : Bool × List Char :=
        match cs with
        | '-' :: r => (true, r)
        | '+' :: r => (false, r)
        | r => (false, r)
      if signed.2 = ['I', 'n', 'f', 'i', 'n', 'i', 't', 'y'] then .inf signed.1
      else ofUnsignedDecimal signed.1 signed.2

/-- The conversion `ToNumber` applied to a string (`StringToNumber`). -/
def ofString (s : String) : JsNumber :=
  let trimmed := ((s.data.dropWhile isStrWhiteSpace).reverse.dropWhile isStrWhiteSpace).reverse
  if trimmed = [] then zero else ofTrimmed trimmed

end JsNumber

/-! ## JavaScript values -/

/-- JavaScript values built from `null`, booleans, numbers, strings, arrays and plain
objects; an object is its list of own properties in enumeration order. -/
inductive Json where
  | null : Json
  | bool (b : Bool) : Json
  | num (n : JsNumber) : Json
  | str (s : String) : Json
  | arr (xs : List Json) : Json
  | obj (kvs : List (String × Json)) : Json
  deriving Repr, Inhabited

mutual
/-- Decision procedure for equality of values. -/
def Json.decEq : (a b : Json) → Decidable (a = b)
  | .null, .null => isTrue rfl
  | .bool a, .bool b =>
      if h : a = b then isTrue (congrArg Json.bool h)
      else isFalse (fun e => h (Json.bool.inj e))
  | .num a, .num b =>
      if h : a = b then isTrue (congrArg Json.num h)
      else isFalse (fun e => h (Json.num.inj e))
  | .str a, .str b =>
      if h : a = b then isTrue (congrArg Json.str h)
      else isFalse (fun e => h (Json.str.inj e))
  | .arr a, .arr b =>
      match Json.decEqList a b with
      | isTrue h => isTrue (congrArg Json.arr h)
      | isFalse h => isFalse (fun e => h (Json.arr.inj e))
  | .obj a, .obj b =>
      match Json.decEqObj a b with
      | isTrue h => isTrue (congrArg Json.obj h)
      | isFalse h => isFalse (fun e => h (Json.obj.inj e))
  | .null, .bool _ | .null, .num _ | .null, .str _ | .null, .arr _ | .null, .obj _
  | .bool _, .null | .bool _, .num _ | .bool _, .str _ | .bool _, .arr _ | .bool _, .obj _
  | .num _, .null | .num _, .bool _ | .num _, .str _ | .num _, .arr _ | .num _, .obj _
  | .str _, .null | .str _, .bool _ | .str _, .num _ | .str _, .arr _ | .str _, .obj _
  | .arr _, .null | .arr _, .bool _ | .arr _, .num _ | .arr _, .str _ | .arr _, .obj _
  | .obj _, .null | .obj _, .bool _ | .obj _, .num _ | .obj _, .str _ | .obj _, .arr _ =>
      isFalse (fun e => Json.noConfusion e)
/-- Decision procedure for equality of lists of values. -/
def Json.decEqList : (a b : List Json) → Decidable (a = b)
  | [], [] => isTrue rfl
  | [], _ :: _ | _ :: _, [] => isFalse (fun e => List.noConfusion e)
  | x :: xs, y :: ys =>
      match Json.decEq x y, Json.decEqList xs ys with
      | isTrue h, isTrue t => isTrue (congrArg₂ List.cons h t)
      | isFalse h, _ => isFalse (fun e => h (List.cons.inj e).1)
      | _, isFalse t => isFalse (fun e => t (List.cons.inj e).2)
/-- Decision procedure for equality of property lists. -/
def Json.decEqObj : (a b : List (String × Json)) → Decidable (a = b)
  | [], [] => isTrue rfl
  | [], _ :: _ | _ :: _, [] => isFalse (fun e => List.noConfusion e)
  | (k, x) :: xs, (l, y) :: ys =>
      if hk : k = l then
        match Json.decEq x y, Json.decEqObj xs ys with
        | isTrue h, isTrue t => isTrue (by rw [hk, h, t])
        | isFalse h, _ => isFalse (fun e => h (Prod.mk.inj (List.cons.inj e).1).2)
        | _, isFalse t => isFalse (fun e => t (List.cons.inj e).2)
      else isFalse (fun e => hk (Prod.mk.inj (List.cons.inj e).1).1)
end

instance : DecidableEq Json := Json.decEq

/-- The Number value of an integer, as a value. -/
def Json.int (n : Int) : Json := .num (JsNumber.ofInt n)

/-- JavaScript truthiness (`ToBoolean`): `null`, `false`, `NaN`, the zeros and the empty
string are falsy. -/
def Json.truthy : Json → Bool
  | .null => false
  | .bool b => b
  | .num .nan => false
  | .num (.inf _) => true
  | .num (.fin neg b f) => !(JsNumber.fin neg b f).isZero
  | .str s => decide (s ≠ "")
  | .arr _ => true
  | .obj _ => true

/-- Exceptions raised on the modelled paths. -/
inductive JsError where
  | syntaxError
  | typeError
  | referenceError
  | quotaExceeded
  | networkError
  deriving DecidableEq, Repr

instance {ε α : Type} [DecidableEq ε] [DecidableEq α] : DecidableEq (Except ε α)
  | .ok a, .ok b =>
      if h : a = b then isTrue (congrArg Except.ok h) else isFalse (fun e => h (Except.ok.inj e))
  | .error a, .error b =>
      if h : a = b then isTrue (congrArg Except.error h)
      else isFalse (fun e => h (Except.error.inj e))
  | .ok _, .error _ | .error _, .ok _ => isFalse (fun e => Except.noConfusion e)

/-- The `try { body } catch (error) { handler }` statement. -/
def tryCatch {α : Type} (body : Except JsError α) (handler : JsError → Except JsError α) :
    Except JsError α :=
  match body with
  | .ok a => .ok a
  | .error e => handler e

/-- The browser built-ins `JSON.parse(text)` and `JSON.stringify(value, null, space)`;
`stringify v 0` is `JSON.stringify(v)`. -/
structure JSONApi where
  parse : String → Except JsError Json
  stringify : Json → Nat → String

/-- The array index a property name denotes: the name is the decimal text, without
superfluous zero, of an integer below `2^32 - 1`. -/
def arrayIndex (name : String) : Option Nat :=
  match name.data with
  | [] => none
  | c :: cs =>
      if (c :: cs).all Char.isDigit = true ∧ (c ≠ '0' ∨ cs = []) then
        if (JsNumber.readDigits (c :: cs) 0 0).1 < 4294967295 then
          some (JsNumber.readDigits (c :: cs) 0 0).1
        else none
      else none

/-- Place of a property name in the enumeration order of an object: array indices come
first, in ascending order, the other names after them. -/
def propRank (name : String) : Nat :=
  match arrayIndex name with
  | some i => i
  | none => 4294967295

/-- Property read `o[k]` on an object's own properties (`none` is `undefined`). -/
def lookupProp : List (String × Json) → String → Option Json
  | [], _ => none
  | (k, v) :: rest, key => if k = key then some v else lookupProp rest key

/-- New value for a property the object has: the property keeps its place. -/
def replaceProp : List (String × Json) → String → Json → List (String × Json)
  | [], _, _ => []
  | (k, x) :: rest, key, v =>
      if k = key then (k, v) :: rest else (k, x) :: replaceProp rest key v

/-- New property of an object: an array index goes before the first property of higher
rank, another name goes last. -/
def insertProp : List (String × Json) → String → Json → List (String × Json)
  | [], key, v => [(key, v)]
  | (k, x) :: rest, key, v =>
      if propRank key < propRank k then (key, v) :: (k, x) :: rest
      else (k, x) :: insertProp rest key v

/-- Property write `o[k] = v` (also `CreateDataProperty`, which `JSON.parse` uses). -/
def setProp (kvs : List (String × Json)) (key : String) (v : Json) : List (String × Json) :=
  match lookupProp kvs key with
  | some _ => replaceProp kvs key v
  | none => insertProp kvs key v

/-- The properties of the object that results from defining the given members one after
the other, as `JSON.parse` does for the members of an object text: of two members with the
same name the later value wins, at the place of the first. -/
def normalizeProps (members : List (String × Json)) : List (String × Json) :=
  members.foldl (fun acc kv => setProp acc kv.1 kv.2) []

/-- Property read `value.name` for a name that is neither an array index, `length`, nor a
property of a prototype: throws `TypeError` on `null`, is `undefined` on the other
non-objects. -/
def Json.getProp (value : Json) (name : String) : Except JsError (Option Json) :=
  match value with
  | .null => .error .typeError
  | .obj kvs => .ok (lookupProp kvs name)
  | _ => .ok none

mutual
/-- The conversion `ToString`. An object without own `toString` property gives
`[object Object]`; an own `toString` property is not callable (it came from JSON text),
and neither `Object.prototype.valueOf` nor an own `valueOf` gives a primitive, so the
conversion throws a `TypeError`. An array is joined with commas. -/
def jsToString : Json → Except JsError String
  | .null => .ok "null"
  | .bool true => .ok "true"
  | .bool false => .ok "false"
  | .num n => .ok n.toString
  | .str s => .ok s
  | .arr xs => joinElems xs
  | .obj kvs =>
      match lookupProp kvs "toString" with
      | some _ => .error .typeError
      | none => .ok "[object Object]"
/-- Value of `Array.prototype.join` with a comma; `null` elements give the empty text. -/
def joinElems : List Json → Except JsError String
  | [] => .ok ""
  | x :: xs =>
      match (match x with | .null => Except.ok "" | v => jsToString v : Except JsError String) with
      | .error e => .error e
      | .ok head =>
          match xs with
          | [] => .ok head
          | _ :: _ =>
              match joinElems xs with
              | .ok tail => .ok (head ++ "," ++ tail)
              | .error e => .error e
end

/-- The conversion `ToNumber` of a property value (`none` is `undefined`). Arrays and
objects are first converted to a primitive, which is their `ToString` text. -/
def toNumber : Option Json → Except JsError JsNumber
  | none => .ok .nan
  | some .null => .ok JsNumber.zero
  | some (.bool true) => .ok (JsNumber.ofInt 1)
  | some (.bool false) => .ok JsNumber.zero
  | some (.num n) => .ok n
  | some (.str s) => .ok (JsNumber.ofString s)
  | some v =>
      match jsToString v with
      | .ok s => .ok (JsNumber.ofString s)
      | .error e => .error e

/-- The name `key` may stand before the properties `kvs`: it differs from their names and
none of them has a lower rank. -/
def fitsBefore (key : String) : List (String × Json) → Bool
  | [] => true
  | (k, _) :: rest =>
      decide (key ≠ k) && decide (propRank key ≤ propRank k) && fitsBefore key rest

/-- The properties have different names and stand in enumeration order. -/
def orderedProps : List (String × Json) → Bool
  | [] => true
  | (k, _) :: rest => fitsBefore k rest && orderedProps rest

mutual
/-- The value survives `JSON.stringify` followed by `JSON.parse`: its numbers do, and the
properties of its objects have different names and stand in enumeration order. -/
def Json.canonical : Json → Bool
  | .null => true
  | .bool _ => true
  | .num n => n.jsonStable
  | .str _ => true
  | .arr xs => Json.canonicalList xs
  | .obj kvs => orderedProps kvs && Json.canonicalProps kvs
/-- All values of the list are canonical. -/
def Json.canonicalList : List Json → Bool
  | [] => true
  | x :: xs => x.canonical && Json.canonicalList xs
/-- All property values are canonical. -/
def Json.canonicalProps : List (String × Json) → Bool
  | [] => true
  | (_, v) :: kvs => v.canonical && Json.canonicalProps kvs
end

/-! ## localStorage -/

/-- The per-origin `localStorage` area. -/
structure LocalStorage where
  items : List (String × String)
  quota : Option Nat
  deriving DecidableEq, Repr

namespace LocalStorage

/-- Value of `localStorage.getItem(key)`; `none` is `null`. -/
def getItem (s : LocalStorage) (key : String) : Option String :=
  match s.items.find? (fun kv => decide (kv.1 = key)) with
  | some kv => some kv.2
  | none => none

/-- Replace the value of `key`, or add the pair at the end. -/
def setEntry : List (String × String) → String → String → List (String × String)
  | [], key, value => [(key, value)]
  | (k, v) :: rest, key, value =>
      if k = key then (k, value) :: rest else (k, v) :: setEntry rest key value

/-- Storage space taken by the items. -/
def usage (items : List (String × String)) : Nat :=
  (items.map (fun kv => kv.1.length + kv.2.length)).sum

/-- Effect of `localStorage.setItem(key, value)`. -/
def setItem (s : LocalStorage) (key value : String) : Except JsError LocalStorage :=
  let items := setEntry s.items key value
  match s.quota with
  | none => .ok { s with items := items }
  | some q => if usage items ≤ q then .ok { s with items := items } else .error .quotaExceeded

/-- Effect of `localStorage.removeItem(key)`. -/
def removeItem (s : LocalStorage) (key : String) : LocalStorage :=
  { s with items := s.items.filter (fun kv => !decide (kv.1 = key)) }

/-- Effect of `localStorage.clear()`. -/
def clear (s : LocalStorage) : LocalStorage :=
  { s with items := [] }

/-- Value of `Object.keys(localStorage)`. -/
def keys (s : LocalStorage) : List String :=
  s.items.map Prod.fst

end LocalStorage

/-- Value of `haystack.includes(needle)` on character lists. -/
def includesChars : List Char → List Char → Bool
  | [], needle => needle.isEmpty
  | c :: cs, needle => needle.isPrefixOf (c :: cs) || includesChars cs needle

/-- Value of `haystack.includes(needle)`. -/
def includes (haystack needle : String) : Bool :=
  includesChars haystack.data needle.data


/-! ## Application state (`src/app.js`) -/

/-- The global `AppState` object. `analytics` starts as the literal and is replaced, when
the page loads, by `JSON.parse` of the text under `playmate_analytics_state`, which can be
any value. -/
structure AppState where
  currentPage : String
  settings : Json
  analytics : Json
  deriving DecidableEq, Repr

/-- The settings literal of `AppState`. -/
def defaultSettings : Json :=
  .obj [("soundEnabled", .bool true), ("theme", .str "default"),
        ("difficulty", .str "normal"), ("autoSave", .bool true)]

/-- The analytics literal of `AppState`. -/
def defaultAnalytics : Json :=
  .obj [("gamesPlayed", .int 0), ("totalPlayTime", .int 0), ("lastPlayed", .null)]

/-- The `AppState` literal the script starts from. -/
def AppState.initial : AppState where
  currentPage := "home"
  settings := defaultSettings
  analytics := defaultAnalytics

/-- What the modelled code reads and writes: `localStorage`, `AppState` and the
notifications shown by `showNotification(message, type)`, oldest first. -/
structure World where
  storage : LocalStorage
  app : AppState
  notifications : List (String × String)
  deriving DecidableEq, Repr

/-- Effect of `showNotification(message, type)`. -/
def showNotification (w : World) (message type : String) : World :=
  { w with notifications := w.notifications ++ [(message, type)] }

/-! ## An implementation of `JSON.parse` / `JSON.stringify`

ECMA-262 `JSON.stringify(value, null, space)` and `JSON.parse(text)` on the
values of `Json`. A `\u` escape of a lone surrogate code unit denotes a string
that `String` cannot hold; the parser rejects it. -/

namespace RefJSON

/-- JSON white space. -/
def isWs (c : Char) : Bool :=
  decide (c = ' ') || decide (c = '\n') || decide (c = '\r') || decide (c = '\t')

/-- Drop leading white space. -/
def skipWs : List Char → List Char
  | [] => []
  | c :: cs => if isWs c then skipWs cs else c :: cs

/-- Lower-case hexadecimal digit. -/
def hexChar (d : Nat) : Char :=
  if d < 10 then Char.ofNat (48 + d) else Char.ofNat (87 + d)

/-- Value of a hexadecimal digit. -/
def hexVal (c : Char) : Option Nat :=
  if 48 ≤ c.toNat ∧ c.toNat ≤ 57 then some (c.toNat - 48)
  else if 97 ≤ c.toNat ∧ c.toNat ≤ 102 then some (c.toNat - 87)
  else if 65 ≤ c.toNat ∧ c.toNat ≤ 70 then some (c.toNat - 55)
  else none

/-- Text of one character inside a JSON string (`QuoteJSONString`). -/
def escapeChar (c : Char) : List Char :=
  if c = '"' then ['\\', '"']
  else if c = '\\' then ['\\', '\\']
  else if c = '\n' then ['\\', 'n']
  else if c = '\r' then ['\\', 'r']
  else if c = '\t' then ['\\', 't']
  else if c = Char.ofNat 8 then ['\\', 'b']
  else if c = Char.ofNat 12 then ['\\', 'f']
  else if c.toNat < 32 then
    ['\\', 'u', '0', '0', hexChar (c.toNat / 16), hexChar (c.toNat % 16)]
  else [c]

/-- Escaped text of the characters of a string. -/
def escapeChars : List Char → List Char
  | [] => []
  | c :: cs => escapeChar c ++ escapeChars cs

/-- Quoted JSON text of a string. -/
def renderString (s : String) : List Char :=
  '"' :: (escapeChars s.data ++ ['"'])

/-- The code unit denoted by the four hexadecimal digits of a `\uXXXX` escape. -/
def codeUnit (a b c d : Char) : Option Nat :=
  match hexVal a, hexVal b, hexVal c, hexVal d with
  | some x, some y, some z, some w => some (((x * 16 + y) * 16 + z) * 16 + w)
  | _, _, _, _ => none

/-- Read a JSON string up to and including the closing quote, as code points: a character
of the text gives its code point, an escape `\uXXXX` its code unit. -/
def parseStringUnits : List Char → Option (List Nat × List Char)
  | [] => none
  | c :: r =>
      if c = '"' then some ([], r)
      else if c = '\\' then
        match r with
        | [] => none
        | e :: r1 =>
            if e = 'u' then
              match r1 with
              | h1 :: h2 :: h3 :: h4 :: r2 =>
                  match codeUnit h1 h2 h3 h4, parseStringUnits r2 with
                  | some n, some (s, rest) => some (n :: s, rest)
                  | _, _ => none
              | _ => none
            else
              let simple : Option Nat :=
                if e = '"' then some 34
                else if e = '\\' then some 92
                else if e = '/' then some 47
                else if e = 'b' then some 8
                else if e = 'f' then some 12
                else if e = 'n' then some 10
                else if e = 'r' then some 13
                else if e = 't' then some 9
                else none
              match simple, parseStringUnits r1 with
              | some n, some (s, rest) => some (n :: s, rest)
              | _, _ => none
      else if c.toNat < 32 then none
      else
        match parseStringUnits r with
        | some (s, rest) => some (c.toNat :: s, rest)
        | none => none

/-- The characters that a sequence of code points and code units denotes: a high
surrogate followed by a low surrogate is one character; a surrogate on its own denotes
none. -/
def combineUnits : List Nat → Option (List Char)
  | [] => some []
  | [n] => if 55296 ≤ n ∧ n ≤ 57343 then none else some [Char.ofNat n]
  | n :: m :: rest =>
      if 55296 ≤ n ∧ n ≤ 56319 then
        if 56320 ≤ m ∧ m ≤ 57343 then
          (combineUnits rest).map
            (fun s => Char.ofNat (65536 + (n - 55296) * 1024 + (m - 56320)) :: s)
        else none
      else if 56320 ≤ n ∧ n ≤ 57343 then none
      else (combineUnits (m :: rest)).map (fun s => Char.ofNat n :: s)

/-- Read the characters of a JSON string up to and including the closing quote. -/
def parseStringBody (cs : List Char) : Option (List Char × List Char) :=
  match parseStringUnits cs with
  | some (units, rest) => (combineUnits units).map (fun s => (s, rest))
  | none => none

/-- Line break and indentation between the items of an array or object; empty when
`gap` is zero. -/
def sep (gap ind : Nat) : List Char :=
  if gap = 0 then [] else '\n' :: List.replicate ind ' '

/-- Text between a property name and its value. -/
def colon (gap : Nat) : List Char :=
  if gap = 0 then [':'] else [':', ' ']

mutual
/-- Text of a value (`SerializeJSONProperty`) with `gap` spaces per level at indentation
`ind`. A number that is not finite is written `null`. -/
def render (gap ind : Nat) : Json → List Char
  | .null => ['n', 'u', 'l', 'l']
  | .bool true => ['t', 'r', 'u', 'e']
  | .bool false => ['f', 'a', 'l', 's', 'e']
  | .num (.fin neg b f) => (JsNumber.fin neg b f).toChars
  | .num _ => ['n', 'u', 'l', 'l']
  | .str s => renderString s
  | .arr [] => ['[', ']']
  | .arr (x :: xs) =>
      '[' :: (sep gap (ind + gap) ++ (render gap (ind + gap) x ++
        (renderElems gap (ind + gap) xs ++ (sep gap ind ++ [']']))))
  | .obj [] => ['\x7b', '\x7d']
  | .obj ((k, v) :: kvs) =>
      '\x7b' :: (sep gap (ind + gap) ++ (renderString k ++ (colon gap ++
        (render gap (ind + gap) v ++
          (renderMembers gap (ind + gap) kvs ++ (sep gap ind ++ ['\x7d']))))))
/-- Text of the second and later elements of an array, each after a comma. -/
def renderElems (gap ind : Nat) : List Json → List Char
  | [] => []
  | x :: xs => ',' :: (sep gap ind ++ (render gap ind x ++ renderElems gap ind xs))
/-- Text of the second and later properties of an object, each after a comma. -/
def renderMembers (gap ind : Nat) : List (String × Json) → List Char
  | [] => []
  | (k, v) :: kvs =>
      ',' :: (sep gap ind ++ (renderString k ++ (colon gap ++
        (render gap ind v ++ renderMembers gap ind kvs))))
end

/-- Match the literal `lit` at the head of the input. -/
def expect (lit : List Char) (cs : List Char) : Option (List Char) :=
  if lit.isPrefixOf cs then some (cs.drop lit.length) else none

/-- Read a number: the longest run of characters of number literals has to be one. -/
def parseNumber (cs : List Char) : Option (Json × List Char) :=
  match JsNumber.ofJsonLiteral (cs.takeWhile JsNumber.isNumberChar) with
  | some n => some (Json.num n, cs.dropWhile JsNumber.isNumberChar)
  | none => none

mutual
/-- Read one JSON value; `fuel` bounds the nesting and the number of items. -/
def parseValue : Nat → List Char → Option (Json × List Char)
  | 0, _ => none
  | fuel + 1, cs =>
      match skipWs cs with
      | [] => none
      | c :: r =>
          if c = 'n' then (expect ['u', 'l', 'l'] r).map (fun r1 => (Json.null, r1))
          else if c = 't' then (expect ['r', 'u', 'e'] r).map (fun r1 => (Json.bool true, r1))
          else if c = 'f' then
            (expect ['a', 'l', 's', 'e'] r).map (fun r1 => (Json.bool false, r1))
          else if c = '"' then
            (parseStringBody r).map (fun p => (Json.str (String.mk p.1), p.2))
          else if c = '[' then
            match skipWs r with
            | [] => none
            | c1 :: r1 =>
                if c1 = ']' then some (Json.arr [], r1)
                else (parseElems fuel (c1 :: r1)).map (fun p => (Json.arr p.1, p.2))
          else if c = '\x7b' then
            match skipWs r with
            | [] => none
            | c1 :: r1 =>
                if c1 = '\x7d' then some (Json.obj [], r1)
                else
                  (parseMembers fuel (c1 :: r1)).map
                    (fun p => (Json.obj (normalizeProps p.1), p.2))
          else parseNumber (c :: r)
/-- Read the elements of an array after its opening bracket, up to the closing one. -/
def parseElems : Nat → List Char → Option (List Json × List Char)
  | 0, _ => none
  | fuel + 1, cs =>
      match parseValue fuel cs with
      | none => none
      | some (v, r) =>
          match skipWs r with
          | [] => none
          | c :: r1 =>
              if c = ',' then (parseElems fuel r1).map (fun p => (v :: p.1, p.2))
              else if c = ']' then some ([v], r1)
              else none
/-- Read the members of an object after its opening brace, up to the closing one, in the
order of the text. -/
def parseMembers : Nat → List Char → Option (List (String × Json) × List Char)
  | 0, _ => none
  | fuel + 1, cs =>
      match skipWs cs with
      | [] => none
      | q :: r =>
          if q = '"' then
            match parseStringBody r with
            | none => none
            | some (k, r1) =>
                match skipWs r1 with
                | [] => none
                | c :: r2 =>
                    if c = ':' then
                      match parseValue fuel r2 with
                      | none => none
                      | some (v, r3) =>
                          match skipWs r3 with
                          | [] => none
                          | d :: r4 =>
                              if d = ',' then
                                (parseMembers fuel r4).map
                                  (fun p => ((String.mk k, v) :: p.1, p.2))
                              else if d = '\x7d' then some ([(String.mk k, v)], r4)
                              else none
                    else none
          else none
end

/-- Value of `JSON.parse(text)`; a `SyntaxError` when the text is not one JSON value. -/
def parse (text : String) : Except JsError Json :=
  match parseValue (text.data.length + 1) text.data with
  | some (v, rest) => if skipWs rest = [] then .ok v else .error .syntaxError
  | none => .error .syntaxError

/-- Value of `JSON.stringify(value, null, space)`. -/
def stringify (value : Json) (space : Nat) : String :=
  String.mk (render (min space 10) 0 value)

/-- The implementation as a `JSONApi`. -/
def api : JSONApi where
  parse := parse
  stringify := stringify

/-- The input does not continue a number literal. -/
def NoNumberHead : List Char → Prop
  | [] => True
  | c :: _ => JsNumber.isNumberChar c = false

/-- A character that can start the text of a value. -/
def ValueStart (c : Char) : Prop :=
  isWs c = false ∧ c ≠ ']' ∧ c ≠ '\x7d' ∧ c ≠ ','

end RefJSON

/-! ## `Analytics` (`src/app.js`, lines 21-67) -/

namespace Analytics

/-- The literal `{ events: [] }` that `getAnalytics` falls back to. -/
def emptyLog : Json := .obj [("events", .arr [])]

/-- Model of `Analytics.getAnalytics()`: the parsed text under `playmate_analytics`, or
`{ events: [] }` when `getItem` gives `null` or the empty text. There is no `try`
here: a `SyntaxError` of `JSON.parse` propagates. -/
def getAnalytics (J : JSONApi) (w : World) : Except JsError Json :=
  match w.storage.getItem "playmate_analytics" with
  | some analytics => if analytics ≠ "" then J.parse analytics else .ok emptyLog
  | none => .ok emptyLog

/-- The record `{ event, timestamp, data }` built by `trackEvent`. -/
def mkEvent (eventName now : String) (data : Json) : Json :=
  .obj [("event", .str eventName), ("timestamp", .str now), ("data", data)]

/-- Value of `events.slice(-100)` when `events.length > 100`, else `events`. -/
def trim (events : List Json) : List Json :=
  if events.length > 100 then events.drop (events.length - 100) else events

/-- Lines 31-37 of `trackEvent` on the value `analytics`: the value that
`JSON.stringify(analytics)` then serialises.

* `null.events` throws `TypeError`;
* on a boolean, number or string the assignment to `analytics.events` has no effect and
  `analytics.events.push` then reads `undefined.push`: `TypeError`;
* on an array the new `events` property is not an index, so `JSON.stringify` leaves it
  out and the text is that of the array itself;
* on an object, `events || []` keeps a truthy `events`; `push` exists only on arrays. -/
def appendEvent (analytics event : Json) : Except JsError Json :=
  match analytics with
  | .null => .error .typeError
  | .bool _ => .error .typeError
  | .num _ => .error .typeError
  | .str _ => .error .typeError
  | .arr xs => .ok (.arr xs)
  | .obj kvs =>
      let events : Json :=
        match lookupProp kvs "events" with
        | some v => if v.truthy then v else .arr []
        | none => .arr []
      match events with
      | .arr es => .ok (.obj (setProp kvs "events" (.arr (trim (es ++ [event])))))
      | _ => .error .typeError

/-- Model of `Analytics.trackEvent(eventName, data)`. -/
def trackEvent (J : JSONApi) (now : String) (w : World) (eventName : String) (data : Json) :
    Except JsError World :=
  match getAnalytics J w with
  | .error e => .error e
  | .ok analytics =>
      match appendEvent analytics (mkEvent eventName now data) with
      | .error e => .error e
      | .ok analytics1 =>
          match w.storage.setItem "playmate_analytics" (J.stringify analytics1 0) with
          | .error e => .error e
          | .ok st => .ok { w with storage := st }

/-- Model of `Analytics.saveAnalytics()`. -/
def saveAnalytics (J : JSONApi) (w : World) : Except JsError World :=
  match w.storage.setItem "playmate_analytics_state" (J.stringify w.app.analytics 0) with
  | .ok st => .ok { w with storage := st }
  | .error e => .error e

/-- The statement `AppState.analytics.gamesPlayed++` on the value `analytics`: the value
afterwards. Reading a property of `null` throws a `TypeError`; on an object the property
becomes `ToNumber(old) + 1`, where the conversion of an object or array value can throw;
on an array the new property is not an index, so nothing that is looked at later changes;
on a boolean, number or string the assignment does nothing. -/
def incrementGamesPlayed (analytics : Json) : Except JsError Json :=
  match analytics with
  | .null => .error .typeError
  | .obj kvs =>
      match toNumber (lookupProp kvs "gamesPlayed") with
      | .ok n => .ok (.obj (setProp kvs "gamesPlayed" (.num n.addOne)))
      | .error e => .error e
  | v => .ok v

/-- The statement `AppState.analytics.lastPlayed = new Date().toISOString()` on the value
`analytics`: the value afterwards. -/
def setLastPlayed (analytics : Json) (now : String) : Except JsError Json :=
  match analytics with
  | .null => .error .typeError
  | .obj kvs => .ok (.obj (setProp kvs "lastPlayed" (.str now)))
  | v => .ok v

/-- The two assignments to `AppState.analytics` in `trackGameStart`. -/
def noteGameStart (analytics : Json) (now : String) : Except JsError Json :=
  match incrementGamesPlayed analytics with
  | .ok counted => setLastPlayed counted now
  | .error e => .error e

/-- Model of `Analytics.trackGameStart(gameId)`: the world reached, and the error if one
was thrown. The event is timed `now`, `lastPlayed` is set to `now2`. A throw of
`trackEvent` leaves the world as it was; a throw of the assignments comes after the event
was logged; a throw of `saveAnalytics` comes after `AppState.analytics` was updated. -/
def trackGameStart (J : JSONApi) (now now2 : String) (w : World) (gameId : String) :
    World × Option JsError :=
  match trackEvent J now w "game_start" (.obj [("gameId", .str gameId)]) with
  | .error e => (w, some e)
  | .ok w1 =>
      match noteGameStart w1.app.analytics now2 with
      | .error e => (w1, some e)
      | .ok analytics =>
          match saveAnalytics J { w1 with app := { w1.app with analytics := analytics } } with
          | .ok w2 => (w2, none)
          | .error e => ({ w1 with app := { w1.app with analytics := analytics } }, some e)

/-- Model of `Analytics.trackPurchase(gameId, price)`. -/
def trackPurchase (J : JSONApi) (now : String) (w : World) (gameId : String) (price : Json) :
    Except JsError World :=
  trackEvent J now w "purchase" (.obj [("gameId", .str gameId), ("price", price)])

end Analytics

/-! ## `StorageManager` (`src/app.js`, lines 89-255) -/

namespace StorageManager

/-- The literal `{ level: 1, score: 0, highScore: 0 }`. -/
def defaultProgress : Json :=
  .obj [("level", .int 1), ("score", .int 0), ("highScore", .int 0)]

/-- Model of `StorageManager.getGameProgress(gameId)`. -/
def getGameProgress (J : JSONApi) (w : World) (gameId : String) : Except JsError Json :=
  tryCatch
    (match w.storage.getItem (gameId ++ "_progress") with
     | some progress => if progress ≠ "" then J.parse progress else .ok defaultProgress
     | none => .ok defaultProgress)
    (fun _ => .ok defaultProgress)

/-- Model of `StorageManager.setGameProgress(gameId, progress)`. -/
def setGameProgress (J : JSONApi) (w : World) (gameId : String) (progress : Json) :
    Except JsError World :=
  tryCatch
    (match w.storage.setItem (gameId ++ "_progress") (J.stringify progress 0) with
     | .ok st => .ok { w with storage := st }
     | .error e => .error e)
    (fun _ => .ok (showNotification w "Failed to save progress" "error"))

/-- Model of `StorageManager.isGameUnlocked(gameId)`. -/
def isGameUnlocked (w : World) (gameId : String) : Bool :=
  decide (w.storage.getItem (gameId ++ "_unlocked") = some "true")

/-- Model of `StorageManager.unlockGame(gameId)`. -/
def unlockGame (w : World) (gameId : String) : Except JsError World :=
  match w.storage.setItem (gameId ++ "_unlocked") "true" with
  | .ok st => .ok { w with storage := st }
  | .error e => .error e

/-- Model of `StorageManager.getSettings()`. -/
def getSettings (J : JSONApi) (w : World) : Except JsError Json :=
  tryCatch
    (match w.storage.getItem "playmate_settings" with
     | some settings => if settings ≠ "" then J.parse settings else .ok w.app.settings
     | none => .ok w.app.settings)
    (fun _ => .ok w.app.settings)

/-- Model of `StorageManager.setSettings(settings)`. -/
def setSettings (J : JSONApi) (w : World) (settings : Json) : Except JsError World :=
  tryCatch
    (match w.storage.setItem "playmate_settings" (J.stringify settings 0) with
     | .ok st => .ok { w with storage := st, app := { w.app with settings := settings } }
     | .error e => .error e)
    (fun _ => .ok (showNotification w "Failed to save settings" "error"))

/-- Model of `StorageManager.getPurchases()`. -/
def getPurchases (J : JSONApi) (w : World) : Except JsError Json :=
  tryCatch
    (match w.storage.getItem "playmate_purchases" with
     | some purchases => if purchases ≠ "" then J.parse purchases else .ok (.arr [])
     | none => .ok (.arr []))
    (fun _ => .ok (.arr []))

/-- The record `{ gameId, price, date }` pushed by `addPurchase`. -/
def purchaseRecord (gameId : String) (price : Json) (date : String) : Json :=
  .obj [("gameId", .str gameId), ("price", price), ("date", .str date)]

/-- Model of `StorageManager.addPurchase(gameId, price)`; the record is dated `now`, the
`purchase` event is timed `now2`. `push` exists only on arrays: on another value of
`getPurchases()` a `TypeError` is thrown and caught. An error thrown by `setItem` is caught
before anything was written, one thrown by `trackPurchase` after the list was written. -/
def addPurchase (J : JSONApi) (now now2 : String) (w : World) (gameId : String)
    (price : Json) : Except JsError World :=
  match getPurchases J w with
  | .ok (.arr purchases) =>
      match w.storage.setItem "playmate_purchases"
          (J.stringify (.arr (purchases ++ [purchaseRecord gameId price now])) 0) with
      | .ok st =>
          match Analytics.trackPurchase J now2 { w with storage := st } gameId price with
          | .ok w2 => .ok w2
          | .error _ => .ok { w with storage := st }
      | .error _ => .ok w
  | _ => .ok w

/-- Model of `StorageManager.resetGameProgress(gameId)`. -/
def resetGameProgress (w : World) (gameId : String) : World :=
  { w with storage := w.storage.removeItem (gameId ++ "_progress") }

/-- The loop `Object.keys(localStorage).forEach(key => { if (key.includes(pattern))
localStorage.removeItem(key) })`. -/
def removeKeysIncluding (st : LocalStorage) (pattern : String) : LocalStorage :=
  st.keys.foldl (fun acc key => if includes key pattern then acc.removeItem key else acc) st

/-- Model of `StorageManager.resetAllProgress()`. -/
def resetAllProgress (w : World) : World :=
  { w with storage := removeKeysIncluding w.storage "_progress" }

/-- Model of `StorageManager.resetAllPurchases()`. -/
def resetAllPurchases (w : World) : World :=
  { w with storage :=
      removeKeysIncluding (w.storage.removeItem "playmate_purchases") "_unlocked" }

/-- Model of `StorageManager.resetAllData()`. -/
def resetAllData (w : World) : World :=
  { w with storage := w.storage.clear }

/-- Test of the `forEach` in `exportData`: the key names a progress or unlock entry. -/
def isGameKey (key : String) : Bool :=
  includes key "_progress" || includes key "_unlocked"

/-- The object `data.games` built by the `forEach` of `exportData`. -/
def exportGames (st : LocalStorage) : List (String × Json) :=
  st.keys.foldl
    (fun games key =>
      if isGameKey key then
        setProp games key (match st.getItem key with | some v => .str v | none => .null)
      else games)
    []

/-- The object `data` that `exportData` serialises. -/
def exportBundle (J : JSONApi) (w : World) : Except JsError Json :=
  match getSettings J w with
  | .error e => .error e
  | .ok settings =>
      match getPurchases J w with
      | .error e => .error e
      | .ok purchases =>
          match Analytics.getAnalytics J w with
          | .error e => .error e
          | .ok analytics =>
              .ok (.obj [("settings", settings), ("purchases", purchases),
                         ("analytics", analytics), ("games", .obj (exportGames w.storage))])

/-- Model of `StorageManager.exportData()`: the text of the downloaded file (if any) and
the world after the notification. -/
def exportData (J : JSONApi) (w : World) : Except JsError (Option String × World) :=
  tryCatch
    (match exportBundle J w with
     | .error e => .error e
     | .ok data =>
         .ok (some (J.stringify data 2),
              showNotification w "Data exported successfully!" "success"))
    (fun _ => .ok (none, showNotification w "Failed to export data" "error"))

/-- The pairs `(key, value[key])` for `key` in `Object.keys(value)`. String values are
indexed by character. -/
def ownEntries : Json → List (String × Json)
  | .obj kvs => kvs
  | .arr xs => xs.enum.map (fun p => (toString p.1, p.2))
  | .str s => s.data.enum.map (fun p => (toString p.1, Json.str (String.singleton p.2)))
  | _ => []

/-- The `forEach` of `importData` over the entries of `data.games`: the storage reached,
and the error if one was thrown. `setItem` converts the value with `ToString`, which can
throw, and then writes, which can throw. -/
def importGames : LocalStorage → List (String × Json) → LocalStorage × Option JsError
  | st, [] => (st, none)
  | st, (key, value) :: rest =>
      match jsToString value with
      | .error e => (st, some e)
      | .ok text =>
          match st.setItem key text with
          | .ok st1 => importGames st1 rest
          | .error e => (st, some e)

/-- The statement `if (data.settings) { StorageManager.setSettings(data.settings); }`. -/
def importSettings (J : JSONApi) (w : World) (settings : Option Json) : Except JsError World :=
  match settings with
  | some v => if v.truthy then setSettings J w v else .ok w
  | none => .ok w

/-- The statement `if (data.purchases) { localStorage.setItem('playmate_purchases',
JSON.stringify(data.purchases)); }`. -/
def importPurchases (J : JSONApi) (w : World) (purchases : Option Json) :
    Except JsError World :=
  match purchases with
  | some v =>
      if v.truthy then
        match w.storage.setItem "playmate_purchases" (J.stringify v 0) with
        | .ok st => .ok { w with storage := st }
        | .error e => .error e
      else .ok w
  | none => .ok w

/-- The statement `if (data.games) { Object.keys(data.games).forEach(key => {
localStorage.setItem(key, data.games[key]); }); }`: the world reached, and the error if a
`setItem` threw. -/
def importGameData (w : World) (games : Option Json) : World × Option JsError :=
  match games with
  | some v =>
      if v.truthy then
        ({ w with storage := (importGames w.storage (ownEntries v)).1 },
          (importGames w.storage (ownEntries v)).2)
      else (w, none)
  | none => (w, none)

/-- The `try` block of the `onload` callback of `importData`, up to its last storage
write: the world reached, and the error if one was thrown. -/
def importBody (J : JSONApi) (w : World) (text : String) : World × Option JsError :=
  match J.parse text with
  | .error e => (w, some e)
  | .ok data =>
      match data.getProp "settings" with
      | .error e => (w, some e)
      | .ok settings =>
          match importSettings J w settings with
          | .error e => (w, some e)
          | .ok w1 =>
              match data.getProp "purchases" with
              | .error e => (w1, some e)
              | .ok purchases =>
                  match importPurchases J w1 purchases with
                  | .error e => (w1, some e)
                  | .ok w2 =>
                      match data.getProp "games" with
                      | .error e => (w2, some e)
                      | .ok games => importGameData w2 games

/-- Model of the `onload` callback of `StorageManager.importData(file)`, where `text` is
the content of the file (`e.target.result`). -/
def importData (J : JSONApi) (w : World) (text : String) : Except JsError World :=
  match importBody J w text with
  | (w1, none) => .ok (showNotification w1 "Data imported successfully!" "success")
  | (w1, some _) => .ok (showNotification w1 "Invalid backup file" "error")

end StorageManager

/-! ## The purchase entry point (`src/app.js`, lines 258-273; `src/games.js`, lines 212-246) -/

/-- The ids of the games in `GAMES` (`src/games.js`). -/
def GAMES : List String :=
  ["word-search", "memory-match", "2048", "color-match", "math-quiz", "platform-jump",
   "typing-test", "snake", "maze-runner", "brick-breaker"]

/-- What `unlockGame` depends on in the page: whether `games.js`, which defines
`updateGameCard`, is loaded, and whether `document.querySelector` finds the card of the
game. -/
structure Page where
  gamesScript : Bool
  cardInDocument : Bool
  deriving DecidableEq, Repr

/-- Model of `updateGameCard(gameId)` as far as the store is concerned: it writes nothing.
Without `games.js` the call is a `ReferenceError`. It returns at once when the game is not
in `GAMES` or its card is not in the document; otherwise it reads `progress.level` of
`StorageManager.getGameProgress(gameId)`, a `TypeError` when that value is `null`, and
converts it to a number and to a string, a `TypeError` when `ToNumber` throws. -/
def updateGameCard (J : JSONApi) (w : World) (page : Page) (gameId : String) :
    Except JsError Unit :=
  if page.gamesScript = false then .error .referenceError
  else if gameId ∈ GAMES ∧ page.cardInDocument = true then
    match StorageManager.getGameProgress J w gameId with
    | .error e => .error e
    | .ok progress =>
        match progress.getProp "level" with
        | .error e => .error e
        | .ok level =>
            match toNumber level with
            | .error e => .error e
            | .ok _ => .ok ()
  else .ok ()

/-- Model of the function `unlockGame(gameId, price)`: the world reached, and the value
returned or the error thrown. The purchase record is dated `now`, the `purchase` event is
timed `now2`. -/
def unlockGame (J : JSONApi) (now now2 : String) (page : Page) (w : World)
    (gameId : String) (price : Json) : World × Except JsError Bool :=
  if StorageManager.isGameUnlocked w gameId = false then
    match StorageManager.unlockGame w gameId with
    | .error e => (w, .error e)
    | .ok w1 =>
        match StorageManager.addPurchase J now now2 w1 gameId price with
        | .error e => (w1, .error e)
        | .ok w2 =>
            match updateGameCard J (showNotification w2 "Game unlocked successfully!" "success")
                page gameId with
            | .ok _ => (showNotification w2 "Game unlocked successfully!" "success", .ok true)
            | .error e =>
                (showNotification w2 "Game unlocked successfully!" "success", .error e)
  else (w, .ok false)

/-! ## Service worker (`src/serviceWorker.js`)

A promise is modelled by its settled outcome: `Except.ok v` when it is fulfilled with
`v`, `Except.error e` when it is rejected; `undefined` is `Option.none`. Each cache is
a list of `(request URL, response)` pairs and `caches` a list of named caches. -/

namespace ServiceWorker

/-- The constant `STATIC_CACHE`. -/
def STATIC_CACHE : String := "playmate-static-v1.0.0"

/-- The constant `DYNAMIC_CACHE`. -/
def DYNAMIC_CACHE : String := "playmate-dynamic-v1.0.0"

/-- The constant `STATIC_FILES`. -/
def STATIC_FILES : List String :=
  ["/", "/index.html", "/games.html", "/app.js", "/games.js", "/assets/styles.css",
   "/manifest.json",
   "/games/word-search.html", "/games/memory-match.html", "/games/2048.html",
   "/games/color-match.html", "/games/math-quiz.html", "/games/platform-jump.html",
   "/games/typing-test.html", "/games/snake.html", "/games/maze-runner.html",
   "/games/brick-breaker.html",
   "https://fonts.googleapis.com/css2?family=Poppins:wght@300;400;500;600;700&display=swap"]

/-- What the listeners read of a `Response`. -/
structure Response where
  status : Nat
  body : String
  contentType : Option String
  deriving DecidableEq, Repr

/-- What the fetch listener reads of a `Request`: `origin` is `new URL(request.url).origin`,
`accept` is `request.headers.get('accept')` (`none` for `null`). -/
structure Request where
  method : String
  url : String
  origin : String
  accept : Option String
  deriving DecidableEq, Repr

/-- One cache: request URL and stored response, oldest first. -/
abbrev Cache := List (String × Response)

/-- The `caches` object: cache name and cache, oldest first. -/
abbrev CacheStorage := List (String × Cache)

/-- The environment of the worker: `location.origin` and the outcome of `fetch(url)`. -/
structure Env where
  origin : String
  network : String → Except JsError Response

/-- The URL a request for `path` has: a path is resolved against `location.origin`. -/
def absoluteUrl (env : Env) (path : String) : String :=
  if "/".data.isPrefixOf path.data then env.origin ++ path else path

/-- Value of `cache.match(url)`. -/
def matchIn (cache : Cache) (url : String) : Option Response :=
  match cache.find? (fun p => decide (p.1 = url)) with
  | some p => some p.2
  | none => none

/-- Value that `caches.match(url)` resolves to: the match in the first cache that has
one, else `undefined`. -/
def cachesMatch : CacheStorage → String → Option Response
  | [], _ => none
  | (_, cache) :: rest, url =>
      match matchIn cache url with
      | some r => some r
      | none => cachesMatch rest url

/-- Value of `caches.keys()`. -/
def cacheNames (caches : CacheStorage) : List String :=
  caches.map Prod.fst

/-- Effect of `caches.delete(name)`. -/
def cachesDelete (caches : CacheStorage) (name : String) : CacheStorage :=
  caches.filter (fun p => !decide (p.1 = name))

/-- Effect of `caches.open(name)`: the cache is created when it does not exist. -/
def cachesOpen (caches : CacheStorage) (name : String) : CacheStorage :=
  if caches.any (fun p => decide (p.1 = name)) then caches else caches ++ [(name, [])]

/-- Effect of `cache.put(url, response)` on one cache. -/
def cachePut : Cache → String → Response → Cache
  | [], url, response => [(url, response)]
  | (u, r) :: rest, url, response =>
      if u = url then (u, response) :: rest else (u, r) :: cachePut rest url response

/-- Effect of `caches.open(name).then(cache => cache.put(url, response))`. -/
def putInto (caches : CacheStorage) (name url : String) (response : Response) : CacheStorage :=
  (cachesOpen caches name).map
    (fun p => if p.1 = name then (p.1, cachePut p.2 url response) else p)

/-- The responses `cache.addAll(urls)` fetches: `addAll` rejects with a `TypeError` when a
fetch fails or a response status is outside 200-299, and then stores nothing. -/
def fetchAll (env : Env) : List String → Except JsError (List (String × Response))
  | [] => .ok []
  | path :: rest =>
      match env.network (absoluteUrl env path) with
      | .error _ => .error .typeError
      | .ok response =>
          if 200 ≤ response.status ∧ response.status ≤ 299 then
            match fetchAll env rest with
            | .ok entries => .ok ((absoluteUrl env path, response) :: entries)
            | .error e => .error e
          else .error .typeError

/-- What an install or activate run leaves: the settled promise handed to
`event.waitUntil`, the caches, and whether `self.skipWaiting()` or
`self.clients.claim()` was called. -/
structure LifecycleResult where
  waitUntil : Except JsError Unit
  caches : CacheStorage
  called : Bool
  deriving DecidableEq, Repr

/-- The promise `p.then(f)`, on settled outcomes. -/
def andThen {α β : Type} (p : Except JsError α) (f : α → Except JsError β) :
    Except JsError β :=
  match p with
  | .ok a => f a
  | .error e => .error e

/-- The promise `p.catch(handler)`, on settled outcomes. -/
def orCatch {α : Type} (p : Except JsError α) (handler : JsError → Except JsError α) :
    Except JsError α :=
  match p with
  | .ok a => .ok a
  | .error e => handler e

/-- Effect of `cache.addAll(urls)` on the cache `name`: all responses are stored, or the
promise rejects and nothing is stored. -/
def addAll (env : Env) (caches : CacheStorage) (name : String) (urls : List String) :
    Except JsError CacheStorage :=
  match fetchAll env urls with
  | .ok entries => .ok (entries.foldl (fun cs e => putInto cs name e.1 e.2) caches)
  | .error e => .error e

/-- Model of the `install` listener. The promise handed to `event.waitUntil` is the chain
`caches.open(STATIC_CACHE).then(cache => cache.addAll(STATIC_FILES)).then(() =>
self.skipWaiting()).catch(error => { console.error(...) })`; each promise carries the
caches reached and whether `self.skipWaiting()` was called. -/
def install (env : Env) (caches : CacheStorage) : LifecycleResult :=
  let opened : Except JsError CacheStorage := .ok (cachesOpen caches STATIC_CACHE)
  let cached := andThen opened (fun cs => addAll env cs STATIC_CACHE STATIC_FILES)
  let skipped := andThen cached (fun cs => .ok (cs, true))
  let logged := orCatch skipped (fun _ => .ok (cachesOpen caches STATIC_CACHE, false))
  match logged with
  | .ok (cs, called) => { waitUntil := .ok (), caches := cs, called := called }
  | .error e => { waitUntil := .error e, caches := cachesOpen caches STATIC_CACHE, called := false }

/-- The test of the `activate` listener: the name is not one of the two current ones. -/
def isStale (cacheName : String) : Bool :=
  decide (cacheName ≠ STATIC_CACHE) && decide (cacheName ≠ DYNAMIC_CACHE)

/-- The names the `activate` listener passes to `caches.delete`, in order. -/
def activateDeletes (caches : CacheStorage) : List String :=
  (cacheNames caches).filter isStale

/-- Model of the `activate` listener: `caches.keys()`, a `caches.delete` for each stale
name, then `self.clients.claim()`. -/
def activate (caches : CacheStorage) : LifecycleResult :=
  { waitUntil := .ok (),
    caches := (activateDeletes caches).foldl cachesDelete caches,
    called := true }

/-- What the fetch listener does besides answering. -/
inductive Effect where
  | networkFetch (url : String)
  | cacheWrite (cacheName url : String) (response : Response)
  deriving DecidableEq, Repr

/-- The effect is a network fetch. -/
def Effect.isNetworkFetch : Effect → Bool
  | .networkFetch _ => true
  | .cacheWrite _ _ _ => false

/-- The effect is a cache write. -/
def Effect.isCacheWrite : Effect → Bool
  | .networkFetch _ => false
  | .cacheWrite _ _ _ => true

/-- Outcome of the fetch listener: whether `event.respondWith` was called, the settled
promise given to it (`none` is `undefined`), the network fetches and cache writes made, in
order, and the caches afterwards. -/
structure FetchResult where
  responded : Bool
  response : Except JsError (Option Response)
  effects : List Effect
  caches : CacheStorage
  deriving DecidableEq, Repr

/-- The listener's test `response && response.status === 200`, which its comment calls
"successful responses". -/
def isSuccessful (response : Response) : Bool :=
  decide (response.status = 200)

/-- The `fetch(request).then(response => ...)` part shared by both branches: the response
is returned, and a copy is put into the dynamic cache when it is successful. -/
def networkThenCache (env : Env) (caches : CacheStorage) (request : Request) :
    Except JsError Response × List Effect × CacheStorage :=
  match env.network request.url with
  | .ok response =>
      if isSuccessful response then
        (.ok response,
          [Effect.networkFetch request.url,
           Effect.cacheWrite DYNAMIC_CACHE request.url response],
          putInto caches DYNAMIC_CACHE request.url response)
      else (.ok response, [Effect.networkFetch request.url], caches)
  | .error e => (.error e, [Effect.networkFetch request.url], caches)

/-- The response `new Response('', { status: 200, headers: { 'Content-Type': 'text/css' } })`. -/
def emptyStylesheet : Response :=
  { status := 200, body := "", contentType := some "text/css" }

/-- Model of the `fetch` listener. -/
def onFetch (env : Env) (caches : CacheStorage) (request : Request) : FetchResult :=
  if request.method ≠ "GET" then
    { responded := false, response := .ok none, effects := [], caches := caches }
  else if request.origin = env.origin then
    match cachesMatch caches request.url with
    | some cached =>
        { responded := true, response := .ok (some cached), effects := [], caches := caches }
    | none =>
        match networkThenCache env caches request with
        | (.ok response, effects, caches1) =>
            { responded := true, response := .ok (some response), effects := effects,
              caches := caches1 }
        | (.error _, effects, caches1) =>
            match request.accept with
            | none =>
                { responded := true, response := .error .typeError, effects := effects,
                  caches := caches1 }
            | some accept =>
                if includes accept "text/html" then
                  { responded := true,
                    response := .ok (cachesMatch caches1 (absoluteUrl env "/index.html")),
                    effects := effects, caches := caches1 }
                else
                  { responded := true, response := .ok none, effects := effects,
                    caches := caches1 }
  else
    match cachesMatch caches request.url with
    | some cached =>
        { responded := true, response := .ok (some cached), effects := [], caches := caches }
    | none =>
        match networkThenCache env caches request with
        | (.ok response, effects, caches1) =>
            { responded := true, response := .ok (some response), effects := effects,
              caches := caches1 }
        | (.error _, effects, caches1) =>
            if includes request.url "fonts.googleapis.com" then
              { responded := true, response := .ok (some emptyStylesheet), effects := effects,
                caches := caches1 }
            else
              { responded := true, response := .ok none, effects := effects,
                caches := caches1 }

end ServiceWorker

/-! ## Observations and concrete inputs used in the statements -/

/-- The world a call leaves: the new world when it returns, the old one when it throws
(a throwing call of the operations it is used with has made no write). -/
def worldAfter (w : World) (r : Except JsError World) : World :=
  match r with
  | .ok w1 => w1
  | .error _ => w

/-- The last `n` elements of a list. -/
def lastN {α : Type} (n : Nat) (l : List α) : List α :=
  l.drop (l.length - n)

/-- What is assumed of the browser's JSON built-ins: parsing the text of a canonical value
gives the value back, and no value has the empty text. -/
structure JSONApi.Lawful (J : JSONApi) : Prop where
  parse_stringify : ∀ (v : Json) (space : Nat), v.canonical = true →
    J.parse (J.stringify v space) = .ok v
  stringify_ne_empty : ∀ (v : Json) (space : Nat), J.stringify v space ≠ ""

/-- One call `Analytics.trackEvent(eventName, data)`, made at time `now`. -/
structure EventCall where
  now : String
  eventName : String
  data : Json
  deriving DecidableEq, Repr

/-- The record the call appends to the event log. -/
def EventCall.event (c : EventCall) : Json :=
  Analytics.mkEvent c.eventName c.now c.data

/-- A sequence of `Analytics.trackEvent` calls, in order, each made whether or not the one
before it threw: the world reached and, for each call, the error it threw (`none` when it
returned). -/
def Analytics.trackEventCalls (J : JSONApi) : World → List EventCall → World × List (Option JsError)
  | w, [] => (w, [])
  | w, c :: rest =>
      match Analytics.trackEvent J c.now w c.eventName c.data with
      | .ok w1 =>
          ((Analytics.trackEventCalls J w1 rest).1,
            none :: (Analytics.trackEventCalls J w1 rest).2)
      | .error e =>
          ((Analytics.trackEventCalls J w rest).1,
            some e :: (Analytics.trackEventCalls J w rest).2)

/-- The events of the calls that returned, in call order. -/
def Analytics.returnedEvents : List EventCall → List (Option JsError) → List Json
  | c :: calls, none :: outcomes => c.event :: Analytics.returnedEvents calls outcomes
  | _ :: calls, some _ :: outcomes => Analytics.returnedEvents calls outcomes
  | _, _ => []

/-- The event list persisted under `playmate_analytics`: the `events` array of the object
the stored text denotes. -/
def Analytics.persistedEvents (J : JSONApi) (w : World) : Option (List Json) :=
  match w.storage.getItem "playmate_analytics" with
  | none => none
  | some text =>
      match J.parse text with
      | .ok (.obj kvs) =>
          match lookupProp kvs "events" with
          | some (.arr es) => some es
          | _ => none
      | _ => none

/-- The event log is well formed, with events `es0`: nothing is stored yet (no events), or
the stored text denotes a canonical object whose `events` is the array `es0`. -/
def Analytics.WellFormedLog (J : JSONApi) (w : World) (es0 : List Json) : Prop :=
  (w.storage.getItem "playmate_analytics" = none ∧ es0 = []) ∨
  (∃ text kvs, w.storage.getItem "playmate_analytics" = some text ∧ text ≠ "" ∧
    J.parse text = .ok (.obj kvs) ∧ (Json.obj kvs).canonical = true ∧
    lookupProp kvs "events" = some (.arr es0))

/-- The log read by `getAnalytics` is a canonical object whose `events` is the array
`es`. -/
def Analytics.LogInv (J : JSONApi) (w : World) (es : List Json) : Prop :=
  ∃ kvs, Analytics.getAnalytics J w = .ok (.obj kvs) ∧ (Json.obj kvs).canonical = true ∧
    lookupProp kvs "events" = some (.arr es)

/-- Export, then import of the exported file with no write in between. -/
def StorageManager.exportThenImport (J : JSONApi) (w : World) : Except JsError World :=
  match StorageManager.exportData J w with
  | .ok (some text, w1) => StorageManager.importData J w1 text
  | .ok (none, w1) => .ok w1
  | .error e => .error e

/-- The purchase list is well formed, with records `purchases`: nothing is stored yet (no
record), or the stored text denotes the array `purchases`, whose values are canonical. -/
def StorageManager.WellFormedPurchases (J : JSONApi) (w : World) (purchases : List Json) :
    Prop :=
  (w.storage.getItem "playmate_purchases" = none ∧ purchases = []) ∨
  (∃ text, w.storage.getItem "playmate_purchases" = some text ∧ text ≠ "" ∧
    J.parse text = .ok (.arr purchases) ∧ (Json.arr purchases).canonical = true)

/-- The value is an integer of at least `least`. -/
def isIntegerAtLeast (least : Int) (v : Option Json) : Bool :=
  match v with
  | some (.num n) =>
      match n.toInt? with
      | some i => decide (least ≤ i)
      | none => false
  | _ => false

/-- The value is a `GameProgress`: an object whose `level` is an integer of at least 1
and whose `score` and `highScore` are integers of at least 0. -/
def StorageManager.isGameProgress (v : Json) : Bool :=
  match v with
  | .obj kvs =>
      isIntegerAtLeast 1 (lookupProp kvs "level") &&
      isIntegerAtLeast 0 (lookupProp kvs "score") &&
      isIntegerAtLeast 0 (lookupProp kvs "highScore")
  | _ => false

/-- A call of one of the Local Store operations that are not documented to clear an
unlock flag, with its arguments and the times it reads from the clock. -/
inductive Op where
  | setGameProgress (gameId : String) (progress : Json)
  | unlockGame (gameId : String)
  | setSettings (settings : Json)
  | addPurchase (now now2 : String) (gameId : String) (price : Json)
  | trackEvent (now : String) (eventName : String) (data : Json)
  | trackGameStart (now now2 : String) (gameId : String)
  | exportData
  | resetGameProgress (gameId : String)
  | resetAllProgress

/-- The call is `resetAllProgress()`. -/
def Op.isResetAllProgress : Op → Bool
  | .resetAllProgress => true
  | _ => false

/-- The world after the call, whether it returned or threw. -/
def Op.run (J : JSONApi) (w : World) : Op → World
  | .setGameProgress gameId progress =>
      worldAfter w (StorageManager.setGameProgress J w gameId progress)
  | .unlockGame gameId => worldAfter w (StorageManager.unlockGame w gameId)
  | .setSettings settings => worldAfter w (StorageManager.setSettings J w settings)
  | .addPurchase now now2 gameId price =>
      worldAfter w (StorageManager.addPurchase J now now2 w gameId price)
  | .trackEvent now eventName data => worldAfter w (Analytics.trackEvent J now w eventName data)
  | .trackGameStart now now2 gameId => (Analytics.trackGameStart J now now2 w gameId).1
  | .exportData =>
      match StorageManager.exportData J w with
      | .ok (_, w1) => w1
      | .error _ => w
  | .resetGameProgress gameId => StorageManager.resetGameProgress w gameId
  | .resetAllProgress => StorageManager.resetAllProgress w

/-- The world after a sequence of calls, in order. -/
def runOps (J : JSONApi) (w : World) (ops : List Op) : World :=
  ops.foldl (Op.run J) w

/-- One call `unlockGame(gameId, price)`: the two times it reads from the clock, the page
it runs in, and the price. -/
structure UnlockCall where
  now : String
  now2 : String
  page : Page
  price : Json
  deriving DecidableEq, Repr

/-- Repeated calls of `unlockGame` for one id, in order: the world reached and the values
returned (or errors thrown), one per call. -/
def unlockGameCalls (J : JSONApi) (gameId : String) :
    World → List UnlockCall → World × List (Except JsError Bool)
  | w, [] => (w, [])
  | w, c :: rest =>
      ((unlockGameCalls J gameId (unlockGame J c.now c.now2 c.page w gameId c.price).1
          rest).1,
        (unlockGame J c.now c.now2 c.page w gameId c.price).2 ::
          (unlockGameCalls J gameId
            (unlockGame J c.now c.now2 c.page w gameId c.price).1 rest).2)

/-- The value is a purchase record for the game `gameId`. -/
def isRecordFor (gameId : String) (record : Json) : Bool :=
  decide (record.getProp "gameId" = .ok (some (.str gameId)))

/-- The games page: `games.js` is loaded and the cards are in the document. -/
def gamesPage : Page := { gamesScript := true, cardInDocument := true }

/-- The price `0.05` of the game `snake` in `GAMES`. -/
def snakePrice : Json := .num (JsNumber.ofDecimal false 5 (-2))

/-- The price `0.25` of the game `brick-breaker` in `GAMES`. -/
def brickBreakerPrice : Json := .num (JsNumber.ofDecimal false 25 (-2))

/-- Three calls for one game, at different times. -/
def sampleUnlockCalls : List UnlockCall :=
  [⟨"2024-01-01T10:00:00.000Z", "2024-01-01T10:00:00.001Z", gamesPage, snakePrice⟩,
   ⟨"2024-01-01T10:00:05.000Z", "2024-01-01T10:00:05.001Z", gamesPage, snakePrice⟩,
   ⟨"2024-01-01T10:00:09.000Z", "2024-01-01T10:00:09.001Z", gamesPage, brickBreakerPrice⟩]

/-- A fresh page: nothing stored, `AppState` as in its literal, no notification. -/
def World.fresh : World where
  storage := { items := [], quota := none }
  app := AppState.initial
  notifications := []

/-- A fresh page whose storage is full: every write of a new text throws. -/
def World.full : World where
  storage := { items := [], quota := some 0 }
  app := AppState.initial
  notifications := []

/-- A world with the given stored items, unlimited storage and the initial `AppState`. -/
def World.withItems (items : List (String × String)) : World where
  storage := { items := items, quota := none }
  app := AppState.initial
  notifications := []

/-- A world with the given stored items and room for `quota` characters in all. -/
def World.withQuota (items : List (String × String)) (quota : Nat) : World where
  storage := { items := items, quota := some quota }
  app := AppState.initial
  notifications := []

/-- Settings that differ from the default ones: sound off, difficulty hard. -/
def mutedSettings : Json :=
  .obj [("soundEnabled", .bool false), ("theme", .str "default"),
        ("difficulty", .str "hard"), ("autoSave", .bool true)]

/-- Two calls: a page view, then a navigation. -/
def Analytics.sampleCalls : List EventCall :=
  [⟨"2024-01-01T10:00:00.000Z", "page_view", .obj [("page", .str "home")]⟩,
   ⟨"2024-01-01T10:00:05.000Z", "navigation", .obj [("from", .str "home"), ("to", .str "games")]⟩]

/-- A hundred earlier events, numbered from 0. -/
def Analytics.hundredEvents : List Json :=
  (List.range 100).map (fun i => Analytics.mkEvent "page_view" (toString i) (.obj []))

/-- A page whose event log holds `hundredEvents`. -/
def Analytics.fullLogWorld : World :=
  World.withItems
    [("playmate_analytics", RefJSON.stringify (.obj [("events", .arr Analytics.hundredEvents)]) 0)]

/-- A store with one progress text and one unlock marker. -/
def StorageManager.sampleWorld : World :=
  World.withItems [("snake_progress", "7"), ("chess_unlocked", "true")]

namespace ServiceWorker

/-- An environment in which every network fetch fails. -/
def offline : Env where
  origin := "https://playmate.example"
  network := fun _ => .error .networkError

/-- An environment in which every network fetch is answered with the given status. -/
def online (status : Nat) : Env where
  origin := "https://playmate.example"
  network := fun url => .ok { status := status, body := url, contentType := none }

/-- A same-origin `GET` request for a page. -/
def pageRequest : Request where
  method := "GET"
  url := "https://playmate.example/games/snake.html"
  origin := "https://playmate.example"
  accept := some "text/html"

/-- A cross-origin `GET` request for a script of another site. -/
def scriptRequest : Request where
  method := "GET"
  url := "https://cdn.example.com/lib.js"
  origin := "https://cdn.example.com"
  accept := some "*/*"

/-- A cross-origin `GET` request for the font sheet of the manifest. -/
def fontRequest : Request where
  method := "GET"
  url := "https://fonts.googleapis.com/css2?family=Poppins:wght@300;400;500;600;700&display=swap"
  origin := "https://fonts.googleapis.com"
  accept := some "text/css"

/-- Caches left by an older release next to the two current ones. -/
def mixedCaches : CacheStorage :=
  [("playmate-static-v0.9.0", []), (STATIC_CACHE, []), ("other", []), (DYNAMIC_CACHE, [])]

/-- The response the environment `online status` gives for the page request. -/
def pageResponse (status : Nat) : Response :=
  { status := status, body := pageRequest.url, contentType := none }

end ServiceWorker

/-- A store whose settings text is written with blanks and whose purchases text is
`null`, next to one progress text and one unlock marker. -/
def StorageManager.spacedWorld : World :=
  World.withItems [("playmate_settings", "\x7b \"theme\": \"dark\" \x7d"),
    ("playmate_purchases", " null "), ("snake_progress", "7"), ("chess_unlocked", "true")]

/-- The file `exportData` produces in `spacedWorld`. -/
def StorageManager.spacedExport : String :=
  RefJSON.stringify (.obj [("settings", .obj [("theme", .str "dark")]), ("purchases", .null),
    ("analytics", Analytics.emptyLog),
    ("games", .obj [("snake_progress", .str "7"), ("chess_unlocked", .str "true")])]) 2

/-- A store whose settings text is the number `0` and whose purchases text is an empty
array written with a blank, next to one progress text. -/
def StorageManager.zeroWorld : World :=
  World.withItems [("playmate_settings", " 0"), ("playmate_purchases", "[ ]"),
    ("snake_progress", "7")]

/-- The file `exportData` produces in `zeroWorld`. -/
def StorageManager.zeroExport : String :=
  RefJSON.stringify (.obj [("settings", .int 0), ("purchases", .arr []),
    ("analytics", Analytics.emptyLog), ("games", .obj [("snake_progress", .str "7")])]) 2

/-- A purchase list as the page stores it: two records, with the prices `0.05` and `0.1`
of `GAMES`. -/
def StorageManager.twoPurchasesText : String :=
  "[\x7b\"gameId\":\"snake\",\"price\":0.05,\"date\":\"2024-01-01T10:00:00.000Z\"\x7d,\x7b\"gameId\":\"maze-runner\",\"price\":0.1,\"date\":\"2024-01-02T10:00:00.000Z\"\x7d]"

/-- The two records of `twoPurchasesText`. -/
def StorageManager.twoPurchases : List Json :=
  [StorageManager.purchaseRecord "snake" snakePrice "2024-01-01T10:00:00.000Z",
   StorageManager.purchaseRecord "maze-runner" (.num (JsNumber.ofDecimal false 1 (-1)))
     "2024-01-02T10:00:00.000Z"]

/-- A store that holds `twoPurchasesText` as its purchase list. -/
def StorageManager.purchasedWorld : World :=
  World.withItems [("playmate_purchases", StorageManager.twoPurchasesText)]

/-- A store whose text under `playmate_purchases` is a JSON object, not a list. -/
def objectPurchasesWorld : World :=
  World.withItems [("playmate_purchases", "\x7b\"a\":1\x7d")]

/-- A store whose progress text for `snake` is `null`. -/
def nullProgressWorld : World :=
  World.withItems [("snake_progress", "null")]

/-- The first of the `sampleUnlockCalls`. -/
def firstUnlockCall : UnlockCall :=
  ⟨"2024-01-01T10:00:00.000Z", "2024-01-01T10:00:00.001Z", gamesPage, snakePrice⟩

/-! ## Lemmas on property lists -/

theorem lookupProp_replaceProp_self (kvs : List (String × Json)) (key : String) (v x : Json)
    (h : lookupProp kvs key = some x) : lookupProp (replaceProp kvs key v) key = some v := by
  induction kvs with
  | nil => simp [lookupProp] at h
  | cons kv rest ih =>
    obtain ⟨k, y⟩ := kv
    by_cases hk : k = key
    · simp [replaceProp, lookupProp, hk]
    · simp only [lookupProp, hk, if_false] at h
      simp [replaceProp, lookupProp, hk, ih h]

theorem lookupProp_insertProp_self (kvs : List (String × Json)) (key : String) (v : Json)
    (h : lookupProp kvs key = none) : lookupProp (insertProp kvs key v) key = some v := by
  induction kvs with
  | nil => simp [insertProp, lookupProp]
  | cons kv rest ih =>
    obtain ⟨k, y⟩ := kv
    by_cases hk : k = key
    · simp [lookupProp, hk] at h
    · simp only [lookupProp, hk, if_false] at h
      by_cases hr : propRank key < propRank k
      · simp [insertProp, hr, lookupProp]
      · simp [insertProp, hr, lookupProp, hk, ih h]

theorem lookupProp_setProp_self (kvs : List (String × Json)) (key : String) (v : Json) :
    lookupProp (setProp kvs key v) key = some v := by
  unfold setProp
  cases h : lookupProp kvs key with
  | none => exact lookupProp_insertProp_self kvs key v h
  | some x => exact lookupProp_replaceProp_self kvs key v x h

theorem lookupProp_replaceProp_other (kvs : List (String × Json)) (key other : String)
    (v : Json) (hne : other ≠ key) :
    lookupProp (replaceProp kvs key v) other = lookupProp kvs other := by
  induction kvs with
  | nil => simp [replaceProp]
  | cons kv rest ih =>
    obtain ⟨k, y⟩ := kv
    by_cases hk : k = key
    · subst hk
      simp [replaceProp, lookupProp, Ne.symm hne]
    · by_cases ho : k = other
      · subst ho
        simp [replaceProp, lookupProp, hk]
      · simp [replaceProp, lookupProp, hk, ho, ih]

theorem lookupProp_insertProp_other (kvs : List (String × Json)) (key other : String)
    (v : Json) (hne : other ≠ key) :
    lookupProp (insertProp kvs key v) other = lookupProp kvs other := by
  induction kvs with
  | nil => simp [insertProp, lookupProp, Ne.symm hne]
  | cons kv rest ih =>
    obtain ⟨k, y⟩ := kv
    by_cases hr : propRank key < propRank k
    · simp [insertProp, hr, lookupProp, Ne.symm hne]
    · by_cases ho : k = other
      · subst ho
        simp [insertProp, hr, lookupProp]
      · simp [insertProp, hr, lookupProp, ho, ih]

theorem lookupProp_setProp_other (kvs : List (String × Json)) (key other : String) (v : Json)
    (hne : other ≠ key) : lookupProp (setProp kvs key v) other = lookupProp kvs other := by
  unfold setProp
  cases lookupProp kvs key with
  | none => exact lookupProp_insertProp_other kvs key other v hne
  | some x => exact lookupProp_replaceProp_other kvs key other v hne

theorem mem_replaceProp (kvs : List (String × Json)) (key : String) (v : Json) (k : String)
    (x : Json) (h : (k, x) ∈ replaceProp kvs key v) : (k, x) ∈ kvs ∨ (k = key ∧ x = v) := by
  induction kvs with
  | nil => simp [replaceProp] at h
  | cons kv rest ih =>
    obtain ⟨k0, x0⟩ := kv
    by_cases hk : k0 = key
    · simp [replaceProp, hk] at h
      rcases h with h | h
      · exact Or.inr h
      · exact Or.inl (List.mem_cons_of_mem _ h)
    · simp [replaceProp, hk] at h
      rcases h with h | h
      · exact Or.inl (by simp [h])
      · rcases ih h with h2 | h2
        · exact Or.inl (List.mem_cons_of_mem _ h2)
        · exact Or.inr h2

theorem mem_insertProp (kvs : List (String × Json)) (key : String) (v : Json) (k : String)
    (x : Json) (h : (k, x) ∈ insertProp kvs key v) : (k, x) ∈ kvs ∨ (k = key ∧ x = v) := by
  induction kvs with
  | nil => simp [insertProp] at h; exact Or.inr h
  | cons kv rest ih =>
    obtain ⟨k0, x0⟩ := kv
    by_cases hr : propRank key < propRank k0
    · simp [insertProp, hr] at h
      rcases h with h | h | h
      · exact Or.inr h
      · exact Or.inl (by simp [h])
      · exact Or.inl (List.mem_cons_of_mem _ h)
    · simp [insertProp, hr] at h
      rcases h with h | h
      · exact Or.inl (by simp [h])
      · rcases ih h with h2 | h2
        · exact Or.inl (List.mem_cons_of_mem _ h2)
        · exact Or.inr h2

theorem mem_setProp (kvs : List (String × Json)) (key : String) (v : Json) (k : String)
    (x : Json) (h : (k, x) ∈ setProp kvs key v) : (k, x) ∈ kvs ∨ (k = key ∧ x = v) := by
  unfold setProp at h
  cases hl : lookupProp kvs key with
  | none => rw [hl] at h; exact mem_insertProp kvs key v k x h
  | some y => rw [hl] at h; exact mem_replaceProp kvs key v k x h

theorem lookupProp_eq_none (kvs : List (String × Json)) (key : String)
    (h : ∀ kv ∈ kvs, kv.1 ≠ key) : lookupProp kvs key = none := by
  induction kvs with
  | nil => rfl
  | cons kv rest ih =>
    obtain ⟨k, y⟩ := kv
    have hk : k ≠ key := h (k, y) (List.mem_cons_self _ _)
    simp [lookupProp, hk, ih (fun kv hkv => h kv (List.mem_cons_of_mem _ hkv))]

theorem ne_of_lookupProp_none (kvs : List (String × Json)) (key : String)
    (h : lookupProp kvs key = none) : ∀ kv ∈ kvs, kv.1 ≠ key := by
  induction kvs with
  | nil => intro kv hkv; cases hkv
  | cons kv rest ih =>
    obtain ⟨k, y⟩ := kv
    by_cases hk : k = key
    · simp [lookupProp, hk] at h
    · simp only [lookupProp, hk, if_false] at h
      intro kv hkv
      rcases List.mem_cons.mp hkv with rfl | h2
      · exact hk
      · exact ih h kv h2

theorem fitsBefore_iff (key : String) (kvs : List (String × Json)) :
    fitsBefore key kvs = true ↔ ∀ kv ∈ kvs, key ≠ kv.1 ∧ propRank key ≤ propRank kv.1 := by
  induction kvs with
  | nil => simp [fitsBefore]
  | cons kv rest ih =>
    obtain ⟨k, y⟩ := kv
    simp only [fitsBefore, Bool.and_eq_true, decide_eq_true_eq, ih, List.mem_cons,
      forall_eq_or_imp]

theorem orderedProps_append (xs ys : List (String × Json)) :
    orderedProps (xs ++ ys) = true ↔
      orderedProps xs = true ∧ orderedProps ys = true ∧
        ∀ a ∈ xs, ∀ b ∈ ys, a.1 ≠ b.1 ∧ propRank a.1 ≤ propRank b.1 := by
  induction xs with
  | nil => simp [orderedProps]
  | cons kv rest ih =>
    obtain ⟨k, y⟩ := kv
    have hcons : orderedProps ((k, y) :: rest ++ ys)
        = (fitsBefore k (rest ++ ys) && orderedProps (rest ++ ys)) := rfl
    rw [hcons, Bool.and_eq_true, ih, fitsBefore_iff]
    have hcons2 : orderedProps ((k, y) :: rest) = (fitsBefore k rest && orderedProps rest) := rfl
    rw [hcons2, Bool.and_eq_true, fitsBefore_iff]
    constructor
    · rintro ⟨h1, h2, h3, h4⟩
      refine ⟨⟨fun kv hkv => h1 kv (List.mem_append.mpr (Or.inl hkv)), h2⟩, h3, ?_⟩
      intro a ha b hb
      rcases List.mem_cons.mp ha with rfl | ha2
      · exact h1 b (List.mem_append.mpr (Or.inr hb))
      · exact h4 a ha2 b hb
    · rintro ⟨⟨h1, h2⟩, h3, h4⟩
      refine ⟨?_, h2, h3, fun a ha b hb => h4 a (List.mem_cons_of_mem _ ha) b hb⟩
      intro kv hkv
      rcases List.mem_append.mp hkv with h | h
      · exact h1 kv h
      · exact h4 (k, y) (List.mem_cons_self _ _) kv h

theorem insertProp_eq_append (kvs : List (String × Json)) (key : String) (v : Json)
    (h : ∀ kv ∈ kvs, propRank kv.1 ≤ propRank key) : insertProp kvs key v = kvs ++ [(key, v)] := by
  induction kvs with
  | nil => rfl
  | cons kv rest ih =>
    obtain ⟨k, y⟩ := kv
    have hk : ¬ propRank key < propRank k := by
      have := h (k, y) (List.mem_cons_self _ _)
      simp only at this
      omega
    simp [insertProp, hk, ih (fun kv hkv => h kv (List.mem_cons_of_mem _ hkv))]

theorem foldl_setProp_of_ordered (rest : List (String × Json)) :
    ∀ acc : List (String × Json), orderedProps (acc ++ rest) = true →
      rest.foldl (fun acc kv => setProp acc kv.1 kv.2) acc = acc ++ rest := by
  induction rest with
  | nil => intro acc _; simp
  | cons kv rest ih =>
    intro acc h
    obtain ⟨k, v⟩ := kv
    have h2 := (orderedProps_append acc ((k, v) :: rest)).mp h
    have hnone : lookupProp acc k = none :=
      lookupProp_eq_none acc k
        (fun a ha => (h2.2.2 a ha (k, v) (List.mem_cons_self _ _)).1)
    have hset : setProp acc k v = acc ++ [(k, v)] := by
      unfold setProp
      rw [hnone]
      exact insertProp_eq_append acc k v
        (fun a ha => (h2.2.2 a ha (k, v) (List.mem_cons_self _ _)).2)
    simp only [List.foldl_cons, hset]
    rw [ih (acc ++ [(k, v)]) (by simpa using h)]
    simp

/-- Defining the properties of an ordered list one after the other gives the list. -/
theorem normalizeProps_of_ordered (kvs : List (String × Json)) (h : orderedProps kvs = true) :
    normalizeProps kvs = kvs := by
  have := foldl_setProp_of_ordered kvs [] (by simpa using h)
  simpa [normalizeProps] using this

theorem fitsBefore_replaceProp (a : String) (kvs : List (String × Json)) (key : String)
    (v : Json) : fitsBefore a (replaceProp kvs key v) = fitsBefore a kvs := by
  induction kvs with
  | nil => rfl
  | cons kv rest ih =>
    obtain ⟨k, y⟩ := kv
    by_cases hk : k = key
    · simp [replaceProp, hk, fitsBefore]
    · simp [replaceProp, hk, fitsBefore, ih]

theorem orderedProps_replaceProp (kvs : List (String × Json)) (key : String) (v : Json) :
    orderedProps (replaceProp kvs key v) = orderedProps kvs := by
  induction kvs with
  | nil => rfl
  | cons kv rest ih =>
    obtain ⟨k, y⟩ := kv
    by_cases hk : k = key
    · simp [replaceProp, hk, orderedProps]
    · simp [replaceProp, hk, orderedProps, ih, fitsBefore_replaceProp]

theorem fitsBefore_insertProp (a : String) (kvs : List (String × Json)) (key : String)
    (v : Json) :
    fitsBefore a (insertProp kvs key v) = true ↔
      fitsBefore a kvs = true ∧ a ≠ key ∧ propRank a ≤ propRank key := by
  induction kvs with
  | nil => simp [insertProp, fitsBefore]
  | cons kv rest ih =>
    obtain ⟨k, y⟩ := kv
    by_cases hr : propRank key < propRank k
    · simp only [insertProp, hr, if_true, fitsBefore, Bool.and_eq_true, decide_eq_true_eq]
      tauto
    · simp only [insertProp, hr, if_false, fitsBefore, Bool.and_eq_true, decide_eq_true_eq, ih]
      tauto

theorem orderedProps_insertProp (kvs : List (String × Json)) (key : String) (v : Json)
    (hnone : lookupProp kvs key = none) (h : orderedProps kvs = true) :
    orderedProps (insertProp kvs key v) = true := by
  induction kvs with
  | nil => simp [insertProp, orderedProps, fitsBefore]
  | cons kv rest ih =>
    obtain ⟨k, y⟩ := kv
    have hk : k ≠ key := ne_of_lookupProp_none _ _ hnone (k, y) (List.mem_cons_self _ _)
    have hnone2 : lookupProp rest key = none := by
      simpa [lookupProp, hk] using hnone
    simp only [orderedProps, Bool.and_eq_true] at h
    by_cases hr : propRank key < propRank k
    · simp only [insertProp, hr, if_true, orderedProps, Bool.and_eq_true, fitsBefore,
        decide_eq_true_eq]
      refine ⟨⟨⟨Ne.symm hk, by omega⟩, ?_⟩, h.1, h.2⟩
      rw [fitsBefore_iff]
      intro b hb
      have hb2 := (fitsBefore_iff k rest).mp h.1 b hb
      exact ⟨Ne.symm (ne_of_lookupProp_none _ _ hnone2 b hb), by omega⟩
    · simp only [insertProp, hr, if_false, orderedProps, Bool.and_eq_true]
      exact ⟨(fitsBefore_insertProp k rest key v).mpr ⟨h.1, hk, by omega⟩, ih hnone2 h.2⟩

/-- A property write keeps the properties of an object in enumeration order. -/
theorem orderedProps_setProp (kvs : List (String × Json)) (key : String) (v : Json)
    (h : orderedProps kvs = true) : orderedProps (setProp kvs key v) = true := by
  unfold setProp
  cases hl : lookupProp kvs key with
  | none => exact orderedProps_insertProp kvs key v hl h
  | some x => simp only []; rw [orderedProps_replaceProp]; exact h

theorem canonicalProps_iff (kvs : List (String × Json)) :
    Json.canonicalProps kvs = true ↔ ∀ kv ∈ kvs, kv.2.canonical = true := by
  induction kvs with
  | nil => simp [Json.canonicalProps]
  | cons kv rest ih =>
    obtain ⟨k, y⟩ := kv
    simp [Json.canonicalProps, ih]

theorem canonicalList_iff (xs : List Json) :
    Json.canonicalList xs = true ↔ ∀ x ∈ xs, x.canonical = true := by
  induction xs with
  | nil => simp [Json.canonicalList]
  | cons x rest ih => simp [Json.canonicalList, ih]

theorem canonical_obj_iff (kvs : List (String × Json)) :
    (Json.obj kvs).canonical = true ↔
      orderedProps kvs = true ∧ ∀ kv ∈ kvs, kv.2.canonical = true := by
  simp [Json.canonical, canonicalProps_iff]

theorem canonical_arr_iff (xs : List Json) :
    (Json.arr xs).canonical = true ↔ ∀ x ∈ xs, x.canonical = true := by
  simp [Json.canonical, canonicalList_iff]

theorem mem_of_lookupProp (kvs : List (String × Json)) (key : String) (v : Json)
    (h : lookupProp kvs key = some v) : (key, v) ∈ kvs := by
  induction kvs with
  | nil => simp [lookupProp] at h
  | cons kv rest ih =>
    obtain ⟨k, y⟩ := kv
    by_cases hk : k = key
    · simp [lookupProp, hk] at h
      simp [hk, h]
    · simp only [lookupProp, hk, if_false] at h
      exact List.mem_cons_of_mem _ (ih h)

/-- The value of a property of a canonical object is canonical. -/
theorem canonical_of_lookupProp (kvs : List (String × Json)) (key : String) (v : Json)
    (hc : (Json.obj kvs).canonical = true) (h : lookupProp kvs key = some v) :
    v.canonical = true :=
  ((canonical_obj_iff kvs).mp hc).2 (key, v) (mem_of_lookupProp kvs key v h)

/-- A property write with a canonical value keeps an object canonical. -/
theorem canonical_setProp (kvs : List (String × Json)) (key : String) (v : Json)
    (hc : (Json.obj kvs).canonical = true) (hv : v.canonical = true) :
    (Json.obj (setProp kvs key v)).canonical = true := by
  rw [canonical_obj_iff] at hc ⊢
  refine ⟨orderedProps_setProp kvs key v hc.1, ?_⟩
  rintro ⟨k, x⟩ hkx
  rcases mem_setProp kvs key v k x hkx with h | ⟨_, rfl⟩
  · exact hc.2 (k, x) h
  · exact hv

/-! ## Lemmas: the text of a number -/

namespace JsNumber

theorem natDigits_head (fuel n : Nat) (h : n < fuel) :
    ∃ d more, natDigits fuel n = Char.ofNat (48 + d) :: more ∧ d < 10 := by
  induction fuel generalizing n with
  | zero => omega
  | succ f ih =>
    unfold natDigits
    by_cases h10 : n < 10
    · exact ⟨n, [], by simp [h10], h10⟩
    · obtain ⟨d, more, hr, hd⟩ := ih (n / 10) (by omega)
      exact ⟨d, more ++ [Char.ofNat (48 + n % 10)], by simp [h10, hr], hd⟩

theorem formatDigits_head (c : Char) (more : List Char) (n : Int) :
    ∃ t, formatDigits (c :: more) n = c :: t ∨ formatDigits (c :: more) n = '0' :: t := by
  unfold formatDigits
  by_cases h1 : ((c :: more).length : Int) ≤ n ∧ n ≤ 21
  · rw [if_pos h1]
    exact ⟨_, Or.inl rfl⟩
  · rw [if_neg h1]
    by_cases h2 : 0 < n ∧ n ≤ 21
    · obtain ⟨m, hm⟩ : ∃ m, n.toNat = m + 1 := ⟨n.toNat - 1, by omega⟩
      rw [if_pos h2, hm]
      exact ⟨_, Or.inl rfl⟩
    · rw [if_neg h2]
      by_cases h3 : -6 < n ∧ n ≤ 0
      · rw [if_pos h3]
        exact ⟨_, Or.inr rfl⟩
      · rw [if_neg h3]
        cases more with
        | nil => exact ⟨_, Or.inl rfl⟩
        | cons d ds => exact ⟨_, Or.inl rfl⟩

/-- The text of a finite number starts with a minus sign or a digit. -/
theorem toChars_fin_head (neg : Bool) (b : Fin 2047) (f : Fin 4503599627370496) :
    ∃ c t, toChars (.fin neg b f) = c :: t ∧ (c = '-' ∨ ∃ d, d < 10 ∧ c = Char.ofNat (48 + d)) := by
  have hdef : toChars (.fin neg b f) =
      (if b.val = 0 ∧ f.val = 0 then ['0']
       else (if neg then ['-'] else []) ++
          formatDigits (natText (shortestDigits b f).1) (shortestDigits b f).2) := rfl
  rw [hdef]
  by_cases hz : b.val = 0 ∧ f.val = 0
  · rw [if_pos hz]
    exact ⟨'0', [], rfl, Or.inr ⟨0, by omega, rfl⟩⟩
  · rw [if_neg hz]
    cases neg with
    | true => exact ⟨'-', _, rfl, Or.inl rfl⟩
    | false =>
      obtain ⟨d, more, hd, hlt⟩ :=
        natDigits_head ((shortestDigits b f).1 + 1) (shortestDigits b f).1 (by omega)
      obtain ⟨t, ht | ht⟩ := formatDigits_head (Char.ofNat (48 + d)) more (shortestDigits b f).2
      · exact ⟨_, t, by rw [natText, hd, ht]; rfl, Or.inr ⟨d, hlt, rfl⟩⟩
      · exact ⟨_, t, by rw [natText, hd, ht]; rfl, Or.inr ⟨0, by omega, rfl⟩⟩

theorem takeWhile_append_of_all (p : Char → Bool) (tok rest : List Char)
    (h1 : tok.all p = true) (h2 : ∀ c t, rest = c :: t → p c = false) :
    (tok ++ rest).takeWhile p = tok ∧ (tok ++ rest).dropWhile p = rest := by
  induction tok with
  | nil =>
    cases rest with
    | nil => simp
    | cons c t => simp [List.takeWhile, List.dropWhile, h2 c t rfl]
  | cons c cs ih =>
    simp only [List.all_cons, Bool.and_eq_true] at h1
    simp [List.takeWhile, List.dropWhile, h1.1, ih h1.2]

end JsNumber

/-! ## Lemmas: the JSON implementation is lawful -/

namespace RefJSON

theorem codeUnit_control (n : Nat) (h : n < 32) :
    codeUnit '0' '0' (hexChar (n / 16)) (hexChar (n % 16)) = some n := by
  interval_cases n <;> decide

theorem parseStringUnits_escapeChar (c : Char) (tail : List Char) (s : List Nat)
    (rest : List Char) (ih : parseStringUnits tail = some (s, rest)) :
    parseStringUnits (escapeChar c ++ tail) = some (c.toNat :: s, rest) := by
  unfold escapeChar
  by_cases h1 : c = '"'
  · subst h1; (rw [parseStringUnits.eq_def]; simp [ih])
  by_cases h2 : c = '\\'
  · subst h2; (rw [parseStringUnits.eq_def]; simp [ih])
  by_cases h3 : c = '\n'
  · subst h3; (rw [parseStringUnits.eq_def]; simp [ih])
  by_cases h4 : c = '\r'
  · subst h4; (rw [parseStringUnits.eq_def]; simp [ih])
  by_cases h5 : c = '\t'
  · subst h5; (rw [parseStringUnits.eq_def]; simp [ih])
  by_cases h6 : c = Char.ofNat 8
  · subst h6; (rw [parseStringUnits.eq_def]; simp [ih])
  by_cases h7 : c = Char.ofNat 12
  · subst h7; (rw [parseStringUnits.eq_def]; simp [ih])
  by_cases h8 : c.toNat < 32
  · simp only [h1, h2, h3, h4, h5, h6, h7, h8, if_false, if_true, List.cons_append,
      List.nil_append]
    have hu := codeUnit_control c.toNat h8
    (rw [parseStringUnits.eq_def]; simp [hu, ih])
  · (rw [parseStringUnits.eq_def]; simp [h1, h2, h3, h4, h5, h6, h7, h8, ih])

theorem parseStringUnits_escapeChars (s rest : List Char) :
    parseStringUnits (escapeChars s ++ '"' :: rest) = some (s.map Char.toNat, rest) := by
  induction s with
  | nil => rw [parseStringUnits.eq_def]; simp [escapeChars]
  | cons c cs ih =>
    simp only [escapeChars, List.append_assoc, List.map_cons]
    exact parseStringUnits_escapeChar c _ _ rest ih

theorem not_surrogate (c : Char) : ¬ (55296 ≤ c.toNat ∧ c.toNat ≤ 57343) := by
  have h := c.valid
  simp only [UInt32.isValidChar, Nat.isValidChar] at h
  have : c.toNat = c.val.toNat := rfl
  omega

theorem combineUnits_map_toNat (s : List Char) : combineUnits (s.map Char.toNat) = some s := by
  induction s with
  | nil => rfl
  | cons c cs ih =>
    have hc := not_surrogate c
    cases cs with
    | nil => simp [combineUnits, hc, Char.ofNat_toNat]
    | cons d ds =>
      have h1 : ¬ (55296 ≤ c.toNat ∧ c.toNat ≤ 56319) := by omega
      have h2 : ¬ (56320 ≤ c.toNat ∧ c.toNat ≤ 57343) := by omega
      simp only [List.map_cons] at ih ⊢
      simp only [combineUnits, h1, h2, if_false, ih, Option.map_some', Char.ofNat_toNat]

theorem parseStringBody_escapeChars (s rest : List Char) :
    parseStringBody (escapeChars s ++ '"' :: rest) = some (s, rest) := by
  simp [parseStringBody, parseStringUnits_escapeChars, combineUnits_map_toNat]

theorem skipWs_of_not_ws (c : Char) (cs : List Char) (h : isWs c = false) :
    skipWs (c :: cs) = c :: cs := by
  simp [skipWs, h]

theorem skipWs_replicate (n : Nat) (cs : List Char) :
    skipWs (List.replicate n ' ' ++ cs) = skipWs cs := by
  induction n with
  | zero => simp
  | succ k ih => simp [List.replicate_succ, skipWs, isWs, ih]

theorem skipWs_sep (gap ind : Nat) (cs : List Char) : skipWs (sep gap ind ++ cs) = skipWs cs := by
  unfold sep
  by_cases h : gap = 0
  · simp [h]
  · simp [h, skipWs, isWs, skipWs_replicate]

theorem parseValue_congr (fuel : Nat) (a b : List Char) (h : skipWs a = skipWs b) :
    parseValue fuel a = parseValue fuel b := by
  cases fuel with
  | zero => simp [parseValue]
  | succ f => simp only [parseValue, h]

theorem parseElems_congr (fuel : Nat) (a b : List Char) (h : skipWs a = skipWs b) :
    parseElems fuel a = parseElems fuel b := by
  cases fuel with
  | zero => simp [parseElems]
  | succ f => simp only [parseElems, parseValue_congr f a b h]

theorem parseMembers_congr (fuel : Nat) (a b : List Char) (h : skipWs a = skipWs b) :
    parseMembers fuel a = parseMembers fuel b := by
  cases fuel with
  | zero => simp [parseMembers]
  | succ f => simp only [parseMembers, h]

theorem valueStart_digit (d : Nat) (h : d < 10) : ValueStart (Char.ofNat (48 + d)) := by
  interval_cases d <;> simp [ValueStart] <;> decide

theorem render_head (gap ind : Nat) (v : Json) :
    ∃ c t, render gap ind v = c :: t ∧ ValueStart c := by
  cases v with
  | null => exact ⟨'n', _, rfl, by simp [ValueStart]; decide⟩
  | bool b => cases b
              · exact ⟨'f', _, rfl, by simp [ValueStart]; decide⟩
              · exact ⟨'t', _, rfl, by simp [ValueStart]; decide⟩
  | num n =>
    cases n with
    | nan => exact ⟨'n', _, rfl, by simp [ValueStart]; decide⟩
    | inf neg => exact ⟨'n', _, rfl, by simp [ValueStart]; decide⟩
    | fin neg b f =>
      obtain ⟨c, t, hc, hd⟩ := JsNumber.toChars_fin_head neg b f
      refine ⟨c, t, by simp [render, hc], ?_⟩
      rcases hd with rfl | ⟨d, hd, rfl⟩
      · simp [ValueStart]; decide
      · exact valueStart_digit d hd
  | str s => exact ⟨'"', _, rfl, by simp [ValueStart]; decide⟩
  | arr xs =>
    cases xs with
    | nil => exact ⟨'[', _, rfl, by simp [ValueStart]; decide⟩
    | cons x xs => exact ⟨'[', _, rfl, by simp [ValueStart]; decide⟩
  | obj kvs =>
    cases kvs with
    | nil => exact ⟨'\x7b', _, rfl, by simp [ValueStart]; decide⟩
    | cons kv kvs =>
      obtain ⟨k, v⟩ := kv
      exact ⟨'\x7b', _, rfl, by simp [ValueStart]; decide⟩

theorem noNumberHead_sep_cons (gap ind : Nat) (c : Char) (cs : List Char)
    (h : JsNumber.isNumberChar c = false) : NoNumberHead (sep gap ind ++ c :: cs) := by
  unfold sep
  by_cases hg : gap = 0
  · simpa [hg] using h
  · simp only [hg, if_false, List.cons_append]
    exact (by decide : JsNumber.isNumberChar '\n' = false)

theorem noNumberHead_elems (gap i j : Nat) (xs : List Json) (c : Char) (cs : List Char)
    (h : JsNumber.isNumberChar c = false) :
    NoNumberHead (renderElems gap i xs ++ (sep gap j ++ c :: cs)) := by
  cases xs with
  | nil => simpa [renderElems] using noNumberHead_sep_cons gap j c cs h
  | cons x xs => exact (by decide : JsNumber.isNumberChar ',' = false)

theorem noNumberHead_members (gap i j : Nat) (kvs : List (String × Json)) (c : Char)
    (cs : List Char) (h : JsNumber.isNumberChar c = false) :
    NoNumberHead (renderMembers gap i kvs ++ (sep gap j ++ c :: cs)) := by
  cases kvs with
  | nil => simpa [renderMembers] using noNumberHead_sep_cons gap j c cs h
  | cons kv kvs => exact (by decide : JsNumber.isNumberChar ',' = false)

/-- A character of a number literal starts no other kind of value and is no white space. -/
theorem numberChar_other (c : Char) (h : JsNumber.isNumberChar c = true) :
    isWs c = false ∧ c ≠ 'n' ∧ c ≠ 't' ∧ c ≠ 'f' ∧ c ≠ '"' ∧ c ≠ '[' ∧ c ≠ '\x7b' := by
  have hne : ∀ d : Char, JsNumber.isNumberChar d = false → c ≠ d := by
    intro d hd he
    rw [he, hd] at h
    cases h
  refine ⟨?_, hne _ (by decide), hne _ (by decide), hne _ (by decide), hne _ (by decide),
    hne _ (by decide), hne _ (by decide)⟩
  simp only [isWs, Bool.or_eq_false_iff, decide_eq_false_iff_not]
  exact ⟨⟨⟨hne _ (by decide), hne _ (by decide)⟩, hne _ (by decide)⟩, hne _ (by decide)⟩

/-- The text of a number that is stable under JSON, followed by something that no number
literal continues with, is read back as the number. -/
theorem parseValue_number (neg : Bool) (b : Fin 2047) (f : Fin 4503599627370496)
    (hx : (JsNumber.fin neg b f).jsonStable = true) (fuel : Nat) (rest : List Char)
    (hr : NoNumberHead rest) :
    parseValue (fuel + 1) ((JsNumber.fin neg b f).toChars ++ rest)
      = some (Json.num (.fin neg b f), rest) := by
  simp only [JsNumber.jsonStable, Bool.and_eq_true, decide_eq_true_eq] at hx
  obtain ⟨⟨_, hall⟩, hlit⟩ := hx
  have hsplit := JsNumber.takeWhile_append_of_all JsNumber.isNumberChar
    (JsNumber.fin neg b f).toChars rest hall
    (by
      intro c t hct
      subst hct
      exact hr)
  cases htc : (JsNumber.fin neg b f).toChars with
  | nil => rw [htc] at hlit; simp [JsNumber.ofJsonLiteral] at hlit
  | cons c t =>
    rw [htc] at hall hsplit hlit
    have hc : JsNumber.isNumberChar c = true := by
      simp only [List.all_cons, Bool.and_eq_true] at hall
      exact hall.1
    obtain ⟨a0, a1, a2, a3, a4, a5, a6⟩ := numberChar_other c hc
    rw [List.cons_append] at hsplit ⊢
    simp only [parseValue, skipWs, a0, a1, a2, a3, a4, a5, a6, if_false, parseNumber,
      hsplit.1, hsplit.2, hlit, Bool.false_eq_true]

theorem length_render_pos (gap ind : Nat) (v : Json) : 0 < (render gap ind v).length := by
  obtain ⟨c, t, h, _⟩ := render_head gap ind v
  simp [h]

theorem skipWs_quote (cs : List Char) : skipWs ('"' :: cs) = '"' :: cs := by
  simp [skipWs, isWs]

theorem skipWs_colon (gap : Nat) (cs : List Char) :
    skipWs (colon gap ++ cs) = ':' :: (if gap = 0 then cs else ' ' :: cs) := by
  unfold colon
  by_cases h : gap = 0 <;> simp [h, skipWs, isWs]

theorem skipWs_space (cs : List Char) : skipWs (' ' :: cs) = skipWs cs := by
  simp [skipWs, isWs]

mutual
theorem parseValue_render : ∀ (v : Json) (gap ind fuel : Nat) (rest : List Char),
    v.canonical = true → NoNumberHead rest → (render gap ind v).length < fuel →
    parseValue fuel (render gap ind v ++ rest) = some (v, rest)
  | .null, gap, ind, fuel, rest, _, _, hf => by
      obtain ⟨f, rfl⟩ : ∃ f, fuel = f + 1 := ⟨fuel - 1, by omega⟩
      simp [render, parseValue, skipWs, isWs, expect]
  | .bool true, gap, ind, fuel, rest, _, _, hf => by
      obtain ⟨f, rfl⟩ : ∃ f, fuel = f + 1 := ⟨fuel - 1, by omega⟩
      simp [render, parseValue, skipWs, isWs, expect]
  | .bool false, gap, ind, fuel, rest, _, _, hf => by
      obtain ⟨f, rfl⟩ : ∃ f, fuel = f + 1 := ⟨fuel - 1, by omega⟩
      simp [render, parseValue, skipWs, isWs, expect]
  | .num .nan, gap, ind, fuel, rest, hc, _, hf => by
      simp [Json.canonical, JsNumber.jsonStable, JsNumber.isFinite] at hc
  | .num (.inf neg), gap, ind, fuel, rest, hc, _, hf => by
      simp [Json.canonical, JsNumber.jsonStable, JsNumber.isFinite] at hc
  | .num (.fin neg b f), gap, ind, fuel, rest, hc, hr, hf => by
      obtain ⟨f0, rfl⟩ : ∃ f0, fuel = f0 + 1 := ⟨fuel - 1, by omega⟩
      simp only [Json.canonical] at hc
      simp only [render]
      exact parseValue_number neg b f hc f0 rest hr
  | .str s, gap, ind, fuel, rest, _, _, hf => by
      obtain ⟨f, rfl⟩ : ∃ f, fuel = f + 1 := ⟨fuel - 1, by omega⟩
      simp [render, renderString, parseValue, skipWs, isWs, parseStringBody_escapeChars]
  | .arr [], gap, ind, fuel, rest, _, _, hf => by
      obtain ⟨f, rfl⟩ : ∃ f, fuel = f + 1 := ⟨fuel - 1, by omega⟩
      simp [render, parseValue, skipWs, isWs]
  | .arr (x :: xs), gap, ind, fuel, rest, hc, _, hf => by
      obtain ⟨f, rfl⟩ : ∃ f, fuel = f + 1 := ⟨fuel - 1, by omega⟩
      simp only [Json.canonical, Json.canonicalList, Bool.and_eq_true] at hc
      have hlen : (render gap (ind + gap) x).length
          + (renderElems gap (ind + gap) xs).length + 1 < f := by
        simp only [render, List.length_cons, List.length_append] at hf
        omega
      have hq := parseElems_render xs gap (ind + gap) ind f rest x
        (fun fuel rest => parseValue_render x gap (ind + gap) fuel rest hc.1) hc.2 hlen
      obtain ⟨c, t, hct, hs⟩ := render_head gap (ind + gap) x
      rw [hct] at hq
      have hskip : skipWs (sep gap (ind + gap) ++ (c :: t ++
          (renderElems gap (ind + gap) xs ++ (sep gap ind ++ ']' :: rest))))
          = c :: (t ++ (renderElems gap (ind + gap) xs ++ (sep gap ind ++ ']' :: rest))) := by
        rw [skipWs_sep, List.cons_append, skipWs_of_not_ws _ _ hs.1]
      simp only [render, hct, List.cons_append, List.append_assoc, List.singleton_append,
        List.nil_append] at hskip hq ⊢
      simp [parseValue, skipWs, isWs, hskip, hs.2.1, hq]
  | .obj [], gap, ind, fuel, rest, _, _, hf => by
      obtain ⟨f, rfl⟩ : ∃ f, fuel = f + 1 := ⟨fuel - 1, by omega⟩
      simp [render, parseValue, skipWs, isWs]
  | .obj ((k, v) :: kvs), gap, ind, fuel, rest, hc, _, hf => by
      obtain ⟨f, rfl⟩ : ∃ f, fuel = f + 1 := ⟨fuel - 1, by omega⟩
      simp only [Json.canonical, Json.canonicalProps, Bool.and_eq_true] at hc
      have hnorm := normalizeProps_of_ordered ((k, v) :: kvs) hc.1
      have hlen : (renderString k).length + (colon gap).length
          + (render gap (ind + gap) v).length
          + (renderMembers gap (ind + gap) kvs).length + 1 < f := by
        simp only [render, List.length_cons, List.length_append] at hf
        omega
      have hq := parseMembers_render kvs gap (ind + gap) ind f rest k v
        (fun fuel rest => parseValue_render v gap (ind + gap) fuel rest hc.2.1) hc.2.2 hlen
      have hskip : skipWs (sep gap (ind + gap) ++ (renderString k ++ (colon gap ++
          (render gap (ind + gap) v ++
            (renderMembers gap (ind + gap) kvs ++ (sep gap ind ++ '\x7d' :: rest))))))
          = '"' :: (escapeChars k.data ++ '"' :: (colon gap ++
          (render gap (ind + gap) v ++
            (renderMembers gap (ind + gap) kvs ++ (sep gap ind ++ '\x7d' :: rest))))) := by
        rw [skipWs_sep]
        simp [renderString, skipWs, isWs]
      simp only [render, renderString, List.cons_append, List.append_assoc,
        List.singleton_append, List.nil_append] at hskip hq ⊢
      simp [parseValue, skipWs, isWs, hskip, hq, hnorm]
theorem parseElems_render : ∀ (xs : List Json) (gap ind1 ind fuel : Nat) (rest : List Char)
    (x : Json),
    (∀ (fuel : Nat) (rest : List Char), NoNumberHead rest →
      (render gap ind1 x).length < fuel →
      parseValue fuel (render gap ind1 x ++ rest) = some (x, rest)) →
    Json.canonicalList xs = true →
    (render gap ind1 x).length + (renderElems gap ind1 xs).length + 1 < fuel →
    parseElems fuel (render gap ind1 x ++
      (renderElems gap ind1 xs ++ (sep gap ind ++ ']' :: rest))) = some (x :: xs, rest)
  | [], gap, ind1, ind, fuel, rest, x, hx, _, hf => by
      obtain ⟨f, rfl⟩ : ∃ f, fuel = f + 1 := ⟨fuel - 1, by omega⟩
      have h1 := hx f (renderElems gap ind1 [] ++ (sep gap ind ++ ']' :: rest))
        (noNumberHead_elems gap ind1 ind [] ']' rest (by decide)) (by omega)
      simp only [renderElems, List.nil_append] at h1 ⊢
      simp [parseElems, h1, skipWs_sep, skipWs, isWs]
  | y :: ys, gap, ind1, ind, fuel, rest, x, hx, hc, hf => by
      obtain ⟨f, rfl⟩ : ∃ f, fuel = f + 1 := ⟨fuel - 1, by omega⟩
      simp only [Json.canonicalList, Bool.and_eq_true] at hc
      have hpos := length_render_pos gap ind1 x
      have h1 := hx f (renderElems gap ind1 (y :: ys) ++ (sep gap ind ++ ']' :: rest))
        (noNumberHead_elems gap ind1 ind (y :: ys) ']' rest (by decide)) (by omega)
      have hlen : (render gap ind1 y).length + (renderElems gap ind1 ys).length + 1 < f := by
        simp only [renderElems, List.length_cons, List.length_append] at hf
        omega
      have hq := parseElems_render ys gap ind1 ind f rest y
        (fun fuel rest => parseValue_render y gap ind1 fuel rest hc.1) hc.2 hlen
      have hq2 : parseElems f (sep gap ind1 ++ (render gap ind1 y ++
          (renderElems gap ind1 ys ++ (sep gap ind ++ ']' :: rest)))) = some (y :: ys, rest) := by
        rw [parseElems_congr f _ _ (skipWs_sep gap ind1 _), hq]
      simp only [renderElems, List.cons_append, List.append_assoc] at h1 hq2 ⊢
      simp [parseElems, h1, skipWs, isWs, hq2]
theorem parseMembers_render : ∀ (kvs : List (String × Json)) (gap ind1 ind fuel : Nat)
    (rest : List Char) (k : String) (v : Json),
    (∀ (fuel : Nat) (rest : List Char), NoNumberHead rest →
      (render gap ind1 v).length < fuel →
      parseValue fuel (render gap ind1 v ++ rest) = some (v, rest)) →
    Json.canonicalProps kvs = true →
    (renderString k).length + (colon gap).length + (render gap ind1 v).length
      + (renderMembers gap ind1 kvs).length + 1 < fuel →
    parseMembers fuel (renderString k ++ (colon gap ++ (render gap ind1 v ++
      (renderMembers gap ind1 kvs ++ (sep gap ind ++ '\x7d' :: rest)))))
      = some ((k, v) :: kvs, rest)
  | [], gap, ind1, ind, fuel, rest, k, v, hv, _, hf => by
      obtain ⟨f, rfl⟩ : ∃ f, fuel = f + 1 := ⟨fuel - 1, by omega⟩
      have h1 := hv f (renderMembers gap ind1 [] ++ (sep gap ind ++ '\x7d' :: rest))
        (noNumberHead_members gap ind1 ind [] '\x7d' rest (by decide)) (by omega)
      have h2 : parseValue f (if gap = 0 then render gap ind1 v ++ (sep gap ind ++ '\x7d' :: rest)
          else ' ' :: (render gap ind1 v ++ (sep gap ind ++ '\x7d' :: rest)))
          = some (v, sep gap ind ++ '\x7d' :: rest) := by
        simp only [renderMembers, List.nil_append] at h1
        by_cases hg : gap = 0
        · simp only [hg, if_true] at h1 ⊢; exact h1
        · simp only [hg, if_false]
          rw [parseValue_congr f _ _ (skipWs_space _), h1]
      simp only [renderMembers, renderString, List.nil_append, List.cons_append,
        List.append_assoc] at h2 ⊢
      simp [parseMembers, skipWs_quote, parseStringBody_escapeChars, skipWs_colon, h2,
        skipWs_sep, skipWs, isWs]
  | (k2, v2) :: kvs, gap, ind1, ind, fuel, rest, k, v, hv, hc, hf => by
      obtain ⟨f, rfl⟩ : ∃ f, fuel = f + 1 := ⟨fuel - 1, by omega⟩
      simp only [Json.canonicalProps, Bool.and_eq_true] at hc
      have hpos := length_render_pos gap ind1 v
      have h1 := hv f (renderMembers gap ind1 ((k2, v2) :: kvs) ++
          (sep gap ind ++ '\x7d' :: rest))
        (noNumberHead_members gap ind1 ind ((k2, v2) :: kvs) '\x7d' rest (by decide)) (by omega)
      have h2 : parseValue f (if gap = 0 then render gap ind1 v ++
            (renderMembers gap ind1 ((k2, v2) :: kvs) ++ (sep gap ind ++ '\x7d' :: rest))
          else ' ' :: (render gap ind1 v ++
            (renderMembers gap ind1 ((k2, v2) :: kvs) ++ (sep gap ind ++ '\x7d' :: rest))))
          = some (v, renderMembers gap ind1 ((k2, v2) :: kvs) ++
              (sep gap ind ++ '\x7d' :: rest)) := by
        by_cases hg : gap = 0
        · simp only [hg, if_true] at h1 ⊢; exact h1
        · simp only [hg, if_false]
          rw [parseValue_congr f _ _ (skipWs_space _), h1]
      have hlen : (renderString k2).length + (colon gap).length
          + (render gap ind1 v2).length + (renderMembers gap ind1 kvs).length + 1 < f := by
        simp only [renderMembers, List.length_cons, List.length_append] at hf
        omega
      have hq := parseMembers_render kvs gap ind1 ind f rest k2 v2
        (fun fuel rest => parseValue_render v2 gap ind1 fuel rest hc.1) hc.2 hlen
      have hq2 : parseMembers f (sep gap ind1 ++ (renderString k2 ++ (colon gap ++
          (render gap ind1 v2 ++ (renderMembers gap ind1 kvs ++
            (sep gap ind ++ '\x7d' :: rest)))))) = some ((k2, v2) :: kvs, rest) := by
        rw [parseMembers_congr f _ _ (skipWs_sep gap ind1 _), hq]
      simp only [renderMembers, renderString, List.nil_append, List.cons_append,
        List.append_assoc] at h2 hq2 ⊢
      simp [parseMembers, skipWs_quote, parseStringBody_escapeChars, skipWs_colon, h2,
        skipWs, isWs, hq2]
end

theorem parse_stringify (v : Json) (space : Nat) (hc : v.canonical = true) :
    parse (stringify v space) = .ok v := by
  have h := parseValue_render v (min space 10) 0
    ((render (min space 10) 0 v).length + 1) [] hc trivial (by omega)
  simp only [List.append_nil] at h
  simp [parse, stringify, h, skipWs]

theorem stringify_ne_empty (v : Json) (space : Nat) : stringify v space ≠ "" := by
  obtain ⟨c, t, h, _⟩ := render_head (min space 10) 0 v
  intro he
  have : (stringify v space).data = "".data := by rw [he]
  simp [stringify, h] at this

/-- The implementation satisfies what is assumed of the JSON built-ins. -/
theorem api_lawful : api.Lawful :=
  ⟨parse_stringify, stringify_ne_empty⟩

end RefJSON

/-! ## Lemmas on `localStorage` -/

namespace LocalStorage

theorem setEntry_setEntry (items : List (String × String)) (key value : String) :
    setEntry (setEntry items key value) key value = setEntry items key value := by
  induction items with
  | nil => simp [setEntry]
  | cons kv rest ih =>
    obtain ⟨k, v⟩ := kv
    by_cases h : k = key
    · simp [setEntry, h]
    · simp [setEntry, h, ih]

theorem getItem_clear (s : LocalStorage) (key : String) : s.clear.getItem key = none := by
  simp [clear, getItem]

theorem find_setEntry_self (items : List (String × String)) (key value : String) :
    (setEntry items key value).find? (fun kv => decide (kv.1 = key)) = some (key, value) := by
  induction items with
  | nil => simp [setEntry]
  | cons kv rest ih =>
    obtain ⟨k, v⟩ := kv
    by_cases h : k = key
    · simp [setEntry, h]
    · simp [setEntry, h, ih]

theorem find_setEntry_other (items : List (String × String)) (key value other : String)
    (hne : other ≠ key) :
    (setEntry items key value).find? (fun kv => decide (kv.1 = other))
      = items.find? (fun kv => decide (kv.1 = other)) := by
  induction items with
  | nil => simp [setEntry, List.find?, Ne.symm hne]
  | cons kv rest ih =>
    obtain ⟨k, v⟩ := kv
    by_cases h : k = key
    · subst h
      simp [setEntry, List.find?, Ne.symm hne]
    · by_cases ho : k = other
      · subst ho
        simp [setEntry, h, List.find?]
      · simp [setEntry, h, List.find?, ho, ih]

theorem setEntry_of_find (items : List (String × String)) (key value : String)
    (h : items.find? (fun kv => decide (kv.1 = key)) = some (key, value)) :
    setEntry items key value = items := by
  induction items with
  | nil => simp at h
  | cons kv rest ih =>
    obtain ⟨k, v⟩ := kv
    by_cases hk : k = key
    · subst hk
      simp [List.find?] at h
      simp [setEntry, h]
    · simp [List.find?, hk] at h
      simp [setEntry, hk, ih h]

theorem setItem_ok_iff (s s1 : LocalStorage) (key value : String)
    (h : s.setItem key value = .ok s1) :
    s1 = { s with items := setEntry s.items key value } := by
  unfold setItem at h
  cases hq : s.quota with
  | none => simp [hq] at h; exact h.symm
  | some q =>
    simp only [hq] at h
    split at h
    · simp at h; exact h.symm
    · simp at h

theorem getItem_setItem_self (s s1 : LocalStorage) (key value : String)
    (h : s.setItem key value = .ok s1) : s1.getItem key = some value := by
  rw [setItem_ok_iff s s1 key value h]
  simp [getItem, find_setEntry_self]

theorem getItem_setItem_other (s s1 : LocalStorage) (key value other : String)
    (h : s.setItem key value = .ok s1) (hne : other ≠ key) :
    s1.getItem other = s.getItem other := by
  rw [setItem_ok_iff s s1 key value h]
  simp [getItem, find_setEntry_other _ _ _ _ hne]

theorem quota_setItem (s s1 : LocalStorage) (key value : String)
    (h : s.setItem key value = .ok s1) : s1.quota = s.quota := by
  rw [setItem_ok_iff s s1 key value h]

theorem setItem_of_quota_none (s : LocalStorage) (key value : String) (hq : s.quota = none) :
    s.setItem key value = .ok { s with items := setEntry s.items key value } := by
  simp [setItem, hq]

theorem find_of_getItem (s : LocalStorage) (key value : String)
    (h : s.getItem key = some value) :
    s.items.find? (fun kv => decide (kv.1 = key)) = some (key, value) := by
  unfold getItem at h
  cases hf : s.items.find? (fun kv => decide (kv.1 = key)) with
  | none => simp [hf] at h
  | some kv =>
    simp [hf] at h
    have hk := List.find?_some hf
    simp at hk
    obtain ⟨k, v⟩ := kv
    simp at hk h
    rw [hk, h]

theorem setItem_same (s s1 : LocalStorage) (key value : String)
    (hget : s.getItem key = some value) (h : s.setItem key value = .ok s1) : s1 = s := by
  rw [setItem_ok_iff s s1 key value h, setEntry_of_find _ _ _ (find_of_getItem s key value hget)]

theorem setItem_error (s : LocalStorage) (key value : String) (e : JsError)
    (h : s.setItem key value = .error e) : e = .quotaExceeded ∧ s.quota ≠ none := by
  unfold setItem at h
  cases hq : s.quota with
  | none => simp [hq] at h
  | some q =>
    simp only [hq] at h
    split at h
    · simp at h
    · simp only [Except.error.injEq] at h
      exact ⟨h.symm, by simp⟩

end LocalStorage

/-! ## Lemmas on `lastN` -/

theorem length_lastN {α : Type} (n : Nat) (l : List α) : (lastN n l).length = min n l.length := by
  simp only [lastN, List.length_drop]
  omega

theorem lastN_min {α : Type} (n : Nat) (l : List α) : lastN (min n l.length) l = lastN n l := by
  simp only [lastN]
  congr 1
  omega

theorem lastN_lastN_append {α : Type} (n : Nat) (xs ys : List α) :
    lastN n (lastN n xs ++ ys) = lastN n (xs ++ ys) := by
  simp only [lastN, List.length_append, List.length_drop]
  by_cases h : xs.length ≤ n
  · have h0 : xs.length - n = 0 := by omega
    simp [h0]
  · have h1 : xs.length - (xs.length - n) + ys.length - n = ys.length := by omega
    have h2 : xs.length + ys.length - n = (xs.length - n) + ys.length := by omega
    rw [h1, h2]
    conv_rhs => rw [← List.take_append_drop (xs.length - n) xs]
    rw [List.append_assoc, List.drop_append_eq_append_drop, List.drop_append_eq_append_drop]
    have h3 : (List.take (xs.length - n) xs).length = xs.length - n := by
      rw [List.length_take]; omega
    rw [h3]
    have h4 : List.drop (xs.length - n + ys.length) (List.take (xs.length - n) xs) = [] := by
      apply List.drop_eq_nil_of_le; omega
    simp [h4]
    rw [List.drop_append_eq_append_drop]
    simp

/-! ## Theorems: `Analytics` -/

namespace Analytics

theorem trim_eq_lastN (l : List Json) : trim l = lastN 100 l := by
  unfold trim lastN
  by_cases h : l.length > 100
  · simp [h]
  · have : l.length - 100 = 0 := by omega
    simp [h, this]

theorem logInv_of_wellFormed (J : JSONApi) (w : World) (es0 : List Json)
    (h : WellFormedLog J w es0) : LogInv J w es0 := by
  rcases h with ⟨hnone, rfl⟩ | ⟨text, kvs, hget, hne, hparse, hcan, hlook⟩
  · exact ⟨[("events", .arr [])], by simp [getAnalytics, hnone, emptyLog], by decide, by
      simp [lookupProp]⟩
  · exact ⟨kvs, by simp [getAnalytics, hget, hne, hparse], hcan, hlook⟩

theorem canonical_mkEvent (eventName now : String) (data : Json)
    (h : data.canonical = true) : (mkEvent eventName now data).canonical = true := by
  rw [mkEvent, canonical_obj_iff]
  refine ⟨?_, ?_⟩
  · simp only [orderedProps, fitsBefore, Bool.and_true, Bool.and_eq_true, decide_eq_true_eq]
    decide
  intro kv hkv
  simp only [List.mem_cons, List.mem_singleton, List.not_mem_nil, or_false] at hkv
  rcases hkv with rfl | rfl | rfl
  · rfl
  · rfl
  · exact h

theorem canonical_trim_append (es : List Json) (event : Json)
    (hes : (Json.arr es).canonical = true) (hev : event.canonical = true) :
    (Json.arr (trim (es ++ [event]))).canonical = true := by
  rw [canonical_arr_iff] at hes ⊢
  intro x hx
  rw [trim_eq_lastN, lastN] at hx
  have hx2 := List.mem_of_mem_drop hx
  rcases List.mem_append.mp hx2 with h | h
  · exact hes x h
  · simp only [List.mem_singleton] at h
    rw [h]
    exact hev

/-- One call on a well-formed log: it throws `QuotaExceededError`, which storage without
quota never does, or it persists the log with the new event, trimmed. -/
theorem trackEvent_step (J : JSONApi) (hJ : J.Lawful) (w : World) (es : List Json)
    (h : LogInv J w es) (c : EventCall) (hc : c.data.canonical = true) :
    (trackEvent J c.now w c.eventName c.data = .error .quotaExceeded ∧
      w.storage.quota ≠ none) ∨
    ∃ w1, trackEvent J c.now w c.eventName c.data = .ok w1 ∧
      LogInv J w1 (trim (es ++ [c.event])) ∧
      persistedEvents J w1 = some (trim (es ++ [c.event])) ∧
      w1.storage.quota = w.storage.quota := by
  obtain ⟨kvs, hga, hcan, hlook⟩ := h
  have hes : (Json.arr es).canonical = true := canonical_of_lookupProp kvs "events" _ hcan hlook
  have hnew : (Json.obj (setProp kvs "events" (.arr (trim (es ++ [c.event]))))).canonical
      = true :=
    canonical_setProp kvs "events" _ hcan
      (canonical_trim_append es c.event hes (canonical_mkEvent _ _ _ hc))
  have hrun : trackEvent J c.now w c.eventName c.data
      = (match w.storage.setItem "playmate_analytics"
          (J.stringify (.obj (setProp kvs "events" (.arr (trim (es ++ [c.event]))))) 0) with
        | .error e => .error e
        | .ok st => .ok { w with storage := st }) := by
    simp only [trackEvent, hga, appendEvent, hlook, Json.truthy, if_true]
    rfl
  cases hst : w.storage.setItem "playmate_analytics"
      (J.stringify (.obj (setProp kvs "events" (.arr (trim (es ++ [c.event]))))) 0) with
  | error e =>
    obtain ⟨he, hq⟩ := LocalStorage.setItem_error _ _ _ _ hst
    left
    rw [hrun, hst, he]
    exact ⟨rfl, hq⟩
  | ok st =>
    right
    have hget := LocalStorage.getItem_setItem_self _ _ _ _ hst
    refine ⟨{ w with storage := st }, by rw [hrun, hst], ?_, ?_,
      LocalStorage.quota_setItem _ _ _ _ hst⟩
    · refine ⟨setProp kvs "events" (.arr (trim (es ++ [c.event]))), ?_, hnew,
        lookupProp_setProp_self _ _ _⟩
      simp only [getAnalytics, hget]
      simp [hJ.stringify_ne_empty, hJ.parse_stringify _ 0 hnew]
    · simp only [persistedEvents, hget, hJ.parse_stringify _ 0 hnew, lookupProp_setProp_self]

theorem returnedEvents_of_no_return (calls : List EventCall) :
    ∀ outcomes : List (Option JsError), none ∉ outcomes → returnedEvents calls outcomes = [] := by
  induction calls with
  | nil => intro outcomes _; cases outcomes <;> rfl
  | cons c rest ih =>
    intro outcomes h
    cases outcomes with
    | nil => rfl
    | cons o os =>
      cases o with
      | none => exact absurd (List.mem_cons_self _ _) h
      | some e =>
        simp only [returnedEvents]
        exact ih os (fun hm => h (List.mem_cons_of_mem _ hm))

theorem returnedEvents_all (calls : List EventCall) :
    returnedEvents calls (calls.map (fun _ => none)) = calls.map EventCall.event := by
  induction calls with
  | nil => rfl
  | cons c rest ih =>
    rw [List.map_cons, List.map_cons, returnedEvents, ih]

/-- A sequence of calls on a well-formed log. -/
theorem trackEventCalls_run (J : JSONApi) (hJ : J.Lawful) (calls : List EventCall) :
    ∀ (w : World) (es : List Json), LogInv J w es →
    (∀ c ∈ calls, c.data.canonical = true) →
    (∀ o ∈ (trackEventCalls J w calls).2, o = none ∨ o = some JsError.quotaExceeded) ∧
    (w.storage.quota = none →
      (trackEventCalls J w calls).2 = calls.map (fun _ => none)) ∧
    (none ∉ (trackEventCalls J w calls).2 → (trackEventCalls J w calls).1 = w) ∧
    (none ∈ (trackEventCalls J w calls).2 →
      LogInv J (trackEventCalls J w calls).1
        (lastN 100 (es ++ returnedEvents calls (trackEventCalls J w calls).2)) ∧
      persistedEvents J (trackEventCalls J w calls).1
        = some (lastN 100 (es ++ returnedEvents calls (trackEventCalls J w calls).2))) := by
  induction calls with
  | nil =>
    intro w es _ _
    simp [trackEventCalls]
  | cons c rest ih =>
    intro w es hinv hdata
    have hc : c.data.canonical = true := hdata c (List.mem_cons_self _ _)
    have hrest : ∀ c ∈ rest, c.data.canonical = true :=
      fun c hm => hdata c (List.mem_cons_of_mem _ hm)
    rcases trackEvent_step J hJ w es hinv c hc with ⟨herr, hq⟩ | ⟨w1, hok, hinv1, hper1, hq1⟩
    · obtain ⟨i1, i2, i3, i4⟩ := ih w es hinv hrest
      simp only [trackEventCalls, herr]
      refine ⟨?_, fun hn => absurd hn hq, ?_, ?_⟩
      · intro o ho
        rcases List.mem_cons.mp ho with rfl | ho2
        · exact Or.inr rfl
        · exact i1 o ho2
      · intro hn
        exact i3 (fun hm => hn (List.mem_cons_of_mem _ hm))
      · intro hm
        have hm2 : none ∈ (trackEventCalls J w rest).2 := by
          rcases List.mem_cons.mp hm with h | h
          · cases h
          · exact h
        simpa [returnedEvents] using i4 hm2
    · obtain ⟨i1, i2, i3, i4⟩ := ih w1 (trim (es ++ [c.event])) hinv1 hrest
      simp only [trackEventCalls, hok]
      refine ⟨?_, ?_, ?_, ?_⟩
      · intro o ho
        rcases List.mem_cons.mp ho with rfl | ho2
        · exact Or.inl rfl
        · exact i1 o ho2
      · intro hn
        rw [i2 (by rw [hq1, hn])]
        rfl
      · intro hn
        exact absurd (List.mem_cons_self _ _) hn
      · intro _
        by_cases hm : none ∈ (trackEventCalls J w1 rest).2
        · have h4 := i4 hm
          rw [trim_eq_lastN, lastN_lastN_append] at h4
          simpa [returnedEvents, List.append_assoc] using h4
        · rw [i3 hm, returnedEvents]
          rw [returnedEvents_of_no_return rest _ hm]
          rw [trim_eq_lastN] at hinv1 hper1
          simpa using And.intro hinv1 hper1

set_option maxRecDepth 100000 in
/-- C2 (counterexample): on a fresh page whose storage has room for 130 characters the
first of two `trackEvent` calls returns and the second throws `QuotaExceededError`; after
the second call the persisted list holds the first event only, not the last `min 100 2`
of the two appended events. -/
theorem trackEvent_quota_counterexample :
    WellFormedLog RefJSON.api (World.withQuota [] 130) [] ∧
    (trackEventCalls RefJSON.api (World.withQuota [] 130) sampleCalls).2
      = [none, some .quotaExceeded] ∧
    persistedEvents RefJSON.api
        (trackEventCalls RefJSON.api (World.withQuota [] 130) sampleCalls).1
      = some ((sampleCalls.take 1).map EventCall.event) ∧
    some ((sampleCalls.take 1).map EventCall.event)
      ≠ some (lastN (min 100 2) ([] ++ sampleCalls.map EventCall.event)) := by
  refine ⟨Or.inl ⟨by decide, rfl⟩, by decide, by decide, by decide⟩

/-- C2 (amended): for every well-formed initial event log (events `es0`), lawful JSON
built-ins and every sequence of `trackEvent` calls whose event data are canonical, after
each of the calls (the first `k` calls): every call has returned or thrown
`QuotaExceededError`, and in storage without quota every call has returned; when no call
has returned the state is untouched; when a call has returned, the list persisted under
`playmate_analytics` has at most 100 entries and consists of the last `min 100 n` elements
of the initial events followed by the events of the calls that returned, in call order,
where `n` is their number. -/
theorem trackEventCalls_keep_last_100 (J : JSONApi) (hJ : J.Lawful) (w : World)
    (es0 : List Json) (hwf : WellFormedLog J w es0) (calls : List EventCall)
    (hdata : ∀ c ∈ calls, c.data.canonical = true) (k : Nat) :
    (∀ o ∈ (trackEventCalls J w (calls.take k)).2,
      o = none ∨ o = some JsError.quotaExceeded) ∧
    (w.storage.quota = none →
      (trackEventCalls J w (calls.take k)).2 = (calls.take k).map (fun _ => none) ∧
      returnedEvents (calls.take k) (trackEventCalls J w (calls.take k)).2
        = (calls.take k).map EventCall.event) ∧
    (none ∉ (trackEventCalls J w (calls.take k)).2 →
      (trackEventCalls J w (calls.take k)).1 = w) ∧
    (none ∈ (trackEventCalls J w (calls.take k)).2 →
      ∃ persisted,
        persistedEvents J (trackEventCalls J w (calls.take k)).1 = some persisted ∧
        persisted.length ≤ 100 ∧
        persisted = lastN
          (min 100 (es0 ++ returnedEvents (calls.take k)
            (trackEventCalls J w (calls.take k)).2).length)
          (es0 ++ returnedEvents (calls.take k) (trackEventCalls J w (calls.take k)).2)) := by
  obtain ⟨h1, h2, h3, h4⟩ := trackEventCalls_run J hJ (calls.take k) w es0
    (logInv_of_wellFormed J w es0 hwf) (fun c hc => hdata c (List.mem_of_mem_take hc))
  refine ⟨h1, fun hq => ⟨h2 hq, ?_⟩, h3, fun hm => ?_⟩
  · rw [h2 hq, returnedEvents_all]
  · refine ⟨_, (h4 hm).2, ?_, (lastN_min 100 _).symm⟩
    rw [length_lastN]
    omega

set_option maxRecDepth 100000 in
/-- Witness for C2: on a page whose log holds a hundred events, two further calls return,
and the persisted list is the old events without the two oldest, followed by the two new
ones: a hundred entries. -/
theorem trackEventCalls_keep_last_100_witness :
    WellFormedLog RefJSON.api fullLogWorld hundredEvents ∧
    (∀ c ∈ sampleCalls, c.data.canonical = true) ∧
    (trackEventCalls RefJSON.api fullLogWorld (sampleCalls.take 2)).2 = [none, none] ∧
    ∃ persisted,
      persistedEvents RefJSON.api
        (trackEventCalls RefJSON.api fullLogWorld (sampleCalls.take 2)).1 = some persisted ∧
      persisted.length = 100 ∧
      persisted = hundredEvents.drop 2 ++ sampleCalls.map EventCall.event := by
  have hcan : (Json.obj [("events", .arr hundredEvents)]).canonical = true := by
    rw [canonical_obj_iff]
    refine ⟨by decide, ?_⟩
    intro kv hkv
    rw [List.mem_singleton] at hkv
    rw [hkv, canonical_arr_iff]
    intro x hx
    obtain ⟨i, _, rfl⟩ := List.mem_map.mp hx
    exact canonical_mkEvent _ _ _ (by decide)
  have hlen : hundredEvents.length = 100 := by simp [hundredEvents]
  have hparse : RefJSON.api.parse (RefJSON.stringify (.obj [("events", .arr hundredEvents)]) 0)
      = .ok (.obj [("events", .arr hundredEvents)]) := by
    rw [show RefJSON.api.parse = RefJSON.parse from rfl]
    exact RefJSON.parse_stringify (.obj [("events", .arr hundredEvents)]) 0 hcan
  have hwf : WellFormedLog RefJSON.api fullLogWorld hundredEvents :=
    Or.inr ⟨RefJSON.stringify (.obj [("events", .arr hundredEvents)]) 0,
      [("events", .arr hundredEvents)], rfl,
      RefJSON.stringify_ne_empty (.obj [("events", .arr hundredEvents)]) 0, hparse, hcan, rfl⟩
  have hdata : ∀ c ∈ sampleCalls, c.data.canonical = true := by decide
  obtain ⟨_, h2, _, h4⟩ := trackEventCalls_keep_last_100 RefJSON.api RefJSON.api_lawful
    fullLogWorld hundredEvents hwf sampleCalls hdata 2
  obtain ⟨hout, hret⟩ := h2 rfl
  have hout2 : (trackEventCalls RefJSON.api fullLogWorld (sampleCalls.take 2)).2
      = [none, none] := hout
  obtain ⟨persisted, hp, _, heq⟩ := h4 (by rw [hout2]; exact List.mem_cons_self _ _)
  rw [hret] at heq
  have hlast : lastN (min 100 (hundredEvents ++ (sampleCalls.take 2).map EventCall.event).length)
      (hundredEvents ++ (sampleCalls.take 2).map EventCall.event)
      = hundredEvents.drop 2 ++ sampleCalls.map EventCall.event := by
    have hr : (List.map EventCall.event (List.take 2 sampleCalls)).length = 2 := rfl
    have hm : List.map EventCall.event (List.take 2 sampleCalls)
        = List.map EventCall.event sampleCalls := rfl
    rw [lastN, List.length_append, hlen, hr, hm,
      List.drop_append_of_le_length (by rw [hlen]; decide)]
    rfl
  rw [hlast] at heq
  refine ⟨hwf, hdata, hout2, persisted, hp, ?_, heq⟩
  rw [heq, List.length_append, List.length_drop, hlen]
  rfl

end Analytics

/-! ## Theorems: `StorageManager` -/

namespace StorageManager

/-- C1: for every store and game id `getGameProgress` returns a value (it never throws),
and the value is `{ level: 1, score: 0, highScore: 0 }` whenever the key
`<gameId>_progress` is absent or its text makes `JSON.parse` throw. -/
theorem getGameProgress_never_throws_default (J : JSONApi) (w : World) (gameId : String) :
    (∃ v, getGameProgress J w gameId = .ok v) ∧
    ((w.storage.getItem (gameId ++ "_progress") = none ∨
        ∃ text e, w.storage.getItem (gameId ++ "_progress") = some text ∧
          J.parse text = .error e) →
      getGameProgress J w gameId = .ok defaultProgress) := by
  constructor
  · unfold getGameProgress tryCatch
    split <;> simp_all
  · rintro (h | ⟨text, e, h, hp⟩)
    · simp [getGameProgress, tryCatch, h]
    · unfold getGameProgress tryCatch
      rw [h]
      by_cases ht : text = "" <;> simp [ht, hp]

/-- Witness for C1: on a fresh store the key of `snake` is absent, and in a store
holding the text `oops`, which is not JSON, the default is returned. -/
theorem getGameProgress_never_throws_default_witness :
    World.fresh.storage.getItem ("snake" ++ "_progress") = none ∧
    getGameProgress RefJSON.api World.fresh "snake" = .ok defaultProgress ∧
    RefJSON.api.parse "oops" = .error .syntaxError ∧
    getGameProgress RefJSON.api (World.withItems [("snake_progress", "oops")]) "snake"
      = .ok defaultProgress :=
  ⟨by decide,
   (getGameProgress_never_throws_default RefJSON.api World.fresh "snake").2
     (Or.inl (by decide)),
   by decide,
   (getGameProgress_never_throws_default RefJSON.api
      (World.withItems [("snake_progress", "oops")]) "snake").2
     (Or.inr ⟨"oops", .syntaxError, by decide, by decide⟩)⟩

/-- C3: `unlockGame` is idempotent on the persisted store: the world after two calls
for an id is the world after one call (a call that throws has written nothing). -/
theorem unlockGame_idempotent (w : World) (gameId : String) :
    worldAfter (worldAfter w (unlockGame w gameId))
        (unlockGame (worldAfter w (unlockGame w gameId)) gameId)
      = worldAfter w (unlockGame w gameId) := by
  unfold unlockGame LocalStorage.setItem
  cases hq : w.storage.quota with
  | none => simp [worldAfter, hq, LocalStorage.setEntry_setEntry]
  | some q =>
    by_cases hu : LocalStorage.usage (LocalStorage.setEntry w.storage.items
        (gameId ++ "_unlocked") "true") ≤ q
    · simp [worldAfter, hq, hu, LocalStorage.setEntry_setEntry]
    · simp [worldAfter, hq, hu]

/-- C5 (counterexample): from a fresh page, `setSettings(mutedSettings)` succeeds; after
`resetAllData()` the call `getSettings()` returns `mutedSettings`, not the default
settings object. -/
theorem resetAllData_getSettings_counterexample :
    getSettings RefJSON.api
        (resetAllData (worldAfter World.fresh
          (setSettings RefJSON.api World.fresh mutedSettings)))
      = .ok mutedSettings ∧
    getSettings RefJSON.api
        (resetAllData (worldAfter World.fresh
          (setSettings RefJSON.api World.fresh mutedSettings)))
      ≠ .ok defaultSettings := by
  decide

/-- C5 (amended): in every state, `resetAllData()` followed by `getSettings()` returns the
in-memory `AppState.settings`; that is the default settings object exactly when
`AppState.settings` still holds it. -/
theorem resetAllData_getSettings (J : JSONApi) (w : World) :
    getSettings J (resetAllData w) = .ok w.app.settings ∧
    getSettings J (resetAllData { w with app := AppState.initial }) = .ok defaultSettings := by
  simp [getSettings, resetAllData, tryCatch, LocalStorage.getItem_clear, AppState.initial]

/-- C6: in every state, after `resetAllData()` the call `getPurchases()` returns the empty
list and, for every game id, `getGameProgress(id)` returns
`{ level: 1, score: 0, highScore: 0 }` and `isGameUnlocked(id)` is false. -/
theorem resetAllData_defaults (J : JSONApi) (w : World) :
    getPurchases J (resetAllData w) = .ok (.arr []) ∧
    ∀ gameId : String,
      getGameProgress J (resetAllData w) gameId = .ok defaultProgress ∧
      isGameUnlocked (resetAllData w) gameId = false := by
  simp [getPurchases, getGameProgress, isGameUnlocked, resetAllData, tryCatch,
    LocalStorage.getItem_clear]

end StorageManager


/-! ## Theorems: service worker -/

namespace ServiceWorker

theorem foldl_cachesDelete (names : List String) (caches : CacheStorage) :
    names.foldl cachesDelete caches = caches.filter (fun p => decide (p.1 ∉ names)) := by
  induction names generalizing caches with
  | nil => simp
  | cons n rest ih =>
    simp only [List.foldl_cons, ih, cachesDelete, List.filter_filter]
    apply List.filter_congr
    intro p _
    simp only [List.mem_cons, not_or, Bool.decide_and, Bool.and_comm, decide_not]

theorem activate_caches (caches : CacheStorage) :
    (activate caches).caches = caches.filter (fun p => !isStale p.1) := by
  simp only [activate, activateDeletes, foldl_cachesDelete]
  apply List.filter_congr
  intro p hp
  have hmem : p.1 ∈ cacheNames caches := List.mem_map_of_mem Prod.fst hp
  simp [List.mem_filter, hmem]

/-- C7: for every list of existing caches the `activate` listener deletes exactly the names
that are neither `STATIC_CACHE` nor `DYNAMIC_CACHE`; afterwards the caches are exactly the
existing ones with one of these two names, contents unchanged, and the promise handed to
`waitUntil` is fulfilled. -/
theorem activate_deletes_exactly_stale (caches : CacheStorage) :
    (∀ name, name ∈ activateDeletes caches ↔
      (name ∈ cacheNames caches ∧ name ≠ STATIC_CACHE ∧ name ≠ DYNAMIC_CACHE)) ∧
    (activate caches).caches =
      caches.filter (fun p => decide (p.1 = STATIC_CACHE ∨ p.1 = DYNAMIC_CACHE)) ∧
    (∀ name, name ∈ cacheNames (activate caches).caches ↔
      (name ∈ cacheNames caches ∧ (name = STATIC_CACHE ∨ name = DYNAMIC_CACHE))) ∧
    (activate caches).waitUntil = .ok () := by
  have hfilter : (activate caches).caches =
      caches.filter (fun p => decide (p.1 = STATIC_CACHE ∨ p.1 = DYNAMIC_CACHE)) := by
    rw [activate_caches]
    apply List.filter_congr
    intro p _
    by_cases h1 : p.1 = STATIC_CACHE <;> by_cases h2 : p.1 = DYNAMIC_CACHE <;>
      simp [isStale, h1, h2]
  refine ⟨?_, hfilter, ?_, rfl⟩
  · intro name
    simp [activateDeletes, List.mem_filter, isStale]
  · intro name
    rw [hfilter]
    simp only [cacheNames, List.mem_map, List.mem_filter, decide_eq_true_eq]
    constructor
    · rintro ⟨p, ⟨hp, hn⟩, rfl⟩
      exact ⟨⟨p, hp, rfl⟩, hn⟩
    · rintro ⟨⟨p, hp, rfl⟩, hn⟩
      exact ⟨p, ⟨hp, hn⟩, rfl⟩

/-- C8 (counterexample): with every fetch failing, `cache.addAll(STATIC_FILES)` rejects, and
the promise the install listener hands to `waitUntil` is fulfilled all the same. -/
theorem install_failure_counterexample :
    fetchAll offline STATIC_FILES = .error .typeError ∧
    (install offline []).waitUntil = .ok () := by
  decide

/-- C8 (amended): when `cache.addAll(STATIC_FILES)` rejects, the `.catch` of the install
listener swallows the rejection: the promise handed to `waitUntil` is fulfilled, no entry
is stored by this install and `self.skipWaiting()` is not called. -/
theorem install_swallows_failure (env : Env) (caches : CacheStorage) (e : JsError)
    (h : fetchAll env STATIC_FILES = .error e) :
    (install env caches).waitUntil = .ok () ∧
    (install env caches).caches = cachesOpen caches STATIC_CACHE ∧
    (install env caches).called = false := by
  simp [install, addAll, andThen, orCatch, h]

/-- Witness for C8 (amended): the environment in which every fetch fails. -/
theorem install_swallows_failure_witness :
    fetchAll offline STATIC_FILES = .error .typeError ∧
    (install offline mixedCaches).waitUntil = .ok () ∧
    (install offline mixedCaches).caches = cachesOpen mixedCaches STATIC_CACHE ∧
    (install offline mixedCaches).called = false :=
  ⟨by decide, install_swallows_failure offline mixedCaches .typeError (by decide)⟩

/-- The same-origin branch of the fetch listener, for every `GET` request: a cache match
is the response and nothing is fetched or written; on a miss one network fetch is made, a
fetched response is returned, and it is written into the dynamic cache exactly when its
status is 200. -/
theorem onFetch_same_origin_cases (env : Env) (caches : CacheStorage) (request : Request)
    (hget : request.method = "GET") (hsame : request.origin = env.origin) :
    (onFetch env caches request).responded = true ∧
    (∀ cached, cachesMatch caches request.url = some cached →
      (onFetch env caches request).response = .ok (some cached) ∧
      (onFetch env caches request).effects = []) ∧
    (cachesMatch caches request.url = none →
      (onFetch env caches request).effects.filter Effect.isNetworkFetch
        = [Effect.networkFetch request.url] ∧
      ∀ response, env.network request.url = .ok response →
        (onFetch env caches request).response = .ok (some response) ∧
        (isSuccessful response = true →
          (onFetch env caches request).effects.filter Effect.isCacheWrite
            = [Effect.cacheWrite DYNAMIC_CACHE request.url response] ∧
          (onFetch env caches request).caches
            = putInto caches DYNAMIC_CACHE request.url response) ∧
        (isSuccessful response = false →
          (onFetch env caches request).effects.filter Effect.isCacheWrite = [] ∧
          (onFetch env caches request).caches = caches)) := by
  refine ⟨?_, ?_, ?_⟩
  · simp only [onFetch, hget, hsame]
    cases hc : cachesMatch caches request.url with
    | some cached => simp
    | none =>
      simp only [ne_eq, not_true_eq_false, if_false, if_true]
      rcases hn : networkThenCache env caches request with ⟨r, effects, caches1⟩
      cases r with
      | ok response => rfl
      | error e =>
        cases ha : request.accept with
        | none => rfl
        | some a => by_cases hi : includes a "text/html" = true <;> simp [hi]
  · intro cached hc
    simp [onFetch, hget, hsame, hc]
  · intro hc
    constructor
    · simp only [onFetch, hget, hsame, hc, networkThenCache]
      cases hn : env.network request.url with
      | error e =>
        cases ha : request.accept with
        | none => simp [Effect.isNetworkFetch]
        | some a => by_cases hi : includes a "text/html" <;> simp [hi, Effect.isNetworkFetch]
      | ok r => by_cases hs : isSuccessful r <;> simp [hs, Effect.isNetworkFetch]
    · intro response hn
      by_cases hs : isSuccessful response <;>
        simp [onFetch, hget, hsame, hc, networkThenCache, hn, hs, Effect.isCacheWrite]

/-- C9 (failing input): a same-origin `GET` for a page, no cache entry, and a network
fetch that succeeds with the successful status 204: the listener responds with the fetched
response after exactly one network fetch, and makes no write into any cache, although the
listener is commented `Cache successful responses`; its test is `response.status === 200`.
With status 200 the same request is written into the dynamic cache. -/
theorem onFetch_success_not_cached :
    pageRequest.method = "GET" ∧ pageRequest.origin = (online 204).origin ∧
    cachesMatch [] pageRequest.url = none ∧
    (online 204).network pageRequest.url = .ok (pageResponse 204) ∧
    (onFetch (online 204) [] pageRequest).responded = true ∧
    (onFetch (online 204) [] pageRequest).response = .ok (some (pageResponse 204)) ∧
    (onFetch (online 204) [] pageRequest).effects = [Effect.networkFetch pageRequest.url] ∧
    (onFetch (online 204) [] pageRequest).caches = [] ∧
    (onFetch (online 200) [] pageRequest).effects
      = [Effect.networkFetch pageRequest.url,
         Effect.cacheWrite DYNAMIC_CACHE pageRequest.url (pageResponse 200)] := by
  decide

/-- C10 (counterexample): a cross-origin `GET` for a script, no cache entry, the network
down: the promise given to `respondWith` is fulfilled with `undefined`, not with the
empty placeholder response. -/
theorem onFetch_cross_origin_counterexample :
    scriptRequest.method = "GET" ∧ scriptRequest.origin ≠ offline.origin ∧
    cachesMatch [] scriptRequest.url = none ∧
    offline.network scriptRequest.url = .error .networkError ∧
    (onFetch offline [] scriptRequest).response = .ok none := by
  decide

/-- C10 (amended): for every cross-origin `GET` request with no cache match whose network
fetch fails, the listener answers with the empty placeholder (status 200, empty body,
`text/css`) exactly when the request URL contains `fonts.googleapis.com`; for any other
URL the promise given to `respondWith` is fulfilled with `undefined`. -/
theorem onFetch_cross_origin_fallback (env : Env) (caches : CacheStorage) (request : Request)
    (e : JsError) (hget : request.method = "GET") (hcross : request.origin ≠ env.origin)
    (hmiss : cachesMatch caches request.url = none)
    (hfail : env.network request.url = .error e) :
    (onFetch env caches request).responded = true ∧
    (onFetch env caches request).response =
      (if includes request.url "fonts.googleapis.com" then .ok (some emptyStylesheet)
       else .ok none) ∧
    emptyStylesheet.status = 200 ∧ emptyStylesheet.body = "" := by
  by_cases hi : includes request.url "fonts.googleapis.com" <;>
    simp [onFetch, hget, hcross, hmiss, networkThenCache, hfail, hi, emptyStylesheet]

/-- Witness for C10 (amended): the font sheet request with the network down. -/
theorem onFetch_cross_origin_fallback_witness :
    fontRequest.method = "GET" ∧ fontRequest.origin ≠ offline.origin ∧
    cachesMatch [] fontRequest.url = none ∧
    offline.network fontRequest.url = .error .networkError ∧
    (onFetch offline [] fontRequest).response = .ok (some emptyStylesheet) :=
  ⟨by decide, by decide, by decide, by decide,
   (onFetch_cross_origin_fallback offline [] fontRequest .networkError
      (by decide) (by decide) (by decide) (by decide)).2.1.trans (by decide)⟩

end ServiceWorker


/-! ## Theorems: export and import -/

namespace LocalStorage

theorem getItem_of_mem_keys (st : LocalStorage) (k : String) (h : k ∈ st.keys) :
    ∃ v, st.getItem k = some v := by
  unfold keys at h
  unfold getItem
  cases hf : st.items.find? (fun kv => decide (kv.1 = k)) with
  | some kv => exact ⟨kv.2, rfl⟩
  | none =>
    rw [List.find?_eq_none] at hf
    obtain ⟨p, hp, rfl⟩ := List.mem_map.mp h
    exact absurd (by simp) (hf p hp)

end LocalStorage

namespace StorageManager

theorem foldl_exportGames (st : LocalStorage) (ks : List String) :
    ∀ (acc : List (String × Json)), (∀ k ∈ ks, k ∈ st.keys) →
    (∀ k x, (k, x) ∈ acc → isGameKey k = true ∧ ∃ v, st.getItem k = some v ∧ x = .str v) →
    ∀ k x, (k, x) ∈ ks.foldl
        (fun games key =>
          if isGameKey key then
            setProp games key (match st.getItem key with | some v => .str v | none => .null)
          else games) acc →
      isGameKey k = true ∧ ∃ v, st.getItem k = some v ∧ x = .str v := by
  induction ks with
  | nil => intro acc _ hacc k x h; exact hacc k x h
  | cons key rest ih =>
    intro acc hks hacc k x h
    simp only [List.foldl_cons] at h
    refine ih _ (fun k hk => hks k (List.mem_cons_of_mem _ hk)) ?_ k x h
    intro k1 x1 h1
    by_cases hg : isGameKey key = true
    · simp only [hg, if_true] at h1
      rcases mem_setProp _ _ _ _ _ h1 with h2 | ⟨rfl, rfl⟩
      · exact hacc k1 x1 h2
      · obtain ⟨v, hv⟩ := LocalStorage.getItem_of_mem_keys st k1 (hks k1 (List.mem_cons_self _ _))
        exact ⟨hg, v, hv, by simp [hv]⟩
    · simp only [hg] at h1
      exact hacc k1 x1 h1

theorem exportGames_spec (st : LocalStorage) (k : String) (x : Json)
    (h : (k, x) ∈ exportGames st) :
    isGameKey k = true ∧ ∃ v, st.getItem k = some v ∧ x = .str v :=
  foldl_exportGames st st.keys [] (fun _ hk => hk) (by simp) k x h

theorem foldl_exportGames_ordered (st : LocalStorage) (ks : List String) :
    ∀ (acc : List (String × Json)), orderedProps acc = true →
    orderedProps (ks.foldl
        (fun games key =>
          if isGameKey key then
            setProp games key (match st.getItem key with | some v => .str v | none => .null)
          else games) acc) = true := by
  induction ks with
  | nil => intro acc h; exact h
  | cons key rest ih =>
    intro acc h
    simp only [List.foldl_cons]
    apply ih
    by_cases hg : isGameKey key = true
    · simp only [hg, if_true]
      exact orderedProps_setProp _ _ _ h
    · simp only [hg]
      exact h

theorem canonical_exportGames (st : LocalStorage) :
    (Json.obj (exportGames st)).canonical = true := by
  rw [canonical_obj_iff]
  refine ⟨foldl_exportGames_ordered st st.keys [] rfl, ?_⟩
  intro kv hkv
  obtain ⟨_, v, _, hx⟩ := exportGames_spec st kv.1 kv.2 hkv
  rw [hx]
  rfl

/-- The object that `exportData` serialises is canonical when the three values read are. -/
theorem canonical_bundle (st : LocalStorage) (vs vp va : Json)
    (hs : vs.canonical = true) (hp : vp.canonical = true) (ha : va.canonical = true) :
    (Json.obj [("settings", vs), ("purchases", vp), ("analytics", va),
      ("games", .obj (exportGames st))]).canonical = true := by
  rw [canonical_obj_iff]
  refine ⟨?_, ?_⟩
  · simp only [orderedProps, fitsBefore, Bool.and_true, Bool.and_eq_true, decide_eq_true_eq]
    decide
  · intro kv hkv
    simp only [List.mem_cons, List.mem_singleton, List.not_mem_nil, or_false] at hkv
    rcases hkv with rfl | rfl | rfl | rfl
    · exact hs
    · exact hp
    · exact ha
    · exact canonical_exportGames st

theorem importGames_same (entries : List (String × Json)) :
    ∀ (st : LocalStorage),
    (∀ k x, (k, x) ∈ entries → ∃ v, st.getItem k = some v ∧ x = .str v) →
    (importGames st entries).1 = st := by
  induction entries with
  | nil => intro st _; rfl
  | cons kv rest ih =>
    intro st h
    obtain ⟨k, x⟩ := kv
    obtain ⟨v, hv, rfl⟩ := h k x (List.mem_cons_self _ _)
    simp only [importGames, jsToString]
    cases hs : st.setItem k v with
    | error e => rfl
    | ok st1 =>
      have := LocalStorage.setItem_same st st1 k v hv hs
      subst this
      exact ih _ (fun k2 x2 h2 => h k2 x2 (List.mem_cons_of_mem _ h2))

/-- The settings step of the import: it returns; it leaves the state as it was (when the
value is falsy, or the write is refused), or it stores the text of the value. -/
theorem importSettings_cases (J : JSONApi) (u : World) (vs : Json) :
    ∃ u1, importSettings J u (some vs) = .ok u1 ∧
      u1.storage.quota = u.storage.quota ∧
      (∀ key, key ≠ "playmate_settings" → u1.storage.getItem key = u.storage.getItem key) ∧
      ((u1.storage = u.storage ∧ u1.app = u.app ∧
          (vs.truthy = false ∨ u.storage.quota ≠ none)) ∨
        (vs.truthy = true ∧
          u1.storage.getItem "playmate_settings" = some (J.stringify vs 0))) := by
  by_cases ht : vs.truthy = true
  · cases hs : u.storage.setItem "playmate_settings" (J.stringify vs 0) with
    | error e =>
      refine ⟨showNotification u "Failed to save settings" "error", ?_, rfl, fun _ _ => rfl,
        Or.inl ⟨rfl, rfl, Or.inr (LocalStorage.setItem_error _ _ _ _ hs).2⟩⟩
      simp [importSettings, ht, setSettings, hs, tryCatch]
    | ok st =>
      refine ⟨{ u with storage := st, app := { u.app with settings := vs } }, ?_,
        LocalStorage.quota_setItem _ _ _ _ hs,
        fun key hk => LocalStorage.getItem_setItem_other _ _ _ _ _ hs hk,
        Or.inr ⟨ht, LocalStorage.getItem_setItem_self _ _ _ _ hs⟩⟩
      simp [importSettings, ht, setSettings, hs, tryCatch]
  · have hf : vs.truthy = false := by simpa using ht
    refine ⟨u, ?_, rfl, fun _ _ => rfl, Or.inl ⟨rfl, rfl, Or.inl hf⟩⟩
    simp [importSettings, hf]

/-- The purchases step of the import: the write is refused and the step throws, or it
returns, having left the state as it was (the value is falsy) or stored the text of the
value. -/
theorem importPurchases_cases (J : JSONApi) (u : World) (vp : Json) :
    (∃ e, importPurchases J u (some vp) = .error e ∧ vp.truthy = true ∧
      u.storage.quota ≠ none) ∨
    (∃ u2, importPurchases J u (some vp) = .ok u2 ∧ u2.app = u.app ∧
      (∀ key, key ≠ "playmate_purchases" → u2.storage.getItem key = u.storage.getItem key) ∧
      ((vp.truthy = false ∧ u2 = u) ∨
        (vp.truthy = true ∧
          u2.storage.getItem "playmate_purchases" = some (J.stringify vp 0)))) := by
  by_cases ht : vp.truthy = true
  · cases hs : u.storage.setItem "playmate_purchases" (J.stringify vp 0) with
    | error e =>
      refine Or.inl ⟨e, ?_, ht, (LocalStorage.setItem_error _ _ _ _ hs).2⟩
      simp [importPurchases, ht, hs]
    | ok st =>
      refine Or.inr ⟨{ u with storage := st }, ?_, rfl,
        fun key hk => LocalStorage.getItem_setItem_other _ _ _ _ _ hs hk,
        Or.inr ⟨ht, LocalStorage.getItem_setItem_self _ _ _ _ hs⟩⟩
      simp [importPurchases, ht, hs]
  · have hf : vp.truthy = false := by simpa using ht
    refine Or.inr ⟨u, ?_, rfl, fun _ _ => rfl, Or.inl ⟨hf, rfl⟩⟩
    simp [importPurchases, hf]

theorem getSettings_congr (J : JSONApi) (a b : World)
    (h1 : a.storage.getItem "playmate_settings" = b.storage.getItem "playmate_settings")
    (h2 : a.app = b.app) : getSettings J a = getSettings J b := by
  simp only [getSettings, h1, h2]

theorem getPurchases_congr (J : JSONApi) (a b : World)
    (h1 : a.storage.getItem "playmate_purchases" = b.storage.getItem "playmate_purchases") :
    getPurchases J a = getPurchases J b := by
  simp only [getPurchases, h1]

theorem getSettings_of_stored (J : JSONApi) (hJ : J.Lawful) (a : World) (v : Json)
    (hv : v.canonical = true)
    (h : a.storage.getItem "playmate_settings" = some (J.stringify v 0)) :
    getSettings J a = .ok v := by
  simp [getSettings, h, hJ.stringify_ne_empty, hJ.parse_stringify v 0 hv, tryCatch]

theorem getPurchases_of_stored (J : JSONApi) (hJ : J.Lawful) (a : World) (v : Json)
    (hv : v.canonical = true)
    (h : a.storage.getItem "playmate_purchases" = some (J.stringify v 0)) :
    getPurchases J a = .ok v := by
  simp [getPurchases, h, hJ.stringify_ne_empty, hJ.parse_stringify v 0 hv, tryCatch]

theorem getSettings_ok (J : JSONApi) (w : World) : ∃ v, getSettings J w = .ok v := by
  unfold getSettings tryCatch
  split <;> simp_all

theorem getPurchases_ok (J : JSONApi) (w : World) : ∃ v, getPurchases J w = .ok v := by
  unfold getPurchases tryCatch
  split <;> simp_all

theorem exportData_some (J : JSONApi) (w w1 : World) (text : String)
    (h : exportData J w = .ok (some text, w1)) :
    ∃ vs vp va, getSettings J w = .ok vs ∧ getPurchases J w = .ok vp ∧
      Analytics.getAnalytics J w = .ok va ∧
      text = J.stringify (.obj [("settings", vs), ("purchases", vp), ("analytics", va),
        ("games", .obj (exportGames w.storage))]) 2 ∧
      w1.storage = w.storage ∧ w1.app = w.app := by
  obtain ⟨vs, hvs⟩ := getSettings_ok J w
  obtain ⟨vp, hvp⟩ := getPurchases_ok J w
  simp only [exportData, exportBundle, hvs, hvp] at h
  cases ha : Analytics.getAnalytics J w with
  | error e => simp [ha, tryCatch] at h
  | ok va =>
    simp only [ha, tryCatch, Except.ok.injEq, Prod.mk.injEq, Option.some.injEq] at h
    obtain ⟨h1, h2⟩ := h
    subst h2
    exact ⟨vs, vp, va, hvs, hvp, rfl, h1.symm, rfl, rfl⟩

/-- The `try` block of the import, run on the file that `exportData` has just produced. -/
theorem importBody_of_export (J : JSONApi) (hJ : J.Lawful) (w w1 : World) (vs vp va : Json)
    (hs : vs.canonical = true) (hp : vp.canonical = true) (ha : va.canonical = true)
    (hst : w1.storage = w.storage) (happ : w1.app = w.app) :
    ∃ u, (importBody J w1 (J.stringify (.obj [("settings", vs), ("purchases", vp),
        ("analytics", va), ("games", .obj (exportGames w.storage))]) 2)).1 = u ∧
      (∀ key, isGameKey key = true → u.storage.getItem key = w.storage.getItem key) ∧
      ((u.storage.getItem "playmate_settings" = w.storage.getItem "playmate_settings" ∧
          u.app = w.app ∧ (vs.truthy = false ∨ w.storage.quota ≠ none)) ∨
        (vs.truthy = true ∧
          u.storage.getItem "playmate_settings" = some (J.stringify vs 0))) ∧
      ((u.storage.getItem "playmate_purchases" = w.storage.getItem "playmate_purchases" ∧
          (vp.truthy = false ∨ w.storage.quota ≠ none)) ∨
        (vp.truthy = true ∧
          u.storage.getItem "playmate_purchases" = some (J.stringify vp 0))) := by
  obtain ⟨u1, hu1, hu1q, hu1o, hu1s⟩ := importSettings_cases J w1 vs
  have hkeyS : ∀ key, isGameKey key = true → key ≠ "playmate_settings" := by
    intro key hk he; subst he; exact absurd hk (by decide)
  have hkeyP : ∀ key, isGameKey key = true → key ≠ "playmate_purchases" := by
    intro key hk he; subst he; exact absurd hk (by decide)
  have hu1g : ∀ key, isGameKey key = true → u1.storage.getItem key = w.storage.getItem key :=
    fun key hk => by rw [hu1o key (hkeyS key hk), hst]
  have hu1s2 : (u1.storage.getItem "playmate_settings" = w.storage.getItem "playmate_settings"
      ∧ u1.app = w.app ∧ (vs.truthy = false ∨ w.storage.quota ≠ none)) ∨
      (vs.truthy = true ∧
        u1.storage.getItem "playmate_settings" = some (J.stringify vs 0)) := by
    rcases hu1s with ⟨h1, h2, h3⟩ | h
    · exact Or.inl ⟨by rw [h1, hst], by rw [h2, happ], by rw [← hst]; exact h3⟩
    · exact Or.inr h
  have hu1p : u1.storage.getItem "playmate_purchases"
      = w.storage.getItem "playmate_purchases" := by
    rw [hu1o _ (by decide), hst]
  have hu1q2 : u1.storage.quota = w.storage.quota := by rw [hu1q, hst]
  have hbody : importBody J w1 (J.stringify (.obj [("settings", vs), ("purchases", vp),
      ("analytics", va), ("games", .obj (exportGames w.storage))]) 2)
      = (match importPurchases J u1 (some vp) with
         | .error e => (u1, some e)
         | .ok u2 => importGameData u2 (some (.obj (exportGames w.storage)))) := by
    simp only [importBody, hJ.parse_stringify _ 2 (canonical_bundle w.storage vs vp va hs hp ha),
      Json.getProp, lookupProp]
    simp only [show ("purchases" : String) ≠ "settings" by decide,
      show ("settings" : String) ≠ "purchases" by decide,
      show ("settings" : String) ≠ "games" by decide,
      show ("purchases" : String) ≠ "games" by decide,
      show ("analytics" : String) ≠ "games" by decide,
      if_true, if_false, ite_true, ite_false, reduceIte, hu1]
  rw [hbody]
  rcases importPurchases_cases J u1 vp with ⟨e, hp1, hpt, hpq⟩ | ⟨u2, hp2, h2a, h2o, h2p⟩
  · rw [hp1]
    exact ⟨u1, rfl, hu1g, hu1s2, Or.inl ⟨hu1p, Or.inr (by rw [← hu1q2]; exact hpq)⟩⟩
  · rw [hp2]
    have hu2g : ∀ key, isGameKey key = true →
        u2.storage.getItem key = w.storage.getItem key :=
      fun key hk => by rw [h2o key (hkeyP key hk), hu1g key hk]
    have hsame : (importGames u2.storage (exportGames w.storage)).1 = u2.storage := by
      apply importGames_same
      intro k x hkx
      obtain ⟨hk, v, hv, hx⟩ := exportGames_spec w.storage k x hkx
      exact ⟨v, by rw [hu2g k hk, hv], hx⟩
    refine ⟨u2, ?_, hu2g, ?_, ?_⟩
    · simp [importGameData, Json.truthy, ownEntries, hsame]
    · rcases hu1s2 with ⟨h1, h2, h3⟩ | ⟨h1, h2⟩
      · exact Or.inl ⟨by rw [h2o _ (by decide), h1], by rw [h2a, h2], h3⟩
      · exact Or.inr ⟨h1, by rw [h2o _ (by decide), h2]⟩
    · rcases h2p with ⟨h1, h2⟩ | ⟨h1, h2⟩
      · exact Or.inl ⟨by rw [h2, hu1p], Or.inl h1⟩
      · exact Or.inr ⟨h1, h2⟩

set_option maxRecDepth 100000 in
/-- C4 (counterexample): on a fresh page nothing is stored under `playmate_settings` and
`playmate_purchases`, and after export and import of the exported file both keys hold a
text; a stored settings text that is written with blanks is replaced by the text without
them. -/
theorem export_import_counterexample :
    World.fresh.storage.getItem "playmate_settings" = none ∧
    World.fresh.storage.getItem "playmate_purchases" = none ∧
    (exportThenImport RefJSON.api World.fresh).map
        (fun w => w.storage.getItem "playmate_settings")
      = .ok (some
          "\x7b\"soundEnabled\":true,\"theme\":\"default\",\"difficulty\":\"normal\",\"autoSave\":true\x7d") ∧
    (exportThenImport RefJSON.api World.fresh).map
        (fun w => w.storage.getItem "playmate_purchases")
      = .ok (some "[]") ∧
    (exportThenImport RefJSON.api
        (World.withItems [("playmate_settings", "\x7b \"theme\": \"dark\" \x7d")])).map
        (fun w => w.storage.getItem "playmate_settings")
      = .ok (some "\x7b\"theme\":\"dark\"\x7d") := by
  decide

/-- C4 (amended): with lawful JSON built-ins, in every state in which `exportData`
produces a file and the values `S`, `P` read by `getSettings()`, `getPurchases()` and the
one read by `getAnalytics()` are canonical (they survive `JSON.stringify` followed by
`JSON.parse`), importing that file with no write in between returns and leaves the text of
every key containing `_progress` or `_unlocked` bit-identical; `getSettings()` and
`getPurchases()` return `S` and `P` as before; the text under `playmate_settings`
afterwards is what it was before or `JSON.stringify(S)`: what it was before when `S` is
falsy, `JSON.stringify(S)` when `S` is truthy and the storage has no quota; and likewise
the text under `playmate_purchases` with `P`. -/
theorem export_import_texts (J : JSONApi) (hJ : J.Lawful) (w w1 : World) (text : String)
    (S P : Json)
    (hexp : exportData J w = .ok (some text, w1))
    (hS : getSettings J w = .ok S) (hP : getPurchases J w = .ok P)
    (hcS : S.canonical = true) (hcP : P.canonical = true)
    (hcA : ∀ A, Analytics.getAnalytics J w = .ok A → A.canonical = true) :
    ∃ w2, importData J w1 text = .ok w2 ∧
      (∀ key, isGameKey key = true → w2.storage.getItem key = w.storage.getItem key) ∧
      getSettings J w2 = .ok S ∧
      getPurchases J w2 = .ok P ∧
      (w2.storage.getItem "playmate_settings" = w.storage.getItem "playmate_settings" ∨
        w2.storage.getItem "playmate_settings" = some (J.stringify S 0)) ∧
      (S.truthy = false →
        w2.storage.getItem "playmate_settings" = w.storage.getItem "playmate_settings") ∧
      (S.truthy = true → w.storage.quota = none →
        w2.storage.getItem "playmate_settings" = some (J.stringify S 0)) ∧
      (w2.storage.getItem "playmate_purchases" = w.storage.getItem "playmate_purchases" ∨
        w2.storage.getItem "playmate_purchases" = some (J.stringify P 0)) ∧
      (P.truthy = false →
        w2.storage.getItem "playmate_purchases" = w.storage.getItem "playmate_purchases") ∧
      (P.truthy = true → w.storage.quota = none →
        w2.storage.getItem "playmate_purchases" = some (J.stringify P 0)) := by
  obtain ⟨vs, vp, va, hvs, hvp, hva, rfl, hst, happ⟩ := exportData_some J w w1 text hexp
  have e1 : vs = S := Except.ok.inj (hvs.symm.trans hS)
  have e2 : vp = P := Except.ok.inj (hvp.symm.trans hP)
  subst e1 e2
  obtain ⟨u, hu, hug, hus, hup⟩ :=
    importBody_of_export J hJ w w1 vs vp va hcS hcP (hcA va hva) hst happ
  have himp : ∃ w2, importData J w1 (J.stringify (.obj [("settings", vs), ("purchases", vp),
        ("analytics", va), ("games", .obj (exportGames w.storage))]) 2) = .ok w2 ∧
      w2.storage = u.storage ∧ w2.app = u.app := by
    unfold importData
    rcases hb : importBody J w1 (J.stringify (.obj [("settings", vs), ("purchases", vp),
        ("analytics", va), ("games", .obj (exportGames w.storage))]) 2) with ⟨b1, b2⟩
    rw [hb] at hu
    simp only at hu
    subst hu
    cases b2 with
    | none => exact ⟨_, rfl, rfl, rfl⟩
    | some e => exact ⟨_, rfl, rfl, rfl⟩
  obtain ⟨w2, hw2, hw2s, hw2a⟩ := himp
  refine ⟨w2, hw2, ?_, ?_, ?_, ?_, ?_, ?_, ?_, ?_, ?_⟩
  · intro key hk
    rw [hw2s, hug key hk]
  · rw [getSettings_congr J w2 u (by rw [hw2s]) hw2a]
    rcases hus with ⟨h1, h2, _⟩ | ⟨_, h⟩
    · rw [getSettings_congr J u w h1 h2, hvs]
    · exact getSettings_of_stored J hJ u vs hcS h
  · rw [getPurchases_congr J w2 u (by rw [hw2s])]
    rcases hup with ⟨h1, _⟩ | ⟨_, h⟩
    · rw [getPurchases_congr J u w h1, hvp]
    · exact getPurchases_of_stored J hJ u vp hcP h
  · rw [hw2s]
    rcases hus with ⟨h1, _, _⟩ | ⟨_, h⟩
    · exact Or.inl h1
    · exact Or.inr h
  · intro hf
    rw [hw2s]
    rcases hus with ⟨h1, _, _⟩ | ⟨ht, _⟩
    · exact h1
    · rw [hf] at ht
      cases ht
  · intro ht hq
    rw [hw2s]
    rcases hus with ⟨_, _, h3⟩ | ⟨_, h⟩
    · rcases h3 with h3 | h3
      · rw [ht] at h3
        cases h3
      · exact absurd hq h3
    · exact h
  · rw [hw2s]
    rcases hup with ⟨h1, _⟩ | ⟨_, h⟩
    · exact Or.inl h1
    · exact Or.inr h
  · intro hf
    rw [hw2s]
    rcases hup with ⟨h1, _⟩ | ⟨ht, _⟩
    · exact h1
    · rw [hf] at ht
      cases ht
  · intro ht hq
    rw [hw2s]
    rcases hup with ⟨_, h3⟩ | ⟨_, h⟩
    · rcases h3 with h3 | h3
      · rw [ht] at h3
        cases h3
      · exact absurd hq h3
    · exact h

set_option maxRecDepth 100000 in
/-- Witness for C4 (amended): in a store whose settings text has blanks and whose
purchases text is `null`, the import leaves the progress text and the unlock marker as
they were, rewrites the settings text without blanks and does not touch the purchases
text; in a store whose settings text is `0` and whose purchases text is `[ ]`, it does not
touch the settings text and rewrites the purchases text as `[]`. -/
theorem export_import_texts_witness :
    (exportData RefJSON.api spacedWorld = .ok (some spacedExport,
        showNotification spacedWorld "Data exported successfully!" "success") ∧
      ∃ w2, importData RefJSON.api
          (showNotification spacedWorld "Data exported successfully!" "success") spacedExport
          = .ok w2 ∧
        w2.storage.getItem "snake_progress" = some "7" ∧
        w2.storage.getItem "chess_unlocked" = some "true" ∧
        getSettings RefJSON.api w2 = .ok (.obj [("theme", .str "dark")]) ∧
        getPurchases RefJSON.api w2 = .ok .null ∧
        w2.storage.getItem "playmate_settings" = some "\x7b\"theme\":\"dark\"\x7d" ∧
        w2.storage.getItem "playmate_purchases" = some " null ") ∧
    (exportData RefJSON.api zeroWorld = .ok (some zeroExport,
        showNotification zeroWorld "Data exported successfully!" "success") ∧
      ∃ w2, importData RefJSON.api
          (showNotification zeroWorld "Data exported successfully!" "success") zeroExport
          = .ok w2 ∧
        w2.storage.getItem "snake_progress" = some "7" ∧
        w2.storage.getItem "playmate_settings" = some " 0" ∧
        w2.storage.getItem "playmate_purchases" = some "[]") := by
  have hA1 : ∀ A, Analytics.getAnalytics RefJSON.api spacedWorld = .ok A →
      A.canonical = true := by
    intro A h
    have h2 : Analytics.getAnalytics RefJSON.api spacedWorld = .ok Analytics.emptyLog := by
      decide
    rw [h2] at h
    rw [← Except.ok.inj h]
    decide
  have hA2 : ∀ A, Analytics.getAnalytics RefJSON.api zeroWorld = .ok A →
      A.canonical = true := by
    intro A h
    have h2 : Analytics.getAnalytics RefJSON.api zeroWorld = .ok Analytics.emptyLog := by
      decide
    rw [h2] at h
    rw [← Except.ok.inj h]
    decide
  have hx1 : exportData RefJSON.api spacedWorld = .ok (some spacedExport,
      showNotification spacedWorld "Data exported successfully!" "success") := by decide
  have hx2 : exportData RefJSON.api zeroWorld = .ok (some zeroExport,
      showNotification zeroWorld "Data exported successfully!" "success") := by decide
  obtain ⟨a, ha, hag, has, hap, _, _, hat, _, hapf, _⟩ :=
    export_import_texts RefJSON.api RefJSON.api_lawful spacedWorld
      (showNotification spacedWorld "Data exported successfully!" "success") spacedExport
      (.obj [("theme", .str "dark")]) .null hx1 (by decide) (by decide) (by decide) (by decide)
      hA1
  obtain ⟨b, hb, hbg, _, _, _, hbf, _, _, _, hbpt⟩ :=
    export_import_texts RefJSON.api RefJSON.api_lawful zeroWorld
      (showNotification zeroWorld "Data exported successfully!" "success") zeroExport
      (.int 0) (.arr []) hx2 (by decide) (by decide) (by decide) (by decide) hA2
  exact ⟨⟨hx1, a, ha, (hag "snake_progress" (by decide)).trans (by decide),
      (hag "chess_unlocked" (by decide)).trans (by decide), has, hap,
      (hat (by decide) rfl).trans (by decide), (hapf (by decide)).trans (by decide)⟩,
    ⟨hx2, b, hb, (hbg "snake_progress" (by decide)).trans (by decide),
      (hbf (by decide)).trans (by decide), (hbpt (by decide) rfl).trans (by decide)⟩⟩
end StorageManager

/-! ## Theorems: error handling and unlock flags -/

namespace Analytics

/-- C11 (failing inputs): `trackEvent` throws to its caller. With the text `oops` under
`playmate_analytics`, `JSON.parse` throws a `SyntaxError`; with the text `null`, reading
`analytics.events` throws a `TypeError`; with a full storage, `setItem` throws
`QuotaExceededError`. No `try` in `trackEvent` or `getAnalytics` catches them. -/
theorem trackEvent_throws :
    trackEvent RefJSON.api "2024-01-01T10:00:00.000Z"
        (World.withItems [("playmate_analytics", "oops")]) "page_view" (.obj [])
      = .error .syntaxError ∧
    trackEvent RefJSON.api "2024-01-01T10:00:00.000Z"
        (World.withItems [("playmate_analytics", "null")]) "page_view" (.obj [])
      = .error .typeError ∧
    trackEvent RefJSON.api "2024-01-01T10:00:00.000Z" World.full "page_view" (.obj [])
      = .error .quotaExceeded := by
  decide

end Analytics

namespace StorageManager

/-- C12: for every store and game id, `isGameUnlocked(gameId)` is true if and only if
the text stored under `<gameId>_unlocked` is exactly `true`: an absent key reads as
locked, and a stored text reads as unlocked only when it is `true`. -/
theorem isGameUnlocked_iff (w : World) (gameId : String) :
    (isGameUnlocked w gameId = true ↔
      w.storage.getItem (gameId ++ "_unlocked") = some "true") ∧
    (w.storage.getItem (gameId ++ "_unlocked") = none → isGameUnlocked w gameId = false) ∧
    (∀ text, w.storage.getItem (gameId ++ "_unlocked") = some text →
      (isGameUnlocked w gameId = true ↔ text = "true")) := by
  refine ⟨by simp [isGameUnlocked], fun h => by simp [isGameUnlocked, h], fun text h => ?_⟩
  simp [isGameUnlocked, h]

/-- Witness for C12: an absent key, a stored `false` and a stored `true`. -/
theorem isGameUnlocked_iff_witness :
    World.fresh.storage.getItem ("snake" ++ "_unlocked") = none ∧
    isGameUnlocked World.fresh "snake" = false ∧
    (World.withItems [("snake_unlocked", "false")]).storage.getItem ("snake" ++ "_unlocked")
      = some "false" ∧
    (isGameUnlocked (World.withItems [("snake_unlocked", "false")]) "snake" = true ↔
      "false" = "true") ∧
    isGameUnlocked (World.withItems [("snake_unlocked", "false")]) "snake" = false ∧
    isGameUnlocked (World.withItems [("snake_unlocked", "true")]) "snake" = true :=
  ⟨by decide, (isGameUnlocked_iff World.fresh "snake").2.1 (by decide), by decide,
   (isGameUnlocked_iff (World.withItems [("snake_unlocked", "false")]) "snake").2.2 "false"
     (by decide),
   by decide, by decide⟩

/-- C13: `setSettings(s)` never throws and leaves no half-written state. When the storage
write succeeds, the text under `playmate_settings` is `JSON.stringify(s)` (so, with lawful
JSON built-ins and a canonical `s`, `getSettings()` returns `s`) and `AppState.settings` is
`s`. When the
storage write throws, the storage and `AppState` are unchanged (only the notification
`Failed to save settings` is added). -/
theorem setSettings_atomic (J : JSONApi) (w : World) (s : Json) :
    ∃ w1, setSettings J w s = .ok w1 ∧
      ((∃ st, w.storage.setItem "playmate_settings" (J.stringify s 0) = .ok st) →
        w1.storage.getItem "playmate_settings" = some (J.stringify s 0) ∧
        w1.app.settings = s ∧
        (J.Lawful → s.canonical = true → getSettings J w1 = .ok s)) ∧
      ((∃ e, w.storage.setItem "playmate_settings" (J.stringify s 0) = .error e) →
        w1.storage = w.storage ∧ w1.app = w.app ∧
        w1.notifications = w.notifications ++ [("Failed to save settings", "error")]) := by
  unfold setSettings
  cases hs : w.storage.setItem "playmate_settings" (J.stringify s 0) with
  | error e =>
    refine ⟨_, rfl, ?_, fun _ => ⟨rfl, rfl, rfl⟩⟩
    rintro ⟨st, hst⟩
    cases hst
  | ok st =>
    refine ⟨_, rfl, fun _ => ?_, ?_⟩
    · have hget := LocalStorage.getItem_setItem_self _ _ _ _ hs
      refine ⟨hget, rfl, fun hJ hc => ?_⟩
      simp [getSettings, hget, hJ.stringify_ne_empty, hJ.parse_stringify s 0 hc, tryCatch]
    · rintro ⟨e, he⟩
      cases he

/-- Witness for C13: on a fresh page the write of `mutedSettings` succeeds; on a page whose
storage is full it throws. -/
theorem setSettings_atomic_witness :
    (∃ st, World.fresh.storage.setItem "playmate_settings"
        (RefJSON.api.stringify mutedSettings 0) = .ok st) ∧
    (∃ e, World.full.storage.setItem "playmate_settings"
        (RefJSON.api.stringify mutedSettings 0) = .error e) ∧
    (∃ w1, setSettings RefJSON.api World.fresh mutedSettings = .ok w1 ∧
      w1.app.settings = mutedSettings ∧ getSettings RefJSON.api w1 = .ok mutedSettings) ∧
    (∃ w1, setSettings RefJSON.api World.full mutedSettings = .ok w1 ∧
      w1.storage = World.full.storage ∧ w1.app = World.full.app) := by
  have hok : ∃ st, World.fresh.storage.setItem "playmate_settings"
      (RefJSON.api.stringify mutedSettings 0) = .ok st := ⟨_, rfl⟩
  have herr : ∃ e, World.full.storage.setItem "playmate_settings"
      (RefJSON.api.stringify mutedSettings 0) = .error e := ⟨.quotaExceeded, by decide⟩
  obtain ⟨w1, h1, h1a, _⟩ := setSettings_atomic RefJSON.api World.fresh mutedSettings
  obtain ⟨w2, h2, _, h2b⟩ := setSettings_atomic RefJSON.api World.full mutedSettings
  exact ⟨hok, herr, ⟨w1, h1, (h1a hok).2.1, (h1a hok).2.2 RefJSON.api_lawful (by decide)⟩,
    ⟨w2, h2, (h2b herr).1, (h2b herr).2.1⟩⟩

/-- C15: for every bundle text on which `JSON.parse` throws, `importData` leaves the
storage and `AppState` as they were and shows the error notification `Invalid backup
file`, not the success one: the world after is the world before plus that notification. -/
theorem importData_unparseable (J : JSONApi) (w : World) (text : String) (e : JsError)
    (h : J.parse text = .error e) :
    importData J w text = .ok (showNotification w "Invalid backup file" "error") ∧
    (showNotification w "Invalid backup file" "error").storage = w.storage ∧
    (showNotification w "Invalid backup file" "error").app = w.app ∧
    (showNotification w "Invalid backup file" "error").notifications
      = w.notifications ++ [("Invalid backup file", "error")] := by
  simp [importData, importBody, h, showNotification]

/-- Witness for C15: the text `oops` is not JSON. -/
theorem importData_unparseable_witness :
    RefJSON.api.parse "oops" = .error .syntaxError ∧
    importData RefJSON.api sampleWorld "oops"
      = .ok (showNotification sampleWorld "Invalid backup file" "error") :=
  ⟨by decide, (importData_unparseable RefJSON.api sampleWorld "oops" .syntaxError
    (by decide)).1⟩

/-- C20 (counterexample): with the JSON text `null`, `7` or `{}` stored under
`snake_progress`, `getGameProgress('snake')` returns the parsed value, which is not a
`GameProgress`. -/
theorem getGameProgress_malformed_counterexample :
    getGameProgress RefJSON.api (World.withItems [("snake_progress", "null")]) "snake"
      = .ok .null ∧
    isGameProgress .null = false ∧
    getGameProgress RefJSON.api (World.withItems [("snake_progress", "7")]) "snake"
      = .ok (Json.int 7) ∧
    isGameProgress (Json.int 7) = false ∧
    getGameProgress RefJSON.api (World.withItems [("snake_progress", "\x7b\x7d")]) "snake"
      = .ok (.obj []) ∧
    isGameProgress (.obj []) = false ∧
    isGameProgress defaultProgress = true := by
  decide!

/-- C20 (amended): for every text stored under `<gameId>_progress`, `getGameProgress`
returns the default `{ level: 1, score: 0, highScore: 0 }` (a `GameProgress`) when the
text is empty or `JSON.parse` throws on it, and returns the parsed value as it is, without
any check of its shape, when the text parses. -/
theorem getGameProgress_stored (J : JSONApi) (w : World) (gameId text : String)
    (h : w.storage.getItem (gameId ++ "_progress") = some text) :
    (text = "" → getGameProgress J w gameId = .ok defaultProgress) ∧
    (∀ e, J.parse text = .error e → getGameProgress J w gameId = .ok defaultProgress) ∧
    (∀ v, text ≠ "" → J.parse text = .ok v → getGameProgress J w gameId = .ok v) ∧
    isGameProgress defaultProgress = true := by
  refine ⟨fun ht => ?_, fun e he => ?_, fun v ht hv => ?_, by decide!⟩
  · simp [getGameProgress, h, ht, tryCatch]
  · by_cases ht : text = "" <;> simp [getGameProgress, h, ht, he, tryCatch]
  · simp [getGameProgress, h, ht, hv, tryCatch]

/-- Witness for C20 (amended): a stored text that is not JSON, and one that is. -/
theorem getGameProgress_stored_witness :
    (World.withItems [("snake_progress", "oops")]).storage.getItem ("snake" ++ "_progress")
      = some "oops" ∧
    RefJSON.api.parse "oops" = .error .syntaxError ∧
    getGameProgress RefJSON.api (World.withItems [("snake_progress", "oops")]) "snake"
      = .ok defaultProgress ∧
    (World.withItems [("snake_progress", "7")]).storage.getItem ("snake" ++ "_progress")
      = some "7" ∧
    getGameProgress RefJSON.api (World.withItems [("snake_progress", "7")]) "snake"
      = .ok (Json.int 7) :=
  ⟨by decide, by decide,
   (getGameProgress_stored RefJSON.api (World.withItems [("snake_progress", "oops")])
      "snake" "oops" (by decide)).2.1 .syntaxError (by decide),
   by decide,
   (getGameProgress_stored RefJSON.api (World.withItems [("snake_progress", "7")])
      "snake" "7" (by decide)).2.2.1 (Json.int 7) (by decide) (by decide)⟩

end StorageManager


/-! ## Lemmas on key removal -/

theorem includesChars_append_self (a b : List Char) : includesChars (a ++ b) b = true := by
  induction a with
  | nil =>
    cases b with
    | nil => rfl
    | cons c cs => simp [includesChars]
  | cons c cs ih => simp [includesChars, ih]

theorem includes_append_self (a b : String) : includes (a ++ b) b = true := by
  simp [includes, includesChars_append_self]

namespace LocalStorage

theorem getItem_removeItem_other (s : LocalStorage) (key other : String) (hne : other ≠ key) :
    (s.removeItem key).getItem other = s.getItem other := by
  simp only [getItem, removeItem, List.find?_filter]
  congr 2
  funext kv
  by_cases h : kv.1 = other
  · simp [h, hne]
  · simp [h]

theorem getItem_filter_none (items : List (String × String)) (p : String × String → Bool)
    (key : String) (q : Option Nat) (h : ∀ kv : String × String, kv.1 = key → p kv = false) :
    getItem { items := items.filter p, quota := q } key = none := by
  simp only [getItem]
  induction items with
  | nil => simp
  | cons kv rest ih =>
    by_cases hp : p kv = true
    · have hk : kv.1 ≠ key := fun hk => by simp [h kv hk] at hp
      simpa [List.filter, hp, List.find?, hk] using ih
    · simpa [List.filter, hp] using ih

theorem getItem_filter_same (items : List (String × String)) (p : String × String → Bool)
    (key : String) (q : Option Nat) (h : ∀ kv : String × String, kv.1 = key → p kv = true) :
    getItem { items := items.filter p, quota := q } key
      = getItem { items := items, quota := q } key := by
  simp only [getItem]
  induction items with
  | nil => simp
  | cons kv rest ih =>
    by_cases hk : kv.1 = key
    · simp [List.filter, h kv hk, List.find?, hk]
    · by_cases hp : p kv = true
      · simpa [List.filter, hp, List.find?, hk] using ih
      · simpa [List.filter, hp, List.find?, hk] using ih

theorem getItem_removeItem_self (s : LocalStorage) (key : String) :
    (s.removeItem key).getItem key = none :=
  getItem_filter_none s.items _ key s.quota (fun kv hk => by simp [hk])

theorem foldl_removeItem (pattern : String) (ks : List String) :
    ∀ (acc : LocalStorage),
    ks.foldl (fun acc key => if includes key pattern then acc.removeItem key else acc) acc
      = { acc with items :=
            acc.items.filter (fun kv => !(decide (kv.1 ∈ ks) && includes kv.1 pattern)) } := by
  induction ks with
  | nil => intro acc; simp
  | cons k rest ih =>
    intro acc
    simp only [List.foldl_cons, ih]
    by_cases hk : includes k pattern = true
    · simp only [hk, if_true, removeItem, List.filter_filter]
      congr 1
      apply List.filter_congr
      intro kv _
      by_cases h1 : kv.1 = k
      · simp [h1, hk]
      · simp [h1]
    · simp only [hk]
      congr 1
      apply List.filter_congr
      intro kv _
      by_cases h1 : kv.1 = k
      · simp [h1, hk]
      · simp [h1]

end LocalStorage

namespace StorageManager

theorem removeKeysIncluding_eq (st : LocalStorage) (pattern : String) :
    removeKeysIncluding st pattern
      = { st with items := st.items.filter (fun kv => !includes kv.1 pattern) } := by
  unfold removeKeysIncluding
  rw [LocalStorage.foldl_removeItem]
  congr 1
  apply List.filter_congr
  intro kv hkv
  have : kv.1 ∈ st.keys := List.mem_map_of_mem Prod.fst hkv
  simp [this]

theorem getItem_removeKeysIncluding (st : LocalStorage) (pattern key : String) :
    (removeKeysIncluding st pattern).getItem key
      = if includes key pattern then none else st.getItem key := by
  rw [removeKeysIncluding_eq]
  by_cases h : includes key pattern = true
  · simp only [h, if_true]
    exact LocalStorage.getItem_filter_none st.items _ key st.quota
      (fun kv hk => by simp [hk, h])
  · simp only [h]
    exact LocalStorage.getItem_filter_same st.items _ key st.quota
      (fun kv hk => by simp [hk, h])

/-- C16: in every state, after `resetAllPurchases()` nothing is stored under
`playmate_purchases` nor under any key `<id>_unlocked`: `getPurchases()` returns the empty
list and `isGameUnlocked(id)` is false for every game id. The entries left are the former
ones without `playmate_purchases` and without those whose key contains `_unlocked`. -/
theorem resetAllPurchases_clears (J : JSONApi) (w : World) :
    (resetAllPurchases w).storage.getItem "playmate_purchases" = none ∧
    getPurchases J (resetAllPurchases w) = .ok (.arr []) ∧
    (∀ gameId : String,
      (resetAllPurchases w).storage.getItem (gameId ++ "_unlocked") = none ∧
      isGameUnlocked (resetAllPurchases w) gameId = false) ∧
    (resetAllPurchases w).storage.items
      = (w.storage.items.filter (fun kv => !decide (kv.1 = "playmate_purchases"))).filter
          (fun kv => !includes kv.1 "_unlocked") := by
  have hp : (resetAllPurchases w).storage.getItem "playmate_purchases" = none := by
    simp only [resetAllPurchases, getItem_removeKeysIncluding]
    rw [if_neg (by decide)]
    exact LocalStorage.getItem_removeItem_self _ _
  have hu : ∀ key : String, includes key "_unlocked" = true →
      (resetAllPurchases w).storage.getItem key = none := by
    intro key hk
    simp only [resetAllPurchases, getItem_removeKeysIncluding, hk, if_true]
  refine ⟨hp, by simp [getPurchases, hp, tryCatch], fun gameId => ?_, ?_⟩
  · have := hu (gameId ++ "_unlocked") (includes_append_self _ _)
    exact ⟨this, by simp [isGameUnlocked, this]⟩
  · simp [resetAllPurchases, removeKeysIncluding_eq, LocalStorage.removeItem]

/-- C17: in every state, `resetAllProgress()` removes exactly the entries whose key
contains `_progress`: afterwards such a key reads as absent and every other key reads the
text it had, the stored entries are the former ones without those whose key contains
`_progress`, and `getGameProgress(id)` returns the default for every game id. -/
theorem resetAllProgress_exact (J : JSONApi) (w : World) :
    (∀ key : String, (resetAllProgress w).storage.getItem key
      = if includes key "_progress" then none else w.storage.getItem key) ∧
    (resetAllProgress w).storage.items
      = w.storage.items.filter (fun kv => !includes kv.1 "_progress") ∧
    (∀ gameId : String,
      getGameProgress J (resetAllProgress w) gameId = .ok defaultProgress) ∧
    (resetAllProgress w).app = w.app := by
  refine ⟨fun key => getItem_removeKeysIncluding _ _ _, ?_, fun gameId => ?_, rfl⟩
  · simp [resetAllProgress, removeKeysIncluding_eq]
  · have : (resetAllProgress w).storage.getItem (gameId ++ "_progress") = none := by
      simp only [resetAllProgress, getItem_removeKeysIncluding,
        includes_append_self, if_true]
    simp [getGameProgress, this, tryCatch]

end StorageManager

/-! ## Lemmas: which keys an operation writes -/

namespace Analytics

theorem trackEvent_frame (J : JSONApi) (now : String) (w w1 : World) (eventName : String)
    (data : Json) (h : trackEvent J now w eventName data = .ok w1) :
    w1.app = w.app ∧ w1.notifications = w.notifications ∧
    ∃ text, w.storage.setItem "playmate_analytics" text = .ok w1.storage := by
  unfold trackEvent at h
  cases hg : getAnalytics J w with
  | error e => simp [hg] at h
  | ok a =>
    simp only [hg] at h
    cases ha : appendEvent a (mkEvent eventName now data) with
    | error e => simp [ha] at h
    | ok a1 =>
      simp only [ha] at h
      cases hs : w.storage.setItem "playmate_analytics" (J.stringify a1 0) with
      | error e => simp [hs] at h
      | ok st =>
        simp only [hs, Except.ok.injEq] at h
        subst h
        exact ⟨rfl, rfl, _, hs⟩

theorem trackEvent_getItem (J : JSONApi) (now : String) (w w1 : World) (eventName : String)
    (data : Json) (h : trackEvent J now w eventName data = .ok w1) (key : String)
    (hk : key ≠ "playmate_analytics") : w1.storage.getItem key = w.storage.getItem key := by
  obtain ⟨_, _, text, hs⟩ := trackEvent_frame J now w w1 eventName data h
  exact LocalStorage.getItem_setItem_other _ _ _ _ _ hs hk

theorem trackGameStart_getItem (J : JSONApi) (now now2 : String) (w : World)
    (gameId key : String) (hk : key ≠ "playmate_analytics")
    (hk2 : key ≠ "playmate_analytics_state") :
    (trackGameStart J now now2 w gameId).1.storage.getItem key = w.storage.getItem key := by
  unfold trackGameStart
  cases ht : trackEvent J now w "game_start" (.obj [("gameId", .str gameId)]) with
  | error e => rfl
  | ok w1 =>
    have h1 := trackEvent_getItem J now w w1 _ _ ht key hk
    simp only []
    cases hn : noteGameStart w1.app.analytics now2 with
    | error e => exact h1
    | ok analytics =>
      simp only [saveAnalytics]
      cases hs : w1.storage.setItem "playmate_analytics_state" (J.stringify analytics 0) with
      | error e => exact h1
      | ok st =>
        have h2 := LocalStorage.getItem_setItem_other _ _ _ _ _ hs hk2
        simp only []
        rw [h2, h1]

end Analytics

namespace StorageManager

theorem addPurchase_getItem (J : JSONApi) (now now2 : String) (w : World) (gameId : String)
    (price : Json) (key : String) (hk : key ≠ "playmate_purchases")
    (hk2 : key ≠ "playmate_analytics") :
    (worldAfter w (addPurchase J now now2 w gameId price)).storage.getItem key
      = w.storage.getItem key := by
  unfold addPurchase
  cases hg : getPurchases J w with
  | error e => rfl
  | ok v =>
    cases v with
    | arr ps =>
      simp only []
      cases hs : w.storage.setItem "playmate_purchases"
          (J.stringify (.arr (ps ++ [purchaseRecord gameId price now])) 0) with
      | error e => rfl
      | ok st =>
        have h1 := LocalStorage.getItem_setItem_other _ _ _ _ _ hs hk
        simp only []
        cases ht : Analytics.trackPurchase J now2 { w with storage := st } gameId price with
        | error e => simpa [worldAfter] using h1
        | ok w2 =>
          have h2 := Analytics.trackEvent_getItem J now2 _ w2 _ _ ht key hk2
          simp only [worldAfter]
          rw [h2]
          exact h1
    | null => rfl
    | bool b => rfl
    | num n => rfl
    | str s => rfl
    | obj kvs => rfl

end StorageManager


/-! ## Theorems: purchases, game starts and the life of an unlock flag -/

namespace StorageManager

theorem getPurchases_of_wellFormed (J : JSONApi) (w : World) (L : List Json)
    (h : WellFormedPurchases J w L) : getPurchases J w = .ok (.arr L) := by
  rcases h with ⟨hnone, rfl⟩ | ⟨text, hget, hne, hparse, _⟩
  · simp [getPurchases, hnone, tryCatch]
  · simp [getPurchases, hget, hne, hparse, tryCatch]

theorem canonical_of_wellFormed (J : JSONApi) (w : World) (L : List Json)
    (h : WellFormedPurchases J w L) : (Json.arr L).canonical = true := by
  rcases h with ⟨_, rfl⟩ | ⟨_, _, _, _, hc⟩
  · rfl
  · exact hc

theorem canonical_purchaseRecord (gameId : String) (price : Json) (date : String)
    (h : price.canonical = true) : (purchaseRecord gameId price date).canonical = true := by
  rw [purchaseRecord, canonical_obj_iff]
  refine ⟨?_, ?_⟩
  · simp only [orderedProps, fitsBefore, Bool.and_true, Bool.and_eq_true, decide_eq_true_eq]
    decide
  · intro kv hkv
    simp only [List.mem_cons, List.mem_singleton, List.not_mem_nil, or_false] at hkv
    rcases hkv with rfl | rfl | rfl
    · rfl
    · exact h
    · rfl

theorem canonical_append_record (L : List Json) (record : Json)
    (hL : (Json.arr L).canonical = true) (hr : record.canonical = true) :
    (Json.arr (L ++ [record])).canonical = true := by
  rw [canonical_arr_iff] at hL ⊢
  intro x hx
  rcases List.mem_append.mp hx with h | h
  · exact hL x h
  · rw [List.mem_singleton] at h
    rw [h]
    exact hr

/-- When the write of the new list is accepted, `getPurchases()` returns the old list
followed by the one new record. -/
theorem addPurchase_appends_of_write (J : JSONApi) (hJ : J.Lawful) (now now2 : String)
    (w : World) (gameId : String) (price : Json) (L : List Json) (hwf : WellFormedPurchases J w L)
    (hprice : price.canonical = true)
    (hwrite : ∃ st, w.storage.setItem "playmate_purchases"
      (J.stringify (.arr (L ++ [purchaseRecord gameId price now])) 0) = .ok st) :
    ∃ w1 purchases, addPurchase J now now2 w gameId price = .ok w1 ∧
      getPurchases J w1 = .ok (.arr purchases) ∧
      purchases = L ++ [purchaseRecord gameId price now] ∧
      purchases.length = L.length + 1 ∧
      purchases.take L.length = L ∧
      (∀ i, i < L.length → purchases[i]? = L[i]?) ∧
      (purchaseRecord gameId price now).getProp "gameId" = .ok (some (.str gameId)) ∧
      (purchaseRecord gameId price now).getProp "price" = .ok (some price) := by
  obtain ⟨st, hst⟩ := hwrite
  have hget := LocalStorage.getItem_setItem_self _ _ _ _ hst
  have hcan : (Json.arr (L ++ [purchaseRecord gameId price now])).canonical = true :=
    canonical_append_record L _ (canonical_of_wellFormed J w L hwf)
      (canonical_purchaseRecord gameId price now hprice)
  have hrec : (purchaseRecord gameId price now).getProp "gameId" = .ok (some (.str gameId)) ∧
      (purchaseRecord gameId price now).getProp "price" = .ok (some price) := by
    constructor <;> simp [purchaseRecord, Json.getProp, lookupProp]
  have hlist : (L ++ [purchaseRecord gameId price now]).length = L.length + 1 ∧
      (L ++ [purchaseRecord gameId price now]).take L.length = L ∧
      (∀ i, i < L.length → (L ++ [purchaseRecord gameId price now])[i]? = L[i]?) := by
    refine ⟨by simp, by simp, ?_⟩
    intro i hi
    exact List.getElem?_append_left hi
  simp only [addPurchase, getPurchases_of_wellFormed J w L hwf, hst]
  cases ht : Analytics.trackPurchase J now2 { w with storage := st } gameId price with
  | error e =>
    exact ⟨_, _, rfl, getPurchases_of_stored J hJ _ _ hcan hget, rfl, hlist.1, hlist.2.1,
      hlist.2.2, hrec.1, hrec.2⟩
  | ok w2 =>
    refine ⟨w2, _, rfl, getPurchases_of_stored J hJ _ _ hcan ?_, rfl, hlist.1, hlist.2.1,
      hlist.2.2, hrec.1, hrec.2⟩
    rw [Analytics.trackEvent_getItem J now2 _ w2 _ _ ht "playmate_purchases" (by decide)]
    exact hget

set_option maxRecDepth 100000 in
/-- C14 (counterexample): on a fresh page `addPurchase('snake', NaN)` writes the list, and
`getPurchases()` then returns one record whose price is `null`, not the price given:
`JSON.stringify` writes `NaN` as `null`. -/
theorem addPurchase_price_counterexample :
    WellFormedPurchases RefJSON.api World.fresh [] ∧
    (∃ st, World.fresh.storage.setItem "playmate_purchases"
      (RefJSON.api.stringify
        (.arr ([] ++ [purchaseRecord "snake" (.num .nan) "2024-01-01T10:00:00.000Z"])) 0)
      = .ok st) ∧
    (addPurchase RefJSON.api "2024-01-01T10:00:00.000Z" "2024-01-01T10:00:00.001Z"
        World.fresh "snake" (.num .nan)).map (fun w1 => getPurchases RefJSON.api w1)
      = .ok (.ok (.arr [purchaseRecord "snake" .null "2024-01-01T10:00:00.000Z"])) ∧
    Json.arr [purchaseRecord "snake" .null "2024-01-01T10:00:00.000Z"]
      ≠ Json.arr ([] ++ [purchaseRecord "snake" (.num .nan) "2024-01-01T10:00:00.000Z"]) :=
  ⟨Or.inl ⟨by decide, rfl⟩, ⟨_, rfl⟩, by decide, by decide⟩

/-- C14 (amended): `addPurchase` is append-only. For lawful JSON built-ins, every store
whose purchase list is absent (then `L` is empty) or the text of a list `L` of canonical
values, and every canonical `price` (one that survives `JSON.stringify` followed by
`JSON.parse`, as the prices of `GAMES` do): when the write of the new list is accepted,
`addPurchase(gameId, price)` returns and `getPurchases()` then returns `L` followed by
exactly one record `{ gameId, price, date }` with that `gameId` and `price`; the records
of `L` are unchanged and in the same order. -/
theorem addPurchase_appends (J : JSONApi) (hJ : J.Lawful) (now now2 : String) (w : World)
    (gameId : String) (price : Json) (L : List Json) (hwf : WellFormedPurchases J w L)
    (hprice : price.canonical = true)
    (hwrite : ∃ st, w.storage.setItem "playmate_purchases"
      (J.stringify (.arr (L ++ [purchaseRecord gameId price now])) 0) = .ok st) :
    ∃ w1 purchases, addPurchase J now now2 w gameId price = .ok w1 ∧
      getPurchases J w1 = .ok (.arr purchases) ∧
      purchases = L ++ [purchaseRecord gameId price now] ∧
      purchases.length = L.length + 1 ∧
      purchases.take L.length = L ∧
      (∀ i, i < L.length → purchases[i]? = L[i]?) ∧
      (purchaseRecord gameId price now).getProp "gameId" = .ok (some (.str gameId)) ∧
      (purchaseRecord gameId price now).getProp "price" = .ok (some price) :=
  addPurchase_appends_of_write J hJ now now2 w gameId price L hwf hprice hwrite

set_option maxRecDepth 100000 in
/-- Witness for C14 (amended): a third purchase, at the price `0.25`, in a store that
holds two records: the list read afterwards is the two records, in their order, followed
by the new one. -/
theorem addPurchase_appends_witness :
    WellFormedPurchases RefJSON.api purchasedWorld twoPurchases ∧
    brickBreakerPrice.canonical = true ∧
    ∃ w1, addPurchase RefJSON.api "2024-01-03T10:00:00.000Z" "2024-01-03T10:00:00.001Z"
        purchasedWorld "brick-breaker" brickBreakerPrice = .ok w1 ∧
      getPurchases RefJSON.api w1 = .ok (.arr
        [purchaseRecord "snake" snakePrice "2024-01-01T10:00:00.000Z",
         purchaseRecord "maze-runner" (.num (JsNumber.ofDecimal false 1 (-1)))
           "2024-01-02T10:00:00.000Z",
         purchaseRecord "brick-breaker" brickBreakerPrice "2024-01-03T10:00:00.000Z"]) := by
  have hwf : WellFormedPurchases RefJSON.api purchasedWorld twoPurchases :=
    Or.inr ⟨twoPurchasesText, by decide, by decide, by decide, by decide⟩
  obtain ⟨w1, purchases, h1, h2, h3, _⟩ :=
    addPurchase_appends RefJSON.api RefJSON.api_lawful "2024-01-03T10:00:00.000Z"
      "2024-01-03T10:00:00.001Z" purchasedWorld "brick-breaker" brickBreakerPrice twoPurchases
      hwf (by decide) ⟨_, rfl⟩
  rw [h3] at h2
  exact ⟨hwf, by decide, w1, h1, h2⟩

end StorageManager

namespace Analytics

set_option maxRecDepth 100000 in
/-- C18 (failing inputs): `trackGameStart('snake')` on a page with the initial
`AppState`. With the text `oops` under `playmate_analytics`, the `JSON.parse` of
`trackEvent` throws a `SyntaxError` out of `trackGameStart` before anything is counted:
no event is appended, `gamesPlayed` stays `0`, `lastPlayed` stays `null` and nothing is
stored under `playmate_analytics_state`. With a full storage the write of the event log
throws `QuotaExceededError`, with the same outcome. With the text `[1,2]` the call
returns and counts the start, but the event list is not persisted: the stored text is
still `[1,2]`. -/
theorem trackGameStart_fails :
    trackGameStart RefJSON.api "2024-01-01T10:00:00.000Z" "2024-01-01T10:00:00.001Z"
        (World.withItems [("playmate_analytics", "oops")]) "snake"
      = (World.withItems [("playmate_analytics", "oops")], some .syntaxError) ∧
    (World.withItems [("playmate_analytics", "oops")]).app.analytics.getProp "gamesPlayed"
      = .ok (some (Json.int 0)) ∧
    (World.withItems [("playmate_analytics", "oops")]).app.analytics.getProp "lastPlayed"
      = .ok (some .null) ∧
    (World.withItems [("playmate_analytics", "oops")]).storage.getItem
        "playmate_analytics_state" = none ∧
    trackGameStart RefJSON.api "2024-01-01T10:00:00.000Z" "2024-01-01T10:00:00.001Z"
        World.full "snake"
      = (World.full, some .quotaExceeded) ∧
    World.full.storage.getItem "playmate_analytics" = none ∧
    (trackGameStart RefJSON.api "2024-01-01T10:00:00.000Z" "2024-01-01T10:00:00.001Z"
        (World.withItems [("playmate_analytics", "[1,2]")]) "snake").2 = none ∧
    (trackGameStart RefJSON.api "2024-01-01T10:00:00.000Z" "2024-01-01T10:00:00.001Z"
        (World.withItems [("playmate_analytics", "[1,2]")]) "snake").1.app.analytics.getProp
        "gamesPlayed" = .ok (some (Json.int 1)) ∧
    (trackGameStart RefJSON.api "2024-01-01T10:00:00.000Z" "2024-01-01T10:00:00.001Z"
        (World.withItems [("playmate_analytics", "[1,2]")]) "snake").1.storage.getItem
        "playmate_analytics" = some "[1,2]" ∧
    persistedEvents RefJSON.api
      (trackGameStart RefJSON.api "2024-01-01T10:00:00.000Z" "2024-01-01T10:00:00.001Z"
        (World.withItems [("playmate_analytics", "[1,2]")]) "snake").1 = none := by
  decide!

end Analytics
namespace Analytics

/-- What `trackGameStart` does where nothing throws: lawful JSON built-ins, storage
without quota, a well-formed event log with events `es0`, and an `AppState.analytics` that
is an object whose `gamesPlayed` converts to the number `n`. The call returns; the
persisted event log is `es0` followed by one `game_start` event carrying the game id,
trimmed to the most recent 100; `gamesPlayed` is `n + 1`, `lastPlayed` is the current
time, and the text of the summary is stored under `playmate_analytics_state`. -/
theorem trackGameStart_of_wellFormed (J : JSONApi) (hJ : J.Lawful) (now now2 : String)
    (w : World) (hq : w.storage.quota = none) (es0 : List Json) (hwf : WellFormedLog J w es0)
    (kvs : List (String × Json)) (ha : w.app.analytics = .obj kvs) (n : JsNumber)
    (hn : toNumber (lookupProp kvs "gamesPlayed") = .ok n) (gameId : String) :
    ∃ w1 kvs1, trackGameStart J now now2 w gameId = (w1, none) ∧
      persistedEvents J w1
        = some (trim (es0 ++ [mkEvent "game_start" now (.obj [("gameId", .str gameId)])])) ∧
      w1.app.analytics = .obj kvs1 ∧
      lookupProp kvs1 "gamesPlayed" = some (.num n.addOne) ∧
      lookupProp kvs1 "lastPlayed" = some (.str now2) ∧
      w1.storage.getItem "playmate_analytics_state" = some (J.stringify (.obj kvs1) 0) := by
  rcases trackEvent_step J hJ w es0 (logInv_of_wellFormed J w es0 hwf)
    ⟨now, "game_start", .obj [("gameId", .str gameId)]⟩ rfl with
    ⟨_, hne⟩ | ⟨wa, hstep, _, hper, hqa⟩
  · exact absurd hq hne
  · simp only [EventCall.event] at hstep hper
    obtain ⟨happ, _, _⟩ := trackEvent_frame J now w wa _ _ hstep
    obtain ⟨kvs1, hk1⟩ : ∃ kvs1, kvs1
        = setProp (setProp kvs "gamesPlayed" (.num n.addOne)) "lastPlayed" (.str now2) :=
      ⟨_, rfl⟩
    have hnote : noteGameStart wa.app.analytics now2 = .ok (.obj kvs1) := by
      simp [noteGameStart, incrementGamesPlayed, setLastPlayed, happ, ha, hn, hk1]
    have hset := LocalStorage.setItem_of_quota_none wa.storage "playmate_analytics_state"
      (J.stringify (.obj kvs1) 0) (by rw [hqa, hq])
    obtain ⟨st, hst⟩ : ∃ st, wa.storage.setItem "playmate_analytics_state"
        (J.stringify (.obj kvs1) 0) = .ok st := ⟨_, hset⟩
    have hsame : st.getItem "playmate_analytics" = wa.storage.getItem "playmate_analytics" :=
      LocalStorage.getItem_setItem_other _ _ _ _ _ hst (by decide)
    refine ⟨{ wa with storage := st, app := { wa.app with analytics := .obj kvs1 } },
      kvs1, ?_, ?_, rfl, ?_, ?_, ?_⟩
    · simp only [trackGameStart, hstep, hnote, saveAnalytics, hst]
    · simp only [persistedEvents, hsame] at hper ⊢
      exact hper
    · rw [hk1, lookupProp_setProp_other _ _ _ _ (by decide), lookupProp_setProp_self]
    · rw [hk1, lookupProp_setProp_self]
    · exact LocalStorage.getItem_setItem_self _ _ _ _ hst

end Analytics
namespace StorageManager

theorem ne_of_includes (key other pattern : String) (h1 : includes key pattern = true)
    (h2 : includes other pattern = false) : key ≠ other := by
  intro h
  rw [h, h2] at h1
  cases h1

theorem unlocked_key_ne_progress_key (gameId g : String) :
    gameId ++ "_unlocked" ≠ g ++ "_progress" := by
  intro h
  have hd : gameId.data ++ "_unlocked".data = g.data ++ "_progress".data := by
    have := congrArg String.data h
    simpa using this
  have := (List.append_inj' hd (by decide)).2
  exact absurd this (by decide)

/-- One call keeps the text `true` under an unlock key, unless the call is
`resetAllProgress()` and the key contains `_progress`. -/
theorem run_keeps_unlocked (J : JSONApi) (w : World) (gameId : String) (op : Op)
    (hun : w.storage.getItem (gameId ++ "_unlocked") = some "true")
    (hsafe : includes (gameId ++ "_unlocked") "_progress" = false ∨
      op.isResetAllProgress = false) :
    (op.run J w).storage.getItem (gameId ++ "_unlocked") = some "true" := by
  have hu : includes (gameId ++ "_unlocked") "_unlocked" = true := includes_append_self _ _
  have hprog : ∀ g : String, gameId ++ "_unlocked" ≠ g ++ "_progress" :=
    unlocked_key_ne_progress_key gameId
  have hset : gameId ++ "_unlocked" ≠ "playmate_settings" :=
    ne_of_includes _ _ "_unlocked" hu (by decide)
  have hpur : gameId ++ "_unlocked" ≠ "playmate_purchases" :=
    ne_of_includes _ _ "_unlocked" hu (by decide)
  have hana : gameId ++ "_unlocked" ≠ "playmate_analytics" :=
    ne_of_includes _ _ "_unlocked" hu (by decide)
  have hsta : gameId ++ "_unlocked" ≠ "playmate_analytics_state" :=
    ne_of_includes _ _ "_unlocked" hu (by decide)
  cases op with
  | setGameProgress g p =>
    simp only [Op.run, setGameProgress, tryCatch]
    cases hs : w.storage.setItem (g ++ "_progress") (J.stringify p 0) with
    | error e => simpa [worldAfter, showNotification] using hun
    | ok st =>
      simp only [worldAfter]
      rw [LocalStorage.getItem_setItem_other _ _ _ _ _ hs (hprog g)]
      exact hun
  | unlockGame g =>
    simp only [Op.run, unlockGame]
    cases hs : w.storage.setItem (g ++ "_unlocked") "true" with
    | error e => simpa [worldAfter] using hun
    | ok st =>
      simp only [worldAfter]
      by_cases hg : gameId ++ "_unlocked" = g ++ "_unlocked"
      · rw [hg]
        exact LocalStorage.getItem_setItem_self _ _ _ _ hs
      · rw [LocalStorage.getItem_setItem_other _ _ _ _ _ hs hg]
        exact hun
  | setSettings s =>
    simp only [Op.run, setSettings, tryCatch]
    cases hs : w.storage.setItem "playmate_settings" (J.stringify s 0) with
    | error e => simpa [worldAfter, showNotification] using hun
    | ok st =>
      simp only [worldAfter]
      rw [LocalStorage.getItem_setItem_other _ _ _ _ _ hs hset]
      exact hun
  | addPurchase now now2 g price =>
    simp only [Op.run]
    rw [addPurchase_getItem J now now2 w g price _ hpur hana]
    exact hun
  | trackEvent now name data =>
    simp only [Op.run]
    cases ht : Analytics.trackEvent J now w name data with
    | error e => simpa [worldAfter] using hun
    | ok w1 =>
      simp only [worldAfter]
      rw [Analytics.trackEvent_getItem J now w w1 _ _ ht _ hana]
      exact hun
  | trackGameStart now now2 g =>
    simp only [Op.run]
    rw [Analytics.trackGameStart_getItem J now now2 w g _ hana hsta]
    exact hun
  | exportData =>
    simp only [Op.run, exportData, tryCatch]
    cases exportBundle J w with
    | error e => simpa [showNotification] using hun
    | ok data => simpa [showNotification] using hun
  | resetGameProgress g =>
    simp only [Op.run, resetGameProgress]
    rw [LocalStorage.getItem_removeItem_other _ _ _ (hprog g)]
    exact hun
  | resetAllProgress =>
    rcases hsafe with hkey | hno
    · simp only [Op.run, resetAllProgress, getItem_removeKeysIncluding, hkey]
      simpa using hun
    · simp [Op.isResetAllProgress] at hno

/-- C19 (counterexample): the id `x_progress` is unlocked; after `resetAllProgress()`,
which removes every key containing `_progress` and so the key `x_progress_unlocked`, it
is locked. -/
theorem unlock_flag_counterexample :
    isGameUnlocked (World.withItems [("x_progress_unlocked", "true")]) "x_progress" = true ∧
    isGameUnlocked
        (runOps RefJSON.api (World.withItems [("x_progress_unlocked", "true")])
          [Op.resetAllProgress])
        "x_progress" = false := by
  decide

/-- C19 (amended): an unlock flag that is set stays set after any sequence of
`setGameProgress`, `unlockGame`, `setSettings`, `addPurchase`, `trackEvent`,
`trackGameStart`, `exportData`, `resetGameProgress` and `resetAllProgress` calls, whatever
their arguments and whether or not they throw, provided the key `<id>_unlocked` does not
contain `_progress` or the sequence has no `resetAllProgress` call. -/
theorem unlock_flag_persists (J : JSONApi) (w : World) (gameId : String) (ops : List Op)
    (hun : isGameUnlocked w gameId = true)
    (hsafe : includes (gameId ++ "_unlocked") "_progress" = false ∨
      ops.any Op.isResetAllProgress = false) :
    isGameUnlocked (runOps J w ops) gameId = true := by
  induction ops generalizing w with
  | nil => exact hun
  | cons op rest ih =>
    have hop : includes (gameId ++ "_unlocked") "_progress" = false ∨
        op.isResetAllProgress = false := by
      rcases hsafe with h | h
      · exact Or.inl h
      · simp only [List.any_cons, Bool.or_eq_false_iff] at h
        exact Or.inr h.1
    have hrest : includes (gameId ++ "_unlocked") "_progress" = false ∨
        rest.any Op.isResetAllProgress = false := by
      rcases hsafe with h | h
      · exact Or.inl h
      · simp only [List.any_cons, Bool.or_eq_false_iff] at h
        exact Or.inr h.2
    apply ih _ _ hrest
    simp only [isGameUnlocked, decide_eq_true_eq] at hun ⊢
    exact run_keeps_unlocked J w gameId op hun hop

/-- Witness for C19 (amended): `chess` is unlocked in `sampleWorld` and stays unlocked
after a progress write, a purchase, a game start and both progress resets; `x_progress`
stays unlocked after calls without `resetAllProgress`. -/
theorem unlock_flag_persists_witness :
    isGameUnlocked sampleWorld "chess" = true ∧
    includes ("chess" ++ "_unlocked") "_progress" = false ∧
    isGameUnlocked
      (runOps RefJSON.api sampleWorld
        [Op.setGameProgress "chess" defaultProgress,
         Op.addPurchase "2024-01-01T10:00:00.000Z" "2024-01-01T10:00:00.001Z" "snake"
           snakePrice,
         Op.trackGameStart "2024-01-01T10:00:01.000Z" "2024-01-01T10:00:01.001Z" "chess",
         Op.resetGameProgress "chess", Op.resetAllProgress])
      "chess" = true ∧
    isGameUnlocked (World.withItems [("x_progress_unlocked", "true")]) "x_progress" = true ∧
    [Op.resetGameProgress "x", Op.unlockGame "chess"].any Op.isResetAllProgress = false ∧
    isGameUnlocked
      (runOps RefJSON.api (World.withItems [("x_progress_unlocked", "true")])
        [Op.resetGameProgress "x", Op.unlockGame "chess"])
      "x_progress" = true :=
  ⟨by decide, by decide,
   unlock_flag_persists RefJSON.api sampleWorld "chess" _ (by decide) (Or.inl (by decide)),
   by decide, by decide,
   unlock_flag_persists RefJSON.api (World.withItems [("x_progress_unlocked", "true")])
     "x_progress" _ (by decide) (Or.inr (by decide))⟩

end StorageManager


/-! ## Theorems: the purchase entry point -/

theorem getGameProgress_congr (J : JSONApi) (a b : World) (gameId : String)
    (h : a.storage.getItem (gameId ++ "_progress") = b.storage.getItem (gameId ++ "_progress")) :
    StorageManager.getGameProgress J a gameId = StorageManager.getGameProgress J b gameId := by
  simp only [StorageManager.getGameProgress, h]

theorem wellFormedPurchases_congr (J : JSONApi) (a b : World) (L : List Json)
    (h : a.storage.getItem "playmate_purchases" = b.storage.getItem "playmate_purchases")
    (hwf : StorageManager.WellFormedPurchases J b L) :
    StorageManager.WellFormedPurchases J a L := by
  unfold StorageManager.WellFormedPurchases at hwf ⊢
  rw [h]
  exact hwf

theorem addPurchase_ok (J : JSONApi) (now now2 : String) (w : World) (gameId : String)
    (price : Json) : ∃ w1, StorageManager.addPurchase J now now2 w gameId price = .ok w1 := by
  unfold StorageManager.addPurchase
  split
  · split
    · split
      · exact ⟨_, rfl⟩
      · exact ⟨_, rfl⟩
    · exact ⟨_, rfl⟩
  · exact ⟨_, rfl⟩

theorem unlockGame_unlocked (J : JSONApi) (w : World) (gameId : String) (c : UnlockCall)
    (h : StorageManager.isGameUnlocked w gameId = true) :
    unlockGame J c.now c.now2 c.page w gameId c.price = (w, .ok false) := by
  simp [unlockGame, h]

theorem unlockGameCalls_unlocked (J : JSONApi) (w : World) (gameId : String)
    (calls : List UnlockCall) (h : StorageManager.isGameUnlocked w gameId = true) :
    unlockGameCalls J gameId w calls = (w, calls.map (fun _ => .ok false)) := by
  induction calls with
  | nil => rfl
  | cons c rest ih =>
    simp only [unlockGameCalls, unlockGame_unlocked J w gameId c h, ih, List.map_cons]

theorem addPurchase_purchases_key (J : JSONApi) (now now2 : String) (w : World)
    (gameId : String) (price : Json) :
    (worldAfter w (StorageManager.addPurchase J now now2 w gameId price)).storage.getItem
        "playmate_purchases" = w.storage.getItem "playmate_purchases" ∨
    ∃ L, StorageManager.getPurchases J w = .ok (.arr L) ∧
      (worldAfter w (StorageManager.addPurchase J now now2 w gameId price)).storage.getItem
        "playmate_purchases"
        = some (J.stringify (.arr (L ++ [StorageManager.purchaseRecord gameId price now])) 0) := by
  unfold StorageManager.addPurchase
  cases hg : StorageManager.getPurchases J w with
  | error e => exact Or.inl rfl
  | ok v =>
    cases v with
    | arr ps =>
      simp only []
      cases hs : w.storage.setItem "playmate_purchases"
          (J.stringify (.arr (ps ++ [StorageManager.purchaseRecord gameId price now])) 0) with
      | error e => exact Or.inl rfl
      | ok st =>
        have hget := LocalStorage.getItem_setItem_self _ _ _ _ hs
        refine Or.inr ⟨ps, rfl, ?_⟩
        simp only []
        cases ht : Analytics.trackPurchase J now2 { w with storage := st } gameId price with
        | error e => simpa [worldAfter] using hget
        | ok w2 =>
          simp only [worldAfter]
          rw [Analytics.trackEvent_getItem J now2 _ w2 _ _ ht "playmate_purchases"
            (by decide)]
          exact hget
    | null => exact Or.inl rfl
    | bool b => exact Or.inl rfl
    | num n => exact Or.inl rfl
    | str t => exact Or.inl rfl
    | obj kvs => exact Or.inl rfl

/-- A call for a locked game whose unlock marker is written: what the call leaves and
returns, in terms of the `addPurchase` step. -/
theorem unlockGame_locked_run (J : JSONApi) (w : World) (gameId : String) (c : UnlockCall)
    (st : LocalStorage) (hlocked : StorageManager.isGameUnlocked w gameId = false)
    (hst : w.storage.setItem (gameId ++ "_unlocked") "true" = .ok st) :
    ∃ w2, StorageManager.addPurchase J c.now c.now2 { w with storage := st } gameId c.price
        = .ok w2 ∧
      unlockGame J c.now c.now2 c.page w gameId c.price
        = (showNotification w2 "Game unlocked successfully!" "success",
           (updateGameCard J (showNotification w2 "Game unlocked successfully!" "success")
              c.page gameId).map (fun _ => true)) ∧
      StorageManager.isGameUnlocked
        (showNotification w2 "Game unlocked successfully!" "success") gameId = true := by
  have hu : includes (gameId ++ "_unlocked") "_unlocked" = true := includes_append_self _ _
  have hpur : gameId ++ "_unlocked" ≠ "playmate_purchases" :=
    StorageManager.ne_of_includes _ _ "_unlocked" hu (by decide)
  have hana : gameId ++ "_unlocked" ≠ "playmate_analytics" :=
    StorageManager.ne_of_includes _ _ "_unlocked" hu (by decide)
  obtain ⟨w2, hadd⟩ := addPurchase_ok J c.now c.now2 { w with storage := st } gameId c.price
  have hmark : st.getItem (gameId ++ "_unlocked") = some "true" :=
    LocalStorage.getItem_setItem_self _ _ _ _ hst
  have hframe := StorageManager.addPurchase_getItem J c.now c.now2 { w with storage := st }
    gameId c.price
  rw [hadd] at hframe
  simp only [worldAfter] at hframe
  have hmark2 : w2.storage.getItem (gameId ++ "_unlocked") = some "true" := by
    rw [hframe _ hpur hana]
    exact hmark
  refine ⟨w2, hadd, ?_, ?_⟩
  · simp only [unlockGame, hlocked, if_true, StorageManager.unlockGame, hst, hadd]
    cases updateGameCard J (showNotification w2 "Game unlocked successfully!" "success")
        c.page gameId <;> rfl
  · simp [StorageManager.isGameUnlocked, showNotification, hmark2]

/-- One call, in any state: the state is unchanged, or the unlock marker is set and the
purchase list is as before or has exactly one more record. -/
theorem unlockGame_cases (J : JSONApi) (w : World) (gameId : String) (c : UnlockCall) :
    (unlockGame J c.now c.now2 c.page w gameId c.price).1 = w ∨
    (StorageManager.isGameUnlocked
        (unlockGame J c.now c.now2 c.page w gameId c.price).1 gameId = true ∧
      ((unlockGame J c.now c.now2 c.page w gameId c.price).1.storage.getItem
          "playmate_purchases" = w.storage.getItem "playmate_purchases" ∨
        ∃ L, StorageManager.getPurchases J w = .ok (.arr L) ∧
          (unlockGame J c.now c.now2 c.page w gameId c.price).1.storage.getItem
            "playmate_purchases"
            = some (J.stringify
                (.arr (L ++ [StorageManager.purchaseRecord gameId c.price c.now])) 0))) := by
  have hu : includes (gameId ++ "_unlocked") "_unlocked" = true := includes_append_self _ _
  have hpur : gameId ++ "_unlocked" ≠ "playmate_purchases" :=
    StorageManager.ne_of_includes _ _ "_unlocked" hu (by decide)
  by_cases hlocked : StorageManager.isGameUnlocked w gameId = false
  · cases hst : w.storage.setItem (gameId ++ "_unlocked") "true" with
    | error e =>
      left
      simp [unlockGame, hlocked, StorageManager.unlockGame, hst]
    | ok st =>
      right
      obtain ⟨w2, hadd, hrun, hun⟩ := unlockGame_locked_run J w gameId c st hlocked hst
      have hsame : st.getItem "playmate_purchases" = w.storage.getItem "playmate_purchases" :=
        LocalStorage.getItem_setItem_other _ _ _ _ _ hst hpur.symm
      have hkey := addPurchase_purchases_key J c.now c.now2 { w with storage := st } gameId
        c.price
      have hgp : StorageManager.getPurchases J { w with storage := st }
          = StorageManager.getPurchases J w :=
        StorageManager.getPurchases_congr J _ w hsame
      rw [hgp, hsame, hadd] at hkey
      simp only [worldAfter] at hkey
      rw [hrun]
      exact ⟨hun, hkey⟩
  · left
    simp [unlockGame, hlocked]

/-- Any number of calls for one id, in any state: the purchase list is as before, or has
exactly one more record, that of one of the calls. -/
theorem unlockGameCalls_at_most_once (J : JSONApi) (gameId : String)
    (calls : List UnlockCall) :
    ∀ w : World,
    (unlockGameCalls J gameId w calls).1.storage.getItem "playmate_purchases"
        = w.storage.getItem "playmate_purchases" ∨
    ∃ L c, c ∈ calls ∧ StorageManager.getPurchases J w = .ok (.arr L) ∧
      (unlockGameCalls J gameId w calls).1.storage.getItem "playmate_purchases"
        = some (J.stringify
            (.arr (L ++ [StorageManager.purchaseRecord gameId c.price c.now])) 0) := by
  induction calls with
  | nil => intro w; exact Or.inl rfl
  | cons c rest ih =>
    intro w
    simp only [unlockGameCalls]
    rcases unlockGame_cases J w gameId c with hsame | ⟨hun, hkey⟩
    · rw [hsame]
      rcases ih w with h | ⟨L, c2, hc2, hL, h⟩
      · exact Or.inl h
      · exact Or.inr ⟨L, c2, List.mem_cons_of_mem _ hc2, hL, h⟩
    · rw [unlockGameCalls_unlocked J _ gameId rest hun]
      rcases hkey with h | ⟨L, hL, h⟩
      · exact Or.inl h
      · exact Or.inr ⟨L, c, List.mem_cons_self _ _, hL, h⟩

set_option maxRecDepth 100000 in
/-- C21 (counterexample): `snake` is not yet unlocked. In a store whose purchases text is
a JSON object, not a list, the call returns true and sets the unlock marker, and no
purchase record is appended: the stored text is as before. In a store whose progress text
for `snake` is `null` the call sets the marker and then throws a `TypeError` instead of
returning true. In a full storage it throws `QuotaExceededError` and sets no marker. -/
theorem unlockGame_counterexample :
    StorageManager.isGameUnlocked objectPurchasesWorld "snake" = false ∧
    (unlockGame RefJSON.api firstUnlockCall.now firstUnlockCall.now2 firstUnlockCall.page
      objectPurchasesWorld "snake" firstUnlockCall.price).2 = .ok true ∧
    StorageManager.isGameUnlocked
      (unlockGame RefJSON.api firstUnlockCall.now firstUnlockCall.now2 firstUnlockCall.page
        objectPurchasesWorld "snake" firstUnlockCall.price).1 "snake" = true ∧
    (unlockGame RefJSON.api firstUnlockCall.now firstUnlockCall.now2 firstUnlockCall.page
      objectPurchasesWorld "snake" firstUnlockCall.price).1.storage.getItem
        "playmate_purchases" = objectPurchasesWorld.storage.getItem "playmate_purchases" ∧
    StorageManager.getPurchases RefJSON.api
      (unlockGame RefJSON.api firstUnlockCall.now firstUnlockCall.now2 firstUnlockCall.page
        objectPurchasesWorld "snake" firstUnlockCall.price).1
      = .ok (.obj [("a", Json.int 1)]) ∧
    StorageManager.isGameUnlocked nullProgressWorld "snake" = false ∧
    (unlockGame RefJSON.api firstUnlockCall.now firstUnlockCall.now2 firstUnlockCall.page
      nullProgressWorld "snake" firstUnlockCall.price).2 = .error .typeError ∧
    StorageManager.isGameUnlocked
      (unlockGame RefJSON.api firstUnlockCall.now firstUnlockCall.now2 firstUnlockCall.page
        nullProgressWorld "snake" firstUnlockCall.price).1 "snake" = true ∧
    StorageManager.isGameUnlocked World.full "snake" = false ∧
    unlockGame RefJSON.api firstUnlockCall.now firstUnlockCall.now2 firstUnlockCall.page
      World.full "snake" firstUnlockCall.price = (World.full, .error .quotaExceeded) := by
  decide!

/-- C21 (amended): `unlockGame(gameId, price)` charges at most once, in every state and
for every JSON built-ins. (1) When the game is already unlocked the call returns false
and leaves the whole state unchanged. (2) When the game is not yet unlocked: if the write
of the unlock marker is refused, the call throws `QuotaExceededError` and leaves the
state unchanged; if it is accepted, the marker is set afterwards, the call returns true
exactly when the card refresh `updateGameCard` does not throw (and throws its error
otherwise), every further call for the id returns false and changes nothing, and the
stored purchase list is as before or is the list `L` read by `getPurchases()` followed by
exactly one record for the call; with lawful JSON built-ins, storage without quota, a
well-formed purchase list `L` and a canonical price it is the latter: `getPurchases()`
then returns `L` followed by the one record, so the number of records for the id is one
more than in `L`. (3) Any number of calls for one id leaves the stored purchase list as
it was or with exactly one more record, that of one of the calls. -/
theorem unlockGame_charges_at_most_once (J : JSONApi) (w : World) (gameId : String) :
    (StorageManager.isGameUnlocked w gameId = true →
      ∀ c : UnlockCall,
        unlockGame J c.now c.now2 c.page w gameId c.price = (w, .ok false)) ∧
    (StorageManager.isGameUnlocked w gameId = false →
      ∀ c : UnlockCall,
        ((∃ e, w.storage.setItem (gameId ++ "_unlocked") "true" = .error e) →
          unlockGame J c.now c.now2 c.page w gameId c.price
            = (w, .error .quotaExceeded)) ∧
        ((∃ st, w.storage.setItem (gameId ++ "_unlocked") "true" = .ok st) →
          StorageManager.isGameUnlocked
            (unlockGame J c.now c.now2 c.page w gameId c.price).1 gameId = true ∧
          (unlockGame J c.now c.now2 c.page w gameId c.price).2
            = (updateGameCard J (unlockGame J c.now c.now2 c.page w gameId c.price).1
                c.page gameId).map (fun _ => true) ∧
          (∀ rest : List UnlockCall,
            unlockGameCalls J gameId w (c :: rest)
              = ((unlockGame J c.now c.now2 c.page w gameId c.price).1,
                 (unlockGame J c.now c.now2 c.page w gameId c.price).2
                   :: rest.map (fun _ => .ok false))) ∧
          ((unlockGame J c.now c.now2 c.page w gameId c.price).1.storage.getItem
              "playmate_purchases" = w.storage.getItem "playmate_purchases" ∨
            ∃ L, StorageManager.getPurchases J w = .ok (.arr L) ∧
              (unlockGame J c.now c.now2 c.page w gameId c.price).1.storage.getItem
                "playmate_purchases"
                = some (J.stringify
                    (.arr (L ++ [StorageManager.purchaseRecord gameId c.price c.now])) 0)) ∧
          (J.Lawful → w.storage.quota = none → c.price.canonical = true →
            ∀ L : List Json, StorageManager.WellFormedPurchases J w L →
              StorageManager.getPurchases J
                  (unlockGame J c.now c.now2 c.page w gameId c.price).1
                = .ok (.arr (L ++ [StorageManager.purchaseRecord gameId c.price c.now])) ∧
              ((L ++ [StorageManager.purchaseRecord gameId c.price c.now]).filter
                  (isRecordFor gameId)).length
                = (L.filter (isRecordFor gameId)).length + 1))) ∧
    (∀ calls : List UnlockCall,
      (unlockGameCalls J gameId w calls).1.storage.getItem "playmate_purchases"
          = w.storage.getItem "playmate_purchases" ∨
      ∃ L c, c ∈ calls ∧ StorageManager.getPurchases J w = .ok (.arr L) ∧
        (unlockGameCalls J gameId w calls).1.storage.getItem "playmate_purchases"
          = some (J.stringify
              (.arr (L ++ [StorageManager.purchaseRecord gameId c.price c.now])) 0)) := by
  refine ⟨fun h c => unlockGame_unlocked J w gameId c h, ?_,
    fun calls => unlockGameCalls_at_most_once J gameId calls w⟩
  intro hlocked c
  have hu : includes (gameId ++ "_unlocked") "_unlocked" = true := includes_append_self _ _
  have hpur : gameId ++ "_unlocked" ≠ "playmate_purchases" :=
    StorageManager.ne_of_includes _ _ "_unlocked" hu (by decide)
  constructor
  · rintro ⟨e, he⟩
    obtain ⟨rfl, _⟩ := LocalStorage.setItem_error _ _ _ _ he
    simp [unlockGame, hlocked, StorageManager.unlockGame, he]
  · rintro ⟨st, hst⟩
    obtain ⟨w2, hadd, hrun, hun⟩ := unlockGame_locked_run J w gameId c st hlocked hst
    have hcases := unlockGame_cases J w gameId c
    rw [hrun] at hcases ⊢
    refine ⟨hun, rfl, ?_, ?_, ?_⟩
    · intro rest
      simp only [unlockGameCalls, hrun, unlockGameCalls_unlocked J _ gameId rest hun]
    · rcases hcases with h | ⟨_, h⟩
      · exact Or.inl (by rw [h])
      · exact h
    · intro hJ hq hprice L hwf
      have hstq : st.quota = none := by rw [LocalStorage.quota_setItem _ _ _ _ hst, hq]
      have hwf1 : StorageManager.WellFormedPurchases J { w with storage := st } L :=
        wellFormedPurchases_congr J _ w L
          (LocalStorage.getItem_setItem_other _ _ _ _ _ hst hpur.symm) hwf
      obtain ⟨w3, purchases, hadd3, hget, hp, _⟩ := StorageManager.addPurchase_appends_of_write J hJ
        c.now c.now2 { w with storage := st } gameId c.price L hwf1 hprice
        ⟨_, LocalStorage.setItem_of_quota_none _ _ _ hstq⟩
      rw [hadd] at hadd3
      have e3 : w2 = w3 := Except.ok.inj hadd3
      subst e3
      constructor
      · rw [← hp]
        exact hget
      · simp [List.filter_append, isRecordFor, StorageManager.purchaseRecord, Json.getProp,
          lookupProp]

set_option maxRecDepth 100000 in
/-- Witness for C21 (amended): in a store where `snake` is unlocked a call returns false
and changes nothing; on a fresh page, where `snake` is locked, three calls in the games
page give true, false, false, set the marker and leave exactly one purchase record, that
of the first call; in a full storage the call throws and changes nothing. -/
theorem unlockGame_charges_at_most_once_witness :
    StorageManager.isGameUnlocked (World.withItems [("snake_unlocked", "true")]) "snake"
      = true ∧
    unlockGame RefJSON.api firstUnlockCall.now firstUnlockCall.now2 firstUnlockCall.page
        (World.withItems [("snake_unlocked", "true")]) "snake" firstUnlockCall.price
      = (World.withItems [("snake_unlocked", "true")], .ok false) ∧
    StorageManager.isGameUnlocked World.fresh "snake" = false ∧
    (unlockGameCalls RefJSON.api "snake" World.fresh sampleUnlockCalls).2
      = [.ok true, .ok false, .ok false] ∧
    StorageManager.isGameUnlocked
      (unlockGameCalls RefJSON.api "snake" World.fresh sampleUnlockCalls).1 "snake" = true ∧
    StorageManager.getPurchases RefJSON.api
        (unlockGameCalls RefJSON.api "snake" World.fresh sampleUnlockCalls).1
      = .ok (.arr [StorageManager.purchaseRecord "snake" snakePrice
          "2024-01-01T10:00:00.000Z"]) ∧
    StorageManager.isGameUnlocked World.full "snake" = false ∧
    unlockGame RefJSON.api firstUnlockCall.now firstUnlockCall.now2 firstUnlockCall.page
        World.full "snake" firstUnlockCall.price
      = (World.full, .error .quotaExceeded) := by
  have hA := (unlockGame_charges_at_most_once RefJSON.api
    (World.withItems [("snake_unlocked", "true")]) "snake").1 (by decide) firstUnlockCall
  have hF := ((unlockGame_charges_at_most_once RefJSON.api World.full "snake").2.1
    (by decide) firstUnlockCall).1 ⟨.quotaExceeded, by decide⟩
  obtain ⟨hun, hret, hcalls, _, hlaw⟩ :=
    ((unlockGame_charges_at_most_once RefJSON.api World.fresh "snake").2.1
      (by decide) firstUnlockCall).2 ⟨_, rfl⟩
  have hret2 : (unlockGame RefJSON.api firstUnlockCall.now firstUnlockCall.now2
      firstUnlockCall.page World.fresh "snake" firstUnlockCall.price).2 = .ok true :=
    hret.trans (by decide!)
  have hc2 : unlockGameCalls RefJSON.api "snake" World.fresh sampleUnlockCalls
      = ((unlockGame RefJSON.api firstUnlockCall.now firstUnlockCall.now2
            firstUnlockCall.page World.fresh "snake" firstUnlockCall.price).1,
         (unlockGame RefJSON.api firstUnlockCall.now firstUnlockCall.now2
            firstUnlockCall.page World.fresh "snake" firstUnlockCall.price).2
           :: [.ok false, .ok false]) :=
    hcalls [⟨"2024-01-01T10:00:05.000Z", "2024-01-01T10:00:05.001Z", gamesPage, snakePrice⟩,
      ⟨"2024-01-01T10:00:09.000Z", "2024-01-01T10:00:09.001Z", gamesPage, brickBreakerPrice⟩]
  have hget := (hlaw RefJSON.api_lawful rfl (by decide) []
    (Or.inl ⟨by decide, rfl⟩)).1
  refine ⟨by decide, hA, by decide, ?_, ?_, ?_, by decide, hF⟩
  · rw [hc2, hret2]
  · rw [hc2]
    exact hun
  · rw [hc2]
    exact hget

end Gameapp
